import Mathlib

/-!
# cnquery: the mock provider and the recording layer

A shallow embedding of `providers/mock/mock.go` and `providers/recording.go`
and the properties of their keyed lookups.

Conventions of the embedding

* A Go `string` and a Go `[]byte` are a Lean `String`.
* A Go `error` is a `GoError`: `none` is `nil`, `some msg` is an error whose
  message is `msg` (`errors.New(msg)`).
* A Go `map[K]V` is a `GoMap K V`, a list of bindings read with `mapGet`.  The
  order of the list is the order in which a `range` loop visits the map, so a
  statement about every list is a statement about every iteration order.
* A Go map or pointer that the code can meet as nil is an `Option`; `none` is
  nil.  Reading a nil map finds nothing, writing to it panics.
* Code that can panic returns an `Outcome`.
* Functions of packages outside these two files (`toml.Unmarshal`,
  `llx.StringPrimitive`, `RawData()`, `types.Resource`, `conf.ToUrl`, `os.Stat`,
  `json.Unmarshal`) are parameters of the definitions that call them.
-/

namespace Cnquery

/-! ## Go runtime -/

/-- A Go `error` value: `none` is `nil`, `some msg` carries the message. -/
abbrev GoError := Option String

/-- Result of running Go code that may panic. -/
inductive Outcome (α : Type) where
  | ret (a : α)
  | panic (msg : String)
  deriving DecidableEq, Repr

/-- A Go map, as the list of its bindings. -/
abbrev GoMap (K V : Type) := List (K × V)

/-- Map read `v, ok := m[k]`: `none` stands for `ok = false`. -/
def mapGet {K V : Type} [DecidableEq K] : GoMap K V → K → Option V
  | [], _ => none
  | (k', v) :: rest, k => if k' = k then some v else mapGet rest k

/-- Map removal `delete(m, k)`. -/
def mapDelete {K V : Type} [DecidableEq K] : GoMap K V → K → GoMap K V
  | [], _ => []
  | (k', v) :: rest, k => if k' = k then mapDelete rest k else (k', v) :: mapDelete rest k

/-- Map write `m[k] = v`. -/
def mapSet {K V : Type} [DecidableEq K] (m : GoMap K V) (k : K) (v : V) : GoMap K V :=
  (k, v) :: mapDelete m k

/-- A Go `interface{}` value: `nil` or a dynamically typed value. -/
inductive Iface where
  | nil
  | bool (b : Bool)
  | int64 (i : Int)
  | float64 (bits : Nat)
  | str (s : String)
  | slice (xs : List Iface)
  | mapSlice (xs : List (List (String × Iface)))
  | dict (kvs : List (String × Iface))

/-! ## llx and proto data (declared outside the files embedded here) -/

/-- The `llx.Primitive` message: a type tag and the encoded value bytes. -/
structure Primitive where
  Typ : String
  Value : String
  deriving DecidableEq, Repr

/-- The `proto.DataRes` message; `Data` is a pointer, `none` is `nil`. -/
structure DataRes where
  Data : Option Primitive
  Error : String
  deriving DecidableEq, Repr

/-- The `llx.MockResource` handle; `MqlName()` is `Name`, `MqlID()` is `ID`. -/
structure MockResource where
  Name : String
  ID : String
  deriving DecidableEq, Repr

/-! ## providers/mock/mock.go -/

/-- The `Resource` struct of mock.go. -/
structure Resource where
  Fields : GoMap String DataRes
  deriving DecidableEq, Repr

/-- The `Resources` map type of mock.go. -/
abbrev Resources := GoMap String Resource

/-- The `Mock` struct of mock.go (the schema pointer plays no part in lookups). -/
structure Mock where
  Inventory : GoMap String Resources
  Providers : List String
  deriving DecidableEq, Repr

/-- `Mock.CreateResource`: the pair is `(handle, err)`, `none` is `nil`.  An
argument is a `*llx.Primitive`; reading `Value` through a nil pointer panics. -/
def Mock.CreateResource (m : Mock) (name : String) (args : GoMap String (Option Primitive)) :
    Outcome (Option MockResource × GoError) :=
  match mapGet m.Inventory name with
  | none => .ret (none, some ("resource '" ++ name ++ "' is not in recording"))
  | some resourceCache =>
    if name = "command" then
      match mapGet args "command" with
      | none => .ret (none, some ("cannot find '" ++ name ++ "' in recording"))
      | some none => .panic "invalid memory address or nil pointer dereference"
      | some (some rid) =>
        let id := rid.Value
        match mapGet resourceCache id with
        | none => .ret (none, some ("cannot find " ++ name ++ " '" ++ id ++ "' in recording"))
        | some _ => .ret (some ⟨name, id⟩, none)
    else
      .ret (none, some ("cannot create resource '" ++ name ++ "' from recording yet"))

/-- `Mock.CreateResourceWithID`: the pair is `(handle, err)`. -/
def Mock.CreateResourceWithID (m : Mock) (name : String) (id : String)
    (_args : GoMap String (Option Primitive)) : Option MockResource × GoError :=
  match mapGet m.Inventory name with
  | none => (none, some ("resource '" ++ name ++ "' is not in recording"))
  | some resourceCache =>
    match mapGet resourceCache id with
    | none => (none, some ("cannot find " ++ name ++ " '" ++ id ++ "' in recording"))
    | some _ => (some ⟨name, id⟩, none)

/-- What one run of `WatchAndUpdate` did: the error it returned and the
invocations of the callback, in order, each with its `(res, err)` arguments. -/
structure WatchResult where
  err : GoError
  calls : List (Iface × GoError)

/-- `Mock.WatchAndUpdate`.  `rawValue d` is `d.RawData().Value` of llx for the
pointer `d`. -/
def Mock.WatchAndUpdate (rawValue : Option Primitive → Iface) (m : Mock)
    (resource : MockResource) (field : String) (_watcherUID : String) : WatchResult :=
  let name := resource.Name
  match mapGet m.Inventory name with
  | none => ⟨some ("resource '" ++ name ++ "' is not in recording"), []⟩
  | some resourceCache =>
    let id := resource.ID
    match mapGet resourceCache id with
    | none => ⟨some ("cannot find " ++ name ++ " '" ++ id ++ "' in recording"), []⟩
    | some x =>
      match mapGet x.Fields field with
      | none =>
        ⟨some ("cannot find field '" ++ field ++ "' in resource " ++ name ++ " (id: " ++ id ++ ")"), []⟩
      | some f =>
        if f.Error ≠ "" then ⟨none, [(Iface.nil, some f.Error)]⟩
        else ⟨none, [(rawValue f.Data, none)]⟩

/-- `llx.StringPrimitive` and `llx.IntPrimitive`, the two constructors of llx
that mock.go calls. -/
structure PrimitiveCtors where
  StringPrimitive : String → Primitive
  IntPrimitive : Int → Primitive

/-- `loadRawDataRes`: the pair is `(DataRes, err)`. -/
def loadRawDataRes (llx : PrimitiveCtors) (raw : Iface) : DataRes × GoError :=
  match raw with
  | .str v => ({ Data := some (llx.StringPrimitive v), Error := "" }, none)
  | .int64 v => ({ Data := some (llx.IntPrimitive v), Error := "" }, none)
  | _ => ({ Data := none, Error := "" }, some "failed to load value")

/-- `loadRawFields`: the resource after the loop and the returned error.  The
assignment `resource.Fields[field], err = ...` stores before `err` is tested. -/
def loadRawFields (llx : PrimitiveCtors) : Resource → List (String × Iface) → Resource × GoError
  | resource, [] => (resource, none)
  | resource, (field, raw) :: rest =>
    let stored : Resource := { Fields := mapSet resource.Fields field (loadRawDataRes llx raw).1 }
    match (loadRawDataRes llx raw).2 with
    | some err => (stored, some err)
    | none => loadRawFields llx stored rest

/-- The loop of `loadMqlInfo` over the providers list; `v.(string)` panics on
an element that is not a string. -/
def appendProviders : List String → List Iface → Outcome (List String)
  | providers, [] => .ret providers
  | providers, .str v :: rest => appendProviders (providers ++ [v]) rest
  | _, _ :: _ => .panic "interface conversion: element is not string"

/-- `loadMqlInfo`: the mock after the call and the returned error; the
unchecked assertion `p.([]interface{})` panics when `p` is no slice. -/
def loadMqlInfo (raw : Iface) (m : Mock) : Outcome (Mock × GoError) :=
  match raw with
  | .dict info =>
    match mapGet info "providers" with
    | some (.slice list) =>
      match appendProviders m.Providers list with
      | .ret providers => .ret ({ m with Providers := providers }, none)
      | .panic msg => .panic msg
    | some _ => .panic "interface conversion: providers is not a slice"
    | none => .ret (m, none)
  | _ => .ret (m, some "mql info is not a map")

/-- The inner loop of `NewFromToml` over the instance ids of one resource
type; `none` stands for the early `return nil, err`. -/
def loadInstances (llx : PrimitiveCtors) (name : String) :
    Resources → List (String × Iface) → Option Resources × GoError
  | resources, [] => (some resources, none)
  | resources, (id, vv) :: rest =>
    match vv with
    | .dict rawFields =>
      match loadRawFields llx { Fields := [] } rawFields with
      | (_, some err) => (none, some err)
      | (resource, none) => loadInstances llx name (mapSet resources id resource) rest
    | _ =>
      (none, some ("incorrect structure of recording TOML (resource " ++ name ++ " (id: " ++ id
        ++ ") should have fields set)"))

/-- The outer loop of `NewFromToml` over the resource types.  The code binds
`res.Inventory[name]` to the map `resources` before filling it; the map is a
reference, so binding it once filled gives the same inventory. -/
def loadResources (llx : PrimitiveCtors) : Mock → List (String × Iface) → Option Mock × GoError
  | res, [] => (some res, none)
  | res, (name, v) :: rest =>
    match v with
    | .dict rawList =>
      match loadInstances llx name [] rawList with
      | (some resources, none) =>
        loadResources llx { res with Inventory := mapSet res.Inventory name resources } rest
      | (_, err) => (none, err)
    | _ =>
      (none, some ("incorrect structure of recording TOML (" ++ name
        ++ " resources should be followed by IDs)"))

/-- `NewFromToml`.  `tomlUnmarshal raw` is the result of `toml.Unmarshal(raw, &tmp)`:
the decoded `tmp` or the decoder's error.  The error of `loadMqlInfo` is dropped,
as in the code. -/
def NewFromToml (tomlUnmarshal : String → Except String Iface) (llx : PrimitiveCtors)
    (raw : String) : Outcome (Option Mock × GoError) :=
  match tomlUnmarshal raw with
  | .error err => .ret (none, some err)
  | .ok tmp =>
    let res : Mock := { Inventory := [], Providers := [] }
    match tmp with
    | .dict rawResources =>
      match mapGet rawResources "mql" with
      | some mqlInfo =>
        match loadMqlInfo mqlInfo res with
        | .panic msg => .panic msg
        | .ret (res, _) => .ret (loadResources llx res (mapDelete rawResources "mql"))
      | none => .ret (loadResources llx res rawResources)
    | _ =>
      .ret (none, some "incorrect structure of recording TOML (outer layer should be resources)")

/-- The resource that a table of fields denotes: what the loop of
`loadRawFields` builds, from an empty resource, when no value is rejected. -/
def fieldsOfTable (llx : PrimitiveCtors) : Iface → Resource
  | .dict rawFields =>
    { Fields := rawFields.foldl (fun m p => mapSet m p.1 (loadRawDataRes llx p.2).1) [] }
  | _ => { Fields := [] }

/-- The instances that a table of ids denotes: what the inner loop of
`NewFromToml` builds when no entry is rejected. -/
def instancesOfTable (llx : PrimitiveCtors) : Iface → Resources
  | .dict rawList => rawList.foldl (fun m p => mapSet m p.1 (fieldsOfTable llx p.2)) []
  | _ => []

/-- A value that `loadRawDataRes` accepts: a string or a 64-bit integer. -/
def isStringOrInt : Iface → Bool
  | .str _ => true
  | .int64 _ => true
  | _ => false

/-- A table of fields whose names are distinct and whose values are strings
or integers. -/
def isFieldTable : Iface → Bool
  | .dict rawFields =>
    decide (rawFields.map Prod.fst).Nodup && rawFields.all (fun p => isStringOrInt p.2)
  | _ => false

/-- A table of instances: distinct ids, each bound to a table of fields. -/
def isInstanceTable : Iface → Bool
  | .dict rawList =>
    decide (rawList.map Prod.fst).Nodup && rawList.all (fun p => isFieldTable p.2)
  | _ => false

/-! ## providers/recording.go -/

/-- The `llx.RawData` struct. -/
structure RawData where
  Typ : String
  Value : Iface
  Error : GoError

/-- A `*llx.RawData`; `none` is the nil pointer. -/
abbrev RawDataPtr := Option RawData

/-- The `resourceRecording` struct; `Fields = none` is the nil map that
`json.Unmarshal` leaves when the document has no `Fields` entry. -/
structure resourceRecording where
  Resource : String
  ID : String
  Fields : Option (GoMap String RawDataPtr)

/-- The `connectionRecording` struct. -/
structure connectionRecording where
  Url : String
  Provider : String
  Connector : String
  Version : String
  id : Nat

/-- The `assetRecording` struct.  The maps `connections` and `resources` hold
pointers in the code; here they hold the records pointed to, and an update
through a pointer is an update of the binding. -/
structure assetRecording where
  Asset : String
  Connections : List connectionRecording
  Resources : List resourceRecording
  connections : GoMap String connectionRecording
  resources : GoMap String resourceRecording

/-- The `recording` struct.  `assets` maps a connection id to a pointer to an
element of `Assets`, kept here as the index of that element: what is read and
written through the pointer are the two maps of the asset, which a copy of the
element shares.  Every recording is built by `refreshCache`, which allocates
`assets` and the maps of each asset. -/
structure recording where
  Assets : List assetRecording
  Path : String
  assets : GoMap Nat Nat

/-- The `readOnlyRecording` struct, which embeds a `*recording`. -/
structure readOnlyRecording where
  recording : recording

/-- The fields of `asset.Platform` that recording.go reads. -/
structure Platform where
  Title : String

/-- The fields of `asset.Asset` that recording.go reads. -/
structure Asset where
  Mrn : String
  Id : String
  Platform : Option Platform

/-- The fields of `providers.Config` that recording.go reads. -/
structure Config where
  Id : Nat
  Typ : String

/-- Key of a resource instance in `assetRecording.resources`. -/
def resourceKey (resource id : String) : String :=
  resource ++ "\x00" ++ id

/-- The read `asset, ok := r.assets[connectionID]`, dereferenced. -/
def recording.assetOf (r : recording) (connectionID : Nat) : Option assetRecording :=
  match mapGet r.assets connectionID with
  | none => none
  | some i => r.Assets[i]?

/-- The body of the loop of `refreshCache` for the asset at index `i`: the
asset with its two maps rebuilt, and `r.assets` after it. -/
def refreshAsset (i : Nat) (asset : assetRecording) (assets : GoMap Nat Nat) :
    assetRecording × GoMap Nat Nat :=
  let resources := asset.Resources.foldl
    (fun m resource => mapSet m (resourceKey resource.Resource resource.ID) resource) []
  let connections := asset.Connections.foldl (fun m conn => mapSet m conn.Url conn) []
  let assets := asset.Connections.foldl
    (fun m conn => if conn.id ≠ 0 then mapSet m conn.id i else m) assets
  ({ asset with resources := resources, connections := connections }, assets)

/-- The loop `for i := range r.Assets` of `refreshCache`, from index `i` on. -/
def refreshAssets : Nat → List assetRecording → GoMap Nat Nat →
    List assetRecording × GoMap Nat Nat
  | _, [], assets => ([], assets)
  | i, asset :: rest, assets =>
    let here := refreshAsset i asset assets
    let after := refreshAssets (i + 1) rest here.2
    (here.1 :: after.1, after.2)

/-- `recording.refreshCache`. -/
def recording.refreshCache (r : recording) : recording :=
  let done := refreshAssets 0 r.Assets []
  { r with Assets := done.1, assets := done.2 }

/-- The search loop of `findAssetConnID`; `none` is `found = -1`. -/
def findAsset : List assetRecording → String → Option Nat
  | [], _ => none
  | asset :: rest, id => if asset.Asset = id then some 0 else (findAsset rest id).map (· + 1)

/-- The identifier `findAssetConnID` computes for an asset. -/
def assetIdentifier (asset : Asset) : String :=
  if asset.Mrn ≠ "" then asset.Mrn
  else if asset.Id ≠ "" then asset.Id
  else match asset.Platform with
    | some platform => platform.Title
    | none => ""

/-- `recording.findAssetConnID`. -/
def recording.findAssetConnID (r : recording) (asset : Asset) (_conf : Config) :
    Option Nat × String :=
  (findAsset r.Assets (assetIdentifier asset), assetIdentifier asset)

/-- Update of the element at index `i` of a slice, through a pointer to it. -/
def updateAt {α : Type} (f : α → α) : List α → Nat → List α
  | [], _ => []
  | a :: rest, 0 => f a :: rest
  | a :: rest, i + 1 => a :: updateAt f rest i

/-- `recording.EnsureAsset`.  `ToUrl conf` is `conf.ToUrl()`. -/
def recording.EnsureAsset (ToUrl : Config → String) (r : recording) (asset : Asset)
    (provider : String) (conf : Config) : recording :=
  let id := (r.findAssetConnID asset conf).2
  let grown : List assetRecording × Nat :=
    match (r.findAssetConnID asset conf).1 with
    | none =>
      (r.Assets ++ [{ Asset := id, Connections := [], Resources := [],
                      connections := [], resources := [] }], r.Assets.length)
    | some found => (r.Assets, found)
  let url := ToUrl conf
  let conn : connectionRecording :=
    { Url := url, Provider := provider, Connector := conf.Typ, Version := "", id := conf.Id }
  { r with
    Assets := updateAt (fun a => { a with connections := mapSet a.connections url conn })
      grown.1 grown.2
    assets := mapSet r.assets conf.Id grown.2 }

/-- `readOnlyRecording.EnsureAsset`. -/
def readOnlyRecording.EnsureAsset (n : readOnlyRecording) (asset : Asset)
    (_provider : String) (conf : Config) : readOnlyRecording :=
  match (n.recording.findAssetConnID asset conf).1 with
  | some found => { recording := { n.recording with assets := mapSet n.recording.assets conf.Id found } }
  | none => n

/-- `readOnlyRecording.AddData`: an empty body. -/
def readOnlyRecording.AddData (n : readOnlyRecording) (_connectionID : Nat)
    (_resource _id _field : String) (_data : RawDataPtr) : readOnlyRecording :=
  n

/-- The write `asset.resources[key] = obj`, or an update of the record that
`asset.resources[key]` points to, for the asset at index `i`. -/
def storeResource (r : recording) (i : Nat) (key : String) (obj : resourceRecording) :
    recording :=
  { r with
    Assets := updateAt (fun a => { a with resources := mapSet a.resources key obj }) r.Assets i }

/-- `recording.AddData`.  When the connection id is unknown the code logs and
goes on with a nil `asset`, so `asset.resources` panics; a write to the nil
`Fields` map of a loaded resource panics as well. -/
def recording.AddData (r : recording) (connectionID : Nat) (resource id field : String)
    (data : RawDataPtr) : Outcome recording :=
  match mapGet r.assets connectionID with
  | none => .panic "invalid memory address or nil pointer dereference"
  | some i =>
    match r.Assets[i]? with
    | none => .panic "invalid memory address or nil pointer dereference"
    | some asset =>
      let key := resourceKey resource id
      match mapGet asset.resources key with
      | none =>
        let obj : resourceRecording := { Resource := resource, ID := id, Fields := some [] }
        if field ≠ "" then
          .ret (storeResource r i key { obj with Fields := some (mapSet [] field data) })
        else .ret (storeResource r i key obj)
      | some obj =>
        if field ≠ "" then
          match obj.Fields with
          | none => .panic "assignment to entry in nil map"
          | some fields =>
            .ret (storeResource r i key { obj with Fields := some (mapSet fields field data) })
        else .ret r

/-- `recording.GetData`.  `typesResource name` is `types.Resource(name)`; the
pair is `(data, found)`. -/
def recording.GetData (typesResource : String → String) (r : recording) (connectionID : Nat)
    (resource id field : String) : RawDataPtr × Bool :=
  match r.assetOf connectionID with
  | none => (none, false)
  | some asset =>
    match mapGet asset.resources (resourceKey resource id) with
    | none => (none, false)
    | some obj =>
      if field = "" then
        (some { Typ := typesResource resource, Value := .str id, Error := none }, true)
      else
        match obj.Fields with
        | none => (none, false)
        | some fields =>
          match mapGet fields field with
          | none => (none, false)
          | some data => (data, true)

/-- `recording.GetResource`: the pair is `(fields, found)`; the first `none`
is a nil map. -/
def recording.GetResource (r : recording) (connectionID : Nat) (resource id : String) :
    Option (GoMap String RawDataPtr) × Bool :=
  match r.assetOf connectionID with
  | none => (none, false)
  | some asset =>
    match mapGet asset.resources (resourceKey resource id) with
    | none => (none, false)
    | some obj => (obj.Fields, true)

/-- `nullRecording.GetData`. -/
def nullRecording.GetData (_connectionID : Nat) (_resource _id _field : String) :
    RawDataPtr × Bool :=
  (none, false)

/-- `nullRecording.GetResource`. -/
def nullRecording.GetResource (_connectionID : Nat) (_resource _id : String) :
    Option (GoMap String RawDataPtr) × Bool :=
  (none, false)

/-- The implementations of the `Recording` interface. -/
inductive Recording where
  | null
  | readOnly (n : readOnlyRecording)
  | readWrite (r : recording)

/-- An `error` of package os: whether `errors.Is(err, os.ErrNotExist)` holds
and the text of `err.Error()`. -/
structure OsError where
  isNotExist : Bool
  text : String

/-- The file system and decoder as recording.go sees them: the error of
`os.Stat(path)` (`none` is nil), `os.ReadFile(path)`, and the struct that
`json.Unmarshal(raw, &res)` fills. -/
structure Files where
  Stat : String → Option OsError
  ReadFile : String → Except String String
  Unmarshal : String → Except String recording

/-- `LoadRecordingFile`: the loaded recording, or the error returned with nil. -/
def LoadRecordingFile (fs : Files) (path : String) : Except String recording :=
  match fs.ReadFile path with
  | .error err => .error err
  | .ok raw =>
    match fs.Unmarshal raw with
    | .error err => .error err
    | .ok res => .ok res.refreshCache

/-- `NewRecording`: the pair is `(recording, err)`. -/
def NewRecording (fs : Files) (path : String) (doRecord : Bool) : Option Recording × GoError :=
  if path = "" ∧ doRecord = false then (some .null, none)
  else
    let path := if path = "" then "recording.json" else path
    match fs.Stat path with
    | none =>
      match LoadRecordingFile fs path with
      | .error err => (none, some ("failed to load recording: " ++ err))
      | .ok res =>
        if doRecord then (some (.readWrite { res with Path := path }), none)
        else (some (.readOnly { recording := { res with Path := path } }), none)
    | some err =>
      if err.isNotExist then
        if doRecord then
          (some (.readWrite (recording.refreshCache { Assets := [], Path := path, assets := [] })),
            none)
        else (none, some ("failed to load recording: '" ++ path ++ "' does not exist"))
      else (none, some ("failed to access recording in '" ++ path ++ "': " ++ err.text))

/-- `nullRecording.Save`. -/
def nullRecording.Save : GoError :=
  none

/-- `nullRecording.EnsureAsset`: an empty body.  The receiver is a struct
without fields; the result is the recording after the call. -/
def nullRecording.EnsureAsset (_asset : Asset) (_provider : String) (_conf : Config) :
    Recording :=
  .null

/-- `nullRecording.AddData`: an empty body; the result is the recording after
the call. -/
def nullRecording.AddData (_connectionID : Nat) (_resource _id _field : String)
    (_data : RawDataPtr) : Recording :=
  .null

/-- Method `EnsureAsset` of the `Recording` interface, by implementation; the
result is the recording after the call. -/
def Recording.EnsureAsset (ToUrl : Config → String) :
    Recording → Asset → String → Config → Recording
  | .null, asset, provider, conf => nullRecording.EnsureAsset asset provider conf
  | .readOnly n, asset, provider, conf => .readOnly (n.EnsureAsset asset provider conf)
  | .readWrite r, asset, provider, conf => .readWrite (r.EnsureAsset ToUrl asset provider conf)

/-- Method `AddData` of the `Recording` interface, by implementation; the
result is the recording after the call. -/
def Recording.AddData :
    Recording → Nat → String → String → String → RawDataPtr → Outcome Recording
  | .null, c, resource, id, field, data => .ret (nullRecording.AddData c resource id field data)
  | .readOnly n, c, resource, id, field, data =>
    .ret (.readOnly (n.AddData c resource id field data))
  | .readWrite r, c, resource, id, field, data =>
    match r.AddData c resource id field data with
    | .ret r' => .ret (.readWrite r')
    | .panic msg => .panic msg

/-- Method `GetData` of the `Recording` interface, by implementation; a
read-only recording uses the method of the `*recording` it embeds. -/
def Recording.GetData (typesResource : String → String) :
    Recording → Nat → String → String → String → RawDataPtr × Bool
  | .null, c, resource, id, field => nullRecording.GetData c resource id field
  | .readOnly n, c, resource, id, field => n.recording.GetData typesResource c resource id field
  | .readWrite r, c, resource, id, field => r.GetData typesResource c resource id field

/-- Method `GetResource` of the `Recording` interface, by implementation. -/
def Recording.GetResource :
    Recording → Nat → String → String → Option (GoMap String RawDataPtr) × Bool
  | .null, c, resource, id => nullRecording.GetResource c resource id
  | .readOnly n, c, resource, id => n.recording.GetResource c resource id
  | .readWrite r, c, resource, id => r.GetResource c resource id

/-- The `llx.Result` message that `RawData.Result()` returns. -/
structure LlxResult where
  Data : Option Primitive
  Error : String

/-- An error built by `multierror.Append`: `none` is nil, `some errs` wraps the
messages of the appended errors, in the order of the appends. -/
abbrev MultiError := Option (List String)

/-- The call `multierror.Append(err, errors.New(msg))`. -/
def multierrorAppend (err : MultiError) (msg : String) : MultiError :=
  match err with
  | none => some [msg]
  | some errs => some (errs ++ [msg])

/-- The loop of `RawDataArgsToPrimitiveArgs` over the arguments, on the state
`(all, err)`.  `Result v` is `v.Result()` of llx. -/
def convertArgs (Result : RawDataPtr → LlxResult) :
    GoMap String (Option Primitive) × MultiError → List (String × RawDataPtr) →
    GoMap String (Option Primitive) × MultiError
  | state, [] => state
  | state, (k, v) :: rest =>
    if (Result v).Error ≠ "" then
      convertArgs Result
        (state.1, multierrorAppend state.2 ("failed to convert '" ++ k ++ "': " ++ (Result v).Error))
        rest
    else convertArgs Result (mapSet state.1 k (Result v).Data, state.2) rest

/-- `RawDataArgsToPrimitiveArgs`: the pair is `(all, err)`. -/
def RawDataArgsToPrimitiveArgs (Result : RawDataPtr → LlxResult)
    (args : GoMap String RawDataPtr) : GoMap String (Option Primitive) × MultiError :=
  convertArgs Result ([], none) args

/-! ## providers/providers.go -/

/-- A directory entry as `afero.ReadDir` returns it: name and `fs.FileMode`. -/
structure DirEntry where
  Name : String
  Mode : Nat

/-- The file system `config.AppFs`: `Stat(path)` gives the mode of the file or
an error; `ReadDir(path)` gives the entries of a directory or an error. -/
structure AppFs where
  Stat : String → Except String Nat
  ReadDir : String → Except String (List DirEntry)

/-- The `Provider` struct; a provider found in a directory has only its `Path`
set. -/
structure Provider where
  Path : String
  deriving DecidableEq, Repr

/-- The mask `fs.ModeType` of package io/fs: the bits of `ModeDir`,
`ModeSymlink`, `ModeNamedPipe`, `ModeSocket`, `ModeDevice`, `ModeCharDevice`
and `ModeIrregular`. -/
def ModeType : Nat :=
  2 ^ 31 + 2 ^ 27 + 2 ^ 25 + 2 ^ 24 + 2 ^ 26 + 2 ^ 21 + 2 ^ 19

/-- The method `FileMode.IsRegular` of package io/fs. -/
def IsRegular (mode : Nat) : Bool :=
  mode &&& ModeType = 0

/-- `isOverlyPermissive`: the pair is `(overlyPermissive, err)`. -/
def isOverlyPermissive (fs : AppFs) (path : String) : Bool × GoError :=
  match fs.Stat path with
  | .error _ => (true, some ("failed to analyze " ++ path))
  | .ok mode => if mode &&& 0o022 ≠ 0 then (true, none) else (false, none)

/-- The first loop of `findProviders`, on the two sets `(candidates,
otherFiles)`: regular files without a dot are candidates, regular files ending
in `.json` are kept aside. -/
def scanFiles : GoMap String Unit × GoMap String Unit → List DirEntry →
    GoMap String Unit × GoMap String Unit
  | sets, [] => sets
  | sets, file :: rest =>
    if ¬ IsRegular file.Mode then scanFiles sets rest
    else if '.' ∉ file.Name.toList then scanFiles (mapSet sets.1 file.Name (), sets.2) rest
    else if ".json".toList.isSuffixOf file.Name.toList then
      scanFiles (sets.1, mapSet sets.2 file.Name ()) rest
    else scanFiles sets rest

/-- The second loop of `findProviders`: a candidate with a `.json` file next
to it is bound in `res`.  `Join` is `filepath.Join`. -/
def registerCandidates (Join : String → String → String) (path : String)
    (otherFiles : GoMap String Unit) : GoMap String Provider → List (String × Unit) →
    GoMap String Provider
  | res, [] => res
  | res, (name, _) :: rest =>
    match mapGet otherFiles (name ++ ".json") with
    | none => registerCandidates Join path otherFiles res rest
    | some _ =>
      registerCandidates Join path otherFiles (mapSet res name { Path := Join path name }) rest

/-- `findProviders`: the returned error and the map `res` after the call. -/
def findProviders (fs : AppFs) (Join : String → String → String) (path : String)
    (res : GoMap String Provider) : GoError × GoMap String Provider :=
  match isOverlyPermissive fs path with
  | (_, some err) => (some err, res)
  | (true, none) =>
    (some ("path is overly permissive, make sure it is not writable to others or the group: "
      ++ path), res)
  | (false, none) =>
    match fs.ReadDir path with
    | .error err => (some err, res)
    | .ok files =>
      let sets := scanFiles ([], []) files
      (none, registerCandidates Join path sets.2 res sets.1)

/-! ## providers/os/connection/local.go -/

/-- A `syscall.WaitStatus`: the process exited with a code, or it ended in
another way (a signal, a stop). -/
inductive WaitStatus where
  | exited (code : Int)
  | notExited
  deriving DecidableEq, Repr

/-- The method `WaitStatus.ExitStatus` of package syscall: the exit code, or
-1 when the process did not exit. -/
def WaitStatus.ExitStatus : WaitStatus → Int
  | .exited code => code
  | .notExited => -1

/-- A non-nil error of `exec.Cmd.Run`: an `*exec.ExitError` with the value of
its `Sys()` (`none` when that is no `syscall.WaitStatus`), or any other error
with its text. -/
inductive RunError where
  | exitError (sys : Option WaitStatus)
  | otherError (text : String)
  deriving DecidableEq, Repr

/-- What running a program does: what it writes and the error of `Run`
(`none` is nil). -/
structure ProcessResult where
  stdout : String
  stderr : String
  err : Option RunError
  deriving DecidableEq, Repr

/-- The fields of `shared.Command` that `Exec` writes, apart from the time
statistics. -/
structure Command where
  Command : String
  ExitStatus : Int
  Stdout : String
  Stderr : String
  deriving DecidableEq, Repr

/-- The `commandRunner` struct; `cmdExecutor` holds the program and arguments
given to `exec.Command`, `none` before the first call. -/
structure commandRunner where
  Command : Command
  cmdExecutor : Option (String × List String)
  Shell : List String
  deriving DecidableEq, Repr

/-- The program and the arguments that `Exec` hands to `exec.Command`. -/
def execProgram (shell : List String) (usercmd : String) (args : List String) :
    String × List String :=
  match shell with
  | shellCommand :: shellArgs => (shellCommand, ([] ++ shellArgs ++ [usercmd]) ++ args)
  | [] => (usercmd, [] ++ args)

/-- `commandRunner.Exec`.  `run cmd args` is what running the program does.
The result is the runner after the call, whose `Command` is the command the
call returns a pointer to, and the returned error. -/
def commandRunner.Exec (run : String → List String → ProcessResult) (c : commandRunner)
    (usercmd : String) (args : List String) : commandRunner × GoError :=
  let prog := execProgram c.Shell usercmd args
  let out := run prog.1 prog.2
  let started : commandRunner :=
    { c with
      Command := { c.Command with
        Command := usercmd ++ " " ++ String.intercalate " " args
        Stdout := out.stdout, Stderr := out.stderr }
      cmdExecutor := some prog }
  match out.err with
  | none => (started, none)
  | some (.exitError (some status)) =>
    ({ started with Command := { started.Command with ExitStatus := status.ExitStatus } }, none)
  | some (.exitError none) => (started, none)
  | some (.otherError text) => (started, some text)

/-- `LocalConnection.RunCommand` for a connection with the given shell;
`sudoBuild` is `p.Sudo.Build` when `p.Sudo` is not nil. -/
def RunCommand (run : String → List String → ProcessResult) (shell : List String)
    (sudoBuild : Option (String → String)) (command : String) : commandRunner × GoError :=
  let command := match sudoBuild with
    | some build => build command
    | none => command
  commandRunner.Exec run
    { Command := { Command := "", ExitStatus := 0, Stdout := "", Stderr := "" },
      cmdExecutor := none, Shell := shell } command []

/-! ## lumi/resources/terraform.go -/

/-- The type of a `cty.Value`, as far as terraform.go tells types apart. -/
inductive CtyType where
  | string
  | bool
  | number
  | dynamic
  | other
  deriving DecidableEq, Repr

/-- A `cty.Value`: a known string, bool or number, a known value of another
type, or a null or unknown value of some type. -/
inductive CtyValue where
  | str (s : String)
  | bool (b : Bool)
  | number (n : Int)
  | otherKnown
  | null (ty : CtyType)
  | unknown (ty : CtyType)
  deriving DecidableEq, Repr

/-- The method `Value.Type` of cty. -/
def CtyValue.Type : CtyValue → CtyType
  | .str _ => .string
  | .bool _ => .bool
  | .number _ => .number
  | .otherKnown => .other
  | .null ty => ty
  | .unknown ty => ty

/-- The method `Value.AsString` of cty, which panics unless the value is a
known string. -/
def CtyValue.AsString : CtyValue → Outcome String
  | .str s => .ret s
  | _ => .panic "value is not a known string"

/-- The method `Value.True` of cty, which panics unless the value is a known
bool. -/
def CtyValue.True : CtyValue → Outcome Bool
  | .bool b => .ret b
  | _ => .panic "value is not a known bool"

/-- A step of an `hcl.Traversal`. -/
inductive Traverser where
  | root (Name : String)
  | attr (Name : String)
  | index
  | splat
  deriving DecidableEq, Repr

/-- An `hcl.Expression` by dynamic type.  For a function call and a
conditional, `value` and `diagsNil` are what `t.Value(ctx)` returns with the
nil context: the value and whether the diagnostics are nil.  For a scope
traversal, `traversals` is what `t.Variables()` returns. -/
inductive Expr where
  | tupleCons (exprs : List Expr)
  | scopeTraversal (traversals : List (List Traverser))
  | functionCall (value : CtyValue) (diagsNil : Bool)
  | conditional (value : CtyValue) (diagsNil : Bool)
  | literalValue (val : CtyValue)
  | template (parts : List Expr)
  | objectCons (items : List (Expr × Expr))
  | otherExpr (typeName : String)

/-- The two loops of the `ScopeTraversalExpr` case: the names of the root and
attribute steps of each traversal, in order. -/
def traversalNames : List (List Traverser) → List String
  | [] => []
  | tr :: rest =>
    tr.filterMap (fun step =>
      match step with
      | .root name => some name
      | .attr name => some name
      | _ => none) ++ traversalNames rest

/-- The `FunctionCallExpr` and `ConditionalExpr` case of `getCtyValue`. -/
def callValue (subVal : CtyValue) (diagsNil : Bool) : Outcome Iface :=
  if diagsNil = true ∧ subVal.Type = .string then
    match subVal.AsString with
    | .ret s => .ret (.slice [.str s])
    | .panic msg => .panic msg
  else .ret (.slice [])

/-- The `LiteralValueExpr` case of `getCtyValue`. -/
def literalValue (val : CtyValue) : Outcome Iface :=
  match val.Type with
  | .string =>
    match val.AsString with
    | .ret s => .ret (.str s)
    | .panic msg => .panic msg
  | .bool =>
    match val.True with
    | .ret b => .ret (.bool b)
    | .panic msg => .panic msg
  | _ => .ret .nil

/-- The step of the two loops of `getCtyValue` that append a result: a slice
is appended element by element, any other value as one element. -/
def spread : Iface → List Iface
  | .slice v => v
  | v => [v]

mutual
/-- `getCtyValue` (the context is always nil).  An expression type without a
case, such as an object constructor, takes the default branch. -/
def getCtyValue : Expr → Outcome Iface
  | .tupleCons exprs =>
    match getCtyValues exprs with
    | .ret results => .ret (.slice results)
    | .panic msg => .panic msg
  | .scopeTraversal traversals =>
    .ret (.str (String.intercalate "." (traversalNames traversals)))
  | .functionCall value diagsNil => callValue value diagsNil
  | .conditional value diagsNil => callValue value diagsNil
  | .literalValue val => literalValue val
  | .template [part] => getCtyValue part
  | .template parts =>
    match getCtyValues parts with
    | .ret results => .ret (.slice results)
    | .panic msg => .panic msg
  | _ => .ret .nil
/-- The loops of `getCtyValue` over sub-expressions. -/
def getCtyValues : List Expr → Outcome (List Iface)
  | [] => .ret []
  | expr :: rest =>
    match getCtyValue expr with
    | .panic msg => .panic msg
    | .ret res =>
      match getCtyValues rest with
      | .panic msg => .panic msg
      | .ret results => .ret (spread res ++ results)
end

/-- An `hcl.Pos`. -/
structure HclPos where
  Line : Int
  Column : Int
  Byte : Int
  deriving DecidableEq, Repr

/-- An `hcl.Range`. -/
structure HclRange where
  Filename : String
  Start : HclPos
  End : HclPos
  deriving DecidableEq, Repr

mutual
/-- An `hcl.Body` by dynamic type: a `*hclsyntax.Body` with its attributes and
blocks; another implementation, with its attributes and the blocks that
`PartialContent(terraform.TerraformSchema_0_12)` yields; or nil. -/
inductive HclBody where
  | syntaxBody (attributes : List (String × Expr)) (blocks : List HclBlock)
  | otherBody (attributes : List (String × Expr)) (content : List HclBlock)
  | nilBody
/-- An `hcl.Block`. -/
inductive HclBlock where
  | mk (Typ : String) (Labels : List String) (TypeRange : HclRange) (Body : HclBody)
end

/-- Field `Type` of an `hcl.Block`. -/
def HclBlock.Typ : HclBlock → String
  | .mk typ _ _ _ => typ

/-- Field `Labels` of an `hcl.Block`. -/
def HclBlock.Labels : HclBlock → List String
  | .mk _ labels _ _ => labels

/-- Field `TypeRange` of an `hcl.Block`. -/
def HclBlock.TypeRange : HclBlock → HclRange
  | .mk _ _ range _ => range

/-- Field `Body` of an `hcl.Block`. -/
def HclBlock.Body : HclBlock → HclBody
  | .mk _ _ _ body => body

/-- The resource `terraform.fileposition` with the fields it is created with;
its accessors `Path()`, `Line()`, `Column()` return these. -/
structure TerraformFileposition where
  Path : String
  Line : Int
  Column : Int
  Byte : Int
  deriving DecidableEq, Repr

/-- The resource `terraform.block` with the fields it is created with, which
its accessors `Type()`, `Labels()`, `Start()` return, and the cache entry
`_hclblock`. -/
structure TerraformBlock where
  Typ : String
  Labels : List String
  Start : TerraformFileposition
  End_ : TerraformFileposition
  hclblock : Option HclBlock

/-- The calls of `runtime.CreateResource` in terraform.go: the error each
returns (`none` is nil) for the fields given. -/
structure LumiRuntime where
  createFileposition : TerraformFileposition → GoError
  createBlock : String → List String → TerraformFileposition → TerraformFileposition → GoError

/-- `newFilePosRange`.  Both positions are created from `r.Start`, as in the
code. -/
def newFilePosRange (runtime : LumiRuntime) (r : HclRange) :
    Except String (TerraformFileposition × TerraformFileposition) :=
  let start : TerraformFileposition :=
    { Path := r.Filename, Line := r.Start.Line, Column := r.Start.Column, Byte := r.Start.Byte }
  match runtime.createFileposition start with
  | some err => .error err
  | none =>
    let stop : TerraformFileposition :=
      { Path := r.Filename, Line := r.Start.Line, Column := r.Start.Column, Byte := r.Start.Byte }
    match runtime.createFileposition stop with
    | some err => .error err
    | none => .ok (start, stop)

/-- `newLumiHclBlock`. -/
def newLumiHclBlock (runtime : LumiRuntime) (block : HclBlock) : Except String TerraformBlock :=
  match newFilePosRange runtime block.TypeRange with
  | .error err => .error err
  | .ok (start, stop) =>
    match runtime.createBlock block.Typ block.Labels start stop with
    | some err => .error err
    | none =>
      .ok { Typ := block.Typ, Labels := block.Labels, Start := start, End_ := stop,
            hclblock := some block }

/-- The loop of `listHclBlocks` over the blocks of a body. -/
def newLumiHclBlocks (runtime : LumiRuntime) : List HclBlock → Except String (List TerraformBlock)
  | [] => .ok []
  | block :: rest =>
    match newLumiHclBlock runtime block with
    | .error err => .error err
    | .ok lumiBlock =>
      match newLumiHclBlocks runtime rest with
      | .error err => .error err
      | .ok lumiHclBlocks => .ok (lumiBlock :: lumiHclBlocks)

/-- `listHclBlocks`. -/
def listHclBlocks (runtime : LumiRuntime) (rawBody : HclBody) :
    Except String (List TerraformBlock) :=
  match rawBody with
  | .syntaxBody _ blocks => newLumiHclBlocks runtime blocks
  | .otherBody _ content => newLumiHclBlocks runtime content
  | .nilBody => .error "unsupported hcl block type"

/-- The loop of `filterBlockByType` over the files; `lumiHclBlocks` is the
slice built so far. -/
def filterFiles (runtime : LumiRuntime) (filterType : String) :
    List TerraformBlock → List (String × HclBody) → List TerraformBlock × GoError
  | lumiHclBlocks, [] => (lumiHclBlocks, none)
  | lumiHclBlocks, (_, body) :: rest =>
    match listHclBlocks runtime body with
    | .error err => ([], some err)
    | .ok blocks =>
      filterFiles runtime filterType
        (lumiHclBlocks ++ blocks.filter (fun b => b.Typ = filterType)) rest

/-- `lumiTerraform.filterBlockByType`.  `files` is `t.Parser().Files()` with
each file's body, or `none` when the transport is no terraform transport.  A
nil slice is the empty list. -/
def filterBlockByType (runtime : LumiRuntime) (files : Option (GoMap String HclBody))
    (filterType : String) : List TerraformBlock × GoError :=
  match files with
  | none => ([], some "terraform resource is not supported on this transport")
  | some files => filterFiles runtime filterType [] files

/-- `lumiTerraform.GetProviders`. -/
def GetProviders (runtime : LumiRuntime) (files : Option (GoMap String HclBody)) :
    List TerraformBlock × GoError :=
  filterBlockByType runtime files "provider"

/-- `lumiTerraform.GetDatasources`. -/
def GetDatasources (runtime : LumiRuntime) (files : Option (GoMap String HclBody)) :
    List TerraformBlock × GoError :=
  filterBlockByType runtime files "data"

/-- `lumiTerraform.GetResources`. -/
def GetResources (runtime : LumiRuntime) (files : Option (GoMap String HclBody)) :
    List TerraformBlock × GoError :=
  filterBlockByType runtime files "resource"

/-- `lumiTerraform.GetVariables`. -/
def GetVariables (runtime : LumiRuntime) (files : Option (GoMap String HclBody)) :
    List TerraformBlock × GoError :=
  filterBlockByType runtime files "variable"

/-- `lumiTerraform.GetOutputs`. -/
def GetOutputs (runtime : LumiRuntime) (files : Option (GoMap String HclBody)) :
    List TerraformBlock × GoError :=
  filterBlockByType runtime files "output"

/-- The loop of `GetArguments` over the attributes. -/
def argumentsOf : GoMap String Iface → List (String × Expr) → Outcome (GoMap String Iface)
  | dict, [] => .ret dict
  | dict, (k, expr) :: rest =>
    match getCtyValue expr with
    | .panic msg => .panic msg
    | .ret v => argumentsOf (mapSet dict k v) rest

/-- `lumiTerraformBlock.GetArguments`: the pair is `(dict, err)`, the first
`none` is the nil map.  `JustAttributes` on a nil body panics. -/
def GetArguments (g : TerraformBlock) : Outcome (Option (GoMap String Iface) × GoError) :=
  match g.hclblock with
  | none => .ret (none, none)
  | some hclBlock =>
    match hclBlock.Body with
    | .nilBody => .panic "invalid memory address or nil pointer dereference"
    | .syntaxBody attributes _ =>
      match argumentsOf [] attributes with
      | .ret dict => .ret (some dict, none)
      | .panic msg => .panic msg
    | .otherBody attributes _ =>
      match argumentsOf [] attributes with
      | .ret dict => .ret (some dict, none)
      | .panic msg => .panic msg

/-- The top-level blocks of a body, as `listHclBlocks` reads them. -/
def topBlocks : HclBody → List HclBlock
  | .syntaxBody _ blocks => blocks
  | .otherBody _ content => content
  | .nilBody => []

/-- The position resource that `newFilePosRange` creates for a range. -/
def positionOf (r : HclRange) : TerraformFileposition :=
  { Path := r.Filename, Line := r.Start.Line, Column := r.Start.Column, Byte := r.Start.Byte }

/-- The `terraform.block` resource that `newLumiHclBlock` creates for a block
when the runtime creates its resources. -/
def lumiBlockOf (block : HclBlock) : TerraformBlock :=
  { Typ := block.Typ, Labels := block.Labels, Start := positionOf block.TypeRange,
    End_ := positionOf block.TypeRange, hclblock := some block }

/-- The decimal digits of `n`, most significant first; `fuel` bounds the
number of digits. -/
def decimalDigits : Nat → Nat → List Char
  | 0, _ => []
  | fuel + 1, n =>
    if n < 10 then [Nat.digitChar n]
    else decimalDigits fuel (n / 10) ++ [Nat.digitChar (n % 10)]

/-- The characters of `strconv.FormatInt(x, 10)`: the decimal digits of the
absolute value, after a minus sign when `x` is negative. -/
def formatIntChars (x : Int) : List Char :=
  if x < 0 then '-' :: decimalDigits (x.natAbs + 1) x.natAbs
  else decimalDigits (x.natAbs + 1) x.natAbs

/-- `strconv.FormatInt(x, 10)`. -/
def FormatInt (x : Int) : String :=
  String.mk (formatIntChars x)

/-- The string that `lumiTerraformBlock.id` builds from a file name, a line
and a column. -/
def blockId (file : String) (line column : Int) : String :=
  "terraform.block/" ++ file ++ "/" ++ FormatInt line ++ "/" ++ FormatInt column

/-- `lumiTerraformBlock.id`: the pair is `(id, err)`. -/
def lumiTerraformBlock.id (g : TerraformBlock) : String × GoError :=
  (blockId g.Start.Path g.Start.Line g.Start.Column, none)

/-! ## lumi/resources/aws_kms.go and aws_dms.go -/

/-- Modelled from the spec: a job of package jobpool (lumi/library/jobpool is
not among the sources).  `f` is what the function of the job returns when it
is called, `none` for a job without a function; `Err` and `Result` are the
fields the callers read. -/
structure Job where
  f : Option (Iface × GoError)
  Err : GoError
  Result : Iface

/-- Modelled from the spec: the bounded worker pool of package jobpool, its
jobs in the order given and the number of workers that bounds the fan-out. -/
structure Pool where
  Jobs : List Job
  workers : Nat

/-- Modelled from the spec: a run of one job stores what its function returns
in `Result` and `Err`; a job without a function is left as it is. -/
def Job.Run (job : Job) : Job :=
  match job.f with
  | some (result, err) => { job with Result := result, Err := err }
  | none => job

/-- Modelled from the spec: `Pool.Run` runs every job once; each job writes
only its own fields, so the pool after the run does not depend on the
schedule of the workers: it is the pool at the end of every complete schedule
of `PoolRun.steps`. -/
def Pool.Run (p : Pool) : Pool :=
  { p with Jobs := p.Jobs.map Job.Run }

/-- Modelled from the spec: what a worker of a running pool does: it takes the
waiting job at index `i`, or it finishes the job at index `i`, which it
holds. -/
inductive WorkerEvent where
  | take (i : Nat)
  | finish (i : Nat)
  deriving DecidableEq, Repr

/-- Modelled from the spec: where a job is during the run of its pool. -/
inductive JobPhase where
  | waiting
  | inFlight
  | finished
  deriving DecidableEq, Repr

/-- Modelled from the spec: a pool during its run, with the phase of each of
its jobs. -/
structure PoolRun where
  pool : Pool
  phases : List JobPhase

/-- Modelled from the spec: the pool before its run, every job waiting. -/
def PoolRun.start (p : Pool) : PoolRun :=
  { pool := p, phases := p.Jobs.map (fun _ => JobPhase.waiting) }

/-- Modelled from the spec: the number of jobs that workers hold. -/
def PoolRun.inFlight (s : PoolRun) : Nat :=
  s.phases.count JobPhase.inFlight

/-- Modelled from the spec: one event of the run.  Each worker holds at most
one job, so a waiting job is taken only while fewer jobs are in flight than
the pool has workers; the worker that finishes a job has run it.  An event
that cannot happen gives `none`. -/
def PoolRun.step (s : PoolRun) : WorkerEvent → Option PoolRun
  | .take i =>
    if s.phases[i]? = some JobPhase.waiting ∧ s.inFlight < s.pool.workers then
      some { pool := s.pool, phases := s.phases.set i JobPhase.inFlight }
    else none
  | .finish i =>
    if s.phases[i]? = some JobPhase.inFlight then
      some { pool := { Jobs := updateAt Job.Run s.pool.Jobs i, workers := s.pool.workers },
             phases := s.phases.set i JobPhase.finished }
    else none

/-- Modelled from the spec: Raw Data (section 3), a payload or an error;
exactly one of the two is meaningful.  The executor and the assessment
evaluator are not among the sources. -/
abbrev Raw := Except String Iface

/-- Modelled from the spec: a Chunk of a Block (section 3): a literal value,
an operator call on References, or a resource-field access on a Reference.  A
Reference is the 1-based position of an earlier chunk of the block. -/
inductive Chunk where
  | literal (v : Iface)
  | call (op : String) (args : List Nat)
  | field (target : Nat) (name : String)

/-- Modelled from the spec: what the Executor calls (sections 4.2 and 4.3):
the Resource Contract that resolves a field of a resource value, and the
builtin operators. -/
structure Engine where
  resolveField : Iface → String → Raw
  builtin : String → List Iface → Raw

/-- Modelled from the spec: the memoized value of a Reference; a Reference
that points to no earlier chunk is an error. -/
def lookupRef (memo : List Raw) (ref : Nat) : Raw :=
  match ref with
  | 0 => .error "invalid reference"
  | k + 1 =>
    match memo[k]? with
    | some r => r
    | none => .error "invalid reference"

/-- Modelled from the spec: the values of the References of a call; a failure
of a referenced chunk propagates to the chunk that references it. -/
def gatherArgs (memo : List Raw) : List Nat → Except String (List Iface)
  | [] => .ok []
  | ref :: rest =>
    match lookupRef memo ref with
    | .error e => .error e
    | .ok v =>
      match gatherArgs memo rest with
      | .error e => .error e
      | .ok vs => .ok (v :: vs)

/-- Modelled from the spec: evaluation of one chunk (section 4.3).  A failure
yields Raw Data that carries the error and does not abort the execution. -/
def evalChunk (engine : Engine) (memo : List Raw) : Chunk → Raw
  | .literal v => .ok v
  | .call op args =>
    match gatherArgs memo args with
    | .error e => .error e
    | .ok vs => engine.builtin op vs
  | .field target name =>
    match lookupRef memo target with
    | .error e => .error e
    | .ok v => engine.resolveField v name

/-- Modelled from the spec: a block is evaluated chunk by chunk in order, each
value memoized at the position of its chunk (section 4.3). -/
def runBlock (engine : Engine) : List Raw → List Chunk → List Raw
  | memo, [] => memo
  | memo, chunk :: rest => runBlock engine (memo ++ [evalChunk engine memo chunk]) rest

/-- Modelled from the spec: the output of an execution, one Raw Result for
each Entrypoint (section 4.3). -/
def execute (engine : Engine) (chunks : List Chunk) (entrypoints : List Nat) :
    List (Nat × Raw) :=
  entrypoints.map (fun e => (e, lookupRef (runBlock engine [] chunks) e))

/-- Modelled from the spec: the status of an assertion (section 4.4). -/
inductive Status where
  | ok
  | failed
  deriving DecidableEq, Repr

/-- Modelled from the spec: whether Raw Data is `true` with no error. -/
def isTrue : Raw → Bool
  | .ok (.bool true) => true
  | _ => false

/-- Modelled from the spec: an assertion, a boolean Raw Data, is ok if it is
`true` with no error and failed otherwise; any Raw Data that carries an error
is failed, with the error as the reason; a data value without an error is
reported as ok (section 4.4). -/
def assessRaw : Raw → Status
  | .ok (.bool true) => .ok
  | .ok (.bool false) => .failed
  | .ok _ => .ok
  | .error _ => .failed

/-- Modelled from the spec: every clause is assessed on its own Raw Result and
all are reported (section 4.4). -/
def assess (results : List (Nat × Raw)) : List (Nat × Status) :=
  results.map (fun r => (r.1, assessRaw r.2))

/-- Modelled from the spec: a chunk of a clause placed after `k` chunks of
earlier clauses: its References move by `k`. -/
def Chunk.shift (k : Nat) : Chunk → Chunk
  | .literal v => .literal v
  | .call op args => .call op (args.map (· + k))
  | .field target name => .field (target + k) name

/-- Modelled from the spec: the References of a chunk. -/
def Chunk.refs : Chunk → List Nat
  | .literal _ => []
  | .call _ args => args
  | .field target _ => [target]

/-- Modelled from the spec: a nested block is run once for an item, with its
self chunk (chunk 1) bound to the item; its value is that of its last chunk
(section 4.3). -/
def runNested (engine : Engine) (body : List Chunk) (item : Iface) : Raw :=
  lookupRef (runBlock engine [.ok item] body) (body.length + 1)

/-- Modelled from the spec: the loop of `all` over the collection, in
collection order and without short circuit: every item is evaluated, and an
item for which the nested block is not `true` is kept as offending. -/
def allLoop (engine : Engine) (body : List Chunk) : List Iface → List Iface → List Iface
  | offending, [] => offending
  | offending, item :: rest =>
    if isTrue (runNested engine body item) then allLoop engine body offending rest
    else allLoop engine body (offending ++ [item]) rest

/-- Modelled from the spec: the assessment of a quantifier: its status and,
for a failure, the offending items (section 4.4). -/
structure Assessment where
  status : Status
  offending : List Iface

/-- Modelled from the spec: the assessment of `collection.all(pred)`, which is
ok when no item is offending. -/
def assessAll (engine : Engine) (collection : List Iface) (body : List Chunk) : Assessment :=
  let offending := allLoop engine body [] collection
  { status := if offending.isEmpty then .ok else .failed, offending := offending }

/-! ## lumi/resources/vsphere/esxi.go -/

/-- The fields of an `esxcli.Response` that esxi.go reads: `Values`, for each
entry a map from a key to its values, and `String` (here `Text`).  The keys of
a map are distinct, so in a loop `for k := range val` the read `val[k]` is the
value bound at the key visited. -/
structure EsxcliResponse where
  Values : List (GoMap String (List String))
  Text : String

/-- The `Esxi` client as its methods use it: `executor` is the result of
`esxcli.NewExecutor(esxi.c.Client, esxi.host)`, an error or the function
`e.Run`. -/
structure Esxi where
  executor : Except String (List String → Except String EsxcliResponse)

/-- The body `if len(val[k]) == 1 { m[k] = val[k][0] }` of the loops that copy
the single-valued keys of an entry into a map. -/
def singleValued (m : GoMap String String) (kv : String × List String) : GoMap String String :=
  match kv.2 with
  | [value] => mapSet m kv.1 value
  | _ => m

/-- The `VmKernelNic` struct; a map that was never assigned is nil, `none`. -/
structure VmKernelNic where
  Properties : GoMap String String
  Ipv4 : Option (GoMap String String)
  Ipv6 : Option (GoMap String String)
  deriving DecidableEq, Repr

/-- `Esxi.VmknixIp`: the pair is `(properties, err)`.  The interface name and
the netstack are not part of the command that is run. -/
def Esxi.VmknixIp (esxi : Esxi) (_interfacename _netstack ipprotocol : String) :
    Option (GoMap String String) × GoError :=
  match esxi.executor with
  | .error err => (none, some err)
  | .ok run =>
    match run ["network", "ip", "interface", ipprotocol, "get"] with
    | .error err => (none, some err)
    | .ok res => (some (res.Values.foldl (fun properties val => val.foldl singleValued properties) []),
        none)

/-- The read `val[key][0]`, which panics when the key is absent or has no
value. -/
def firstValue (val : GoMap String (List String)) (key : String) : Outcome String :=
  match mapGet val key with
  | some (value :: _) => .ret value
  | _ => .panic "index out of range [0] with length 0"

/-- The loop of `Esxi.Vmknics` over the entries of the interface list; `none`
stands for the early `return nil, err`. -/
def vmknicsLoop (esxi : Esxi) :
    List (GoMap String (List String)) → Outcome (Option (List VmKernelNic) × GoError)
  | [] => .ret (some [], none)
  | val :: rest =>
    let nic : VmKernelNic := { Properties := val.foldl singleValued [], Ipv4 := none, Ipv6 := none }
    match firstValue val "Name" with
    | .panic msg => .panic msg
    | .ret name =>
      match firstValue val "NetstackInstance" with
      | .panic msg => .panic msg
      | .ret netstack =>
        match esxi.VmknixIp name netstack "ipv4" with
        | (_, some err) => .ret (none, some err)
        | (ipv4Params, none) =>
          let nic := { nic with Ipv4 := ipv4Params }
          match esxi.VmknixIp name netstack "ipv6" with
          | (_, some err) => .ret (none, some err)
          | (ipv6Params, none) =>
            let nic := { nic with Ipv4 := ipv6Params }
            match vmknicsLoop esxi rest with
            | .panic msg => .panic msg
            | .ret (some vmknics, none) => .ret (some (nic :: vmknics), none)
            | .ret other => .ret other

/-- `Esxi.Vmknics`: the pair is `(vmknics, err)`. -/
def Esxi.Vmknics (esxi : Esxi) : Outcome (Option (List VmKernelNic) × GoError) :=
  match esxi.executor with
  | .error err => .ret (none, some err)
  | .ok run =>
    match run ["network", "ip", "interface", "list"] with
    | .error err => .ret (none, some err)
    | .ok res => vmknicsLoop esxi res.Values

/-- The `EsxiKernelModule` struct. -/
structure EsxiKernelModule where
  Module : String
  ModuleFile : String
  ProvidedNamespaces : String
  RequiredNamespaces : String
  BuildType : String
  ContainingVIB : String
  FileVersion : String
  License : String
  Version : String
  SignatureDigest : String
  SignatureFingerPrint : String
  SignatureIssuer : String
  SignedStatus : String
  VIBAcceptanceLevel : String
  Enabled : Bool
  Loaded : Bool
  deriving DecidableEq, Repr

/-- The zero value `EsxiKernelModule{}`. -/
def EsxiKernelModule.zero : EsxiKernelModule :=
  { Module := "", ModuleFile := "", ProvidedNamespaces := "", RequiredNamespaces := "",
    BuildType := "", ContainingVIB := "", FileVersion := "", License := "", Version := "",
    SignatureDigest := "", SignatureFingerPrint := "", SignatureIssuer := "", SignedStatus := "",
    VIBAcceptanceLevel := "", Enabled := false, Loaded := false }

/-- The body of the loop of `Esxi.KernelModuleDetails` for one key: the switch
on the key, for a key with one value. -/
def kernelModuleKey (module : EsxiKernelModule) (kv : String × List String) :
    EsxiKernelModule :=
  match kv.2 with
  | [value] =>
    match kv.1 with
    | "BuildType" => { module with BuildType := value }
    | "ContainingVIB" => { module with ContainingVIB := value }
    | "FileVersion" => { module with ContainingVIB := value }
    | "License" => { module with License := value }
    | "Module" => { module with Module := value }
    | "ModuleFile" => { module with ModuleFile := value }
    | "ProvidedNamespaces" => { module with ProvidedNamespaces := value }
    | "SignatureDigest" => { module with SignatureDigest := value }
    | "SignatureFingerPrint" => { module with SignatureFingerPrint := value }
    | "SignatureIssuer" => { module with SignatureIssuer := value }
    | "SignedStatus" => { module with SignedStatus := value }
    | "VIBAcceptanceLevel" => { module with VIBAcceptanceLevel := value }
    | "Version" => { module with Version := value }
    | _ => module
  | _ => module

/-- `Esxi.KernelModuleDetails`: the pair is `(module, err)`. -/
def Esxi.KernelModuleDetails (esxi : Esxi) (modulename : String) :
    Option EsxiKernelModule × GoError :=
  match esxi.executor with
  | .error err => (none, some err)
  | .ok run =>
    match run ["system", "module", "get", "--module", modulename] with
    | .error err => (none, some err)
    | .ok res =>
      match res.Values with
      | [] => (none, some ("could not find esxi kernel module " ++ modulename))
      | [val] => (some (val.foldl kernelModuleKey EsxiKernelModule.zero), none)
      | _ => (none, some ("ambiguous esxi kernel module name" ++ modulename))

/-- The `EsxiAdvancedSetting` struct. -/
structure EsxiAdvancedSetting where
  Key : String
  Path : String
  Description : String
  Default : String
  Value : String
  deriving DecidableEq, Repr

/-- `EsxiAdvancedSetting.Overridden`. -/
def EsxiAdvancedSetting.Overridden (s : EsxiAdvancedSetting) : Bool :=
  s.Default != s.Value

/-- `strings.TrimPrefix(s, prefix)`. -/
def TrimPrefix (s pre : String) : String :=
  if pre.data.isPrefixOf s.data then String.mk (s.data.drop pre.data.length) else s

/-- `strings.ReplaceAll(s, old, new)` for one-character `old` and `new`. -/
def ReplaceAllChar (s : String) (old new : Char) : String :=
  String.mk (s.data.map (fun c => if c = old then new else c))

/-- The body of the first loop of `Esxi.AdvancedSettings` for one key. -/
def advancedSettingKey (setting : EsxiAdvancedSetting) (kv : String × List String) :
    EsxiAdvancedSetting :=
  match kv.2 with
  | [value] =>
    match kv.1 with
    | "Path" =>
      { setting with Path := value, Key := ReplaceAllChar (TrimPrefix value "/") '/' '.' }
    | "Description" => { setting with Description := value }
    | "DefaultIntValue" => { setting with Default := value }
    | "DefaultStringValue" => { setting with Default := value }
    | "StringValue" => { setting with Value := value }
    | "IntValue" => { setting with Value := value }
    | _ => setting
  | _ => setting

/-- The body of the second loop of `Esxi.AdvancedSettings` for one key. -/
def kernelSettingKey (setting : EsxiAdvancedSetting) (kv : String × List String) :
    EsxiAdvancedSetting :=
  match kv.2 with
  | [value] =>
    match kv.1 with
    | "Name" => { setting with Path := value, Key := "VMkernel.Boot." ++ value }
    | "Description" => { setting with Description := value }
    | "Default" => { setting with Default := value }
    | "Configured" => { setting with Value := value }
    | _ => setting
  | _ => setting

/-- The zero value `EsxiAdvancedSetting{}`. -/
def EsxiAdvancedSetting.zero : EsxiAdvancedSetting :=
  { Key := "", Path := "", Description := "", Default := "", Value := "" }

/-- `Esxi.AdvancedSettings`: the pair is `(settings, err)`, a nil slice is the
empty list. -/
def Esxi.AdvancedSettings (esxi : Esxi) : List EsxiAdvancedSetting × GoError :=
  match esxi.executor with
  | .error err => ([], some err)
  | .ok run =>
    match run ["system", "settings", "advanced", "list"] with
    | .error err => ([], some err)
    | .ok res =>
      let settings := res.Values.map (fun val => val.foldl advancedSettingKey .zero)
      match run ["system", "settings", "kernel", "list"] with
      | .error err => ([], some err)
      | .ok res =>
        (settings ++ res.Values.map (fun val => val.foldl kernelSettingKey .zero), none)

/-! ## lumi/resources/parsers/ini.go -/

/-- `strings.Index(s, c)` for a one-character `c`: the index of its first
occurrence; `none` is -1. -/
def indexOfChar (c : Char) : List Char → Option Nat
  | [] => none
  | x :: rest => if x = c then some 0 else (indexOfChar c rest).map (· + 1)

/-- `strings.Split(s, sep)` for a one-character separator. -/
def splitOnChar (sep : Char) : List Char → List (List Char)
  | [] => [[]]
  | c :: rest =>
    if c = sep then [] :: splitOnChar sep rest
    else
      match splitOnChar sep rest with
      | first :: others => (c :: first) :: others
      | [] => [[c]]

/-- `strings.SplitN(s, sep, 2)` for a one-character separator. -/
def splitN2 (sep : Char) (s : List Char) : List (List Char) :=
  match indexOfChar sep s with
  | some i => [s.take i, s.drop (i + 1)]
  | none => [s]

/-- Membership in the cutset `" \t\r"` of the two calls of `strings.Trim`. -/
def isCut (c : Char) : Bool :=
  c = ' ' || c = '\t' || c = '\r'

/-- `strings.Trim(s, " \t\r")`. -/
def trimCut (s : List Char) : List Char :=
  ((s.dropWhile isCut).reverse.dropWhile isCut).reverse

/-- The `Ini` struct.  Every value of `Fields` is a map from a key to a
string, stored as `map[string]interface{}`. -/
structure Ini where
  Fields : GoMap String (GoMap String String)
  deriving DecidableEq, Repr

/-- The variables of the loop of `ParseIni`: `curGroup` and `res.Fields`. -/
structure IniState where
  curGroup : String
  Fields : GoMap String (GoMap String String)
  deriving DecidableEq, Repr

/-- The body of the loop of `ParseIni` for one line.  The write to
`res.Fields[curGroup]` asserts that the value is a map, which panics on nil. -/
def iniLine (st : IniState) (rawLine : List Char) : Outcome IniState :=
  let line :=
    match indexOfChar '#' rawLine with
    | some idx => rawLine.take idx
    | none => rawLine
  match line with
  | [] => .ret st
  | c :: _ =>
    if c = '[' then
      match indexOfChar ']' line with
      | some gEnd =>
        if gEnd > 0 then
          .ret { curGroup := String.mk ((line.take gEnd).drop 1),
                 Fields := mapSet st.Fields (String.mk ((line.take gEnd).drop 1)) [] }
        else .ret st
      | none => .ret st
    else
      match splitN2 '=' line with
      | [] => .panic "index out of range [0] with length 0"
      | k0 :: more =>
        if trimCut k0 = [] then .ret st
        else
          let v :=
            match more with
            | [v0] => trimCut v0
            | _ => []
          match mapGet st.Fields st.curGroup with
          | some group =>
            .ret { st with
              Fields := mapSet st.Fields st.curGroup
                (mapSet group (String.mk (trimCut k0)) (String.mk v)) }
          | none => .panic "interface conversion: interface is nil, not a map"

/-- The loop of `ParseIni` over the lines. -/
def iniLines : IniState → List (List Char) → Outcome IniState
  | st, [] => .ret st
  | st, line :: rest =>
    match iniLine st line with
    | .ret st' => iniLines st' rest
    | .panic msg => .panic msg

/-- `ParseIni`. -/
def ParseIni (raw : String) : Outcome Ini :=
  match iniLines { curGroup := "", Fields := mapSet [] "" [] } (splitOnChar '\n' raw.data) with
  | .ret st => .ret { Fields := st.Fields }
  | .panic msg => .panic msg

/-- The key `k` that the body of the loop computes for a line without `#`:
`kv[0]`, the line up to its first `=`, trimmed with `strings.Trim`. -/
def iniKey (line : List Char) : List Char :=
  trimCut (line.takeWhile (fun c => !decide (c = '=')))

/-- The value `v` that the body of the loop computes for a line without `#`:
`kv[1]`, the line after its first `=`, trimmed with `strings.Trim`; empty when
the line has no `=`. -/
def iniValue (line : List Char) : List Char :=
  trimCut ((line.dropWhile (fun c => !decide (c = '='))).drop 1)

/-- The binding that the body of the loop writes for a line without `#`: none
when the key is empty. -/
def iniBinding (line : List Char) : Option (String × String) :=
  if iniKey line = [] then none else some (String.mk (iniKey line), String.mk (iniValue line))

/-! ### ParseIni: the words of the specification -/

/-- In the words of the specification: a space, a tab or a carriage return. -/
def IsBlank (c : Char) : Prop :=
  c = ' ' ∨ c = '\t' ∨ c = '\r'

/-- In the words of the specification: `t` is `s` trimmed of spaces, tabs and
carriage returns.  The text `s` is `t` between two runs of such characters,
and `t` neither starts nor ends with one. -/
def IsTrimmed (t s : List Char) : Prop :=
  ∃ pre suf, s = pre ++ t ++ suf ∧ (∀ c ∈ pre, IsBlank c) ∧ (∀ c ∈ suf, IsBlank c) ∧
    (∀ c, t.head? = some c → ¬ IsBlank c) ∧ (∀ c, t.getLast? = some c → ¬ IsBlank c)

/-- In the words of the specification: `lines` are the lines of `text`.  The
text is its lines with a newline between each two, and no line holds a
newline; a text has at least one line. -/
def IsLinesOf (lines : List (List Char)) (text : List Char) : Prop :=
  lines ≠ [] ∧ text = List.intercalate ['\n'] lines ∧ ∀ line ∈ lines, '\n' ∉ line

/-- In the words of the specification: the line has `k` as the text before its
first `=`, the whole line when it has no `=`, trimmed. -/
def LineHasKey (line : List Char) (k : String) : Prop :=
  ∃ before, '=' ∉ before ∧ (line = before ∨ ∃ after, line = before ++ '=' :: after) ∧
    IsTrimmed k.data before

/-- In the words of the specification: the line has `v` as the text after its
first `=`, trimmed; `v` is the empty string when the line has no `=`. -/
def LineHasValue (line : List Char) (v : String) : Prop :=
  (∃ before after, '=' ∉ before ∧ line = before ++ '=' :: after ∧ IsTrimmed v.data after) ∨
    ('=' ∉ line ∧ v = "")

/-! ## Sample data -/

/-- A mock with one recorded command, one of its fields recorded as an error. -/
def sampleMock : Mock :=
  { Inventory :=
      [("command", [("uname", { Fields := [("stdout", { Data := some ⟨"s", "Linux"⟩, Error := "" }),
                                           ("stderr", { Data := none, Error := "boom" })] })]),
       ("file", [])]
    Providers := [] }

/-- A stand-in for `RawData().Value`: the bytes of the primitive as a string. -/
def sampleRawValue : Option Primitive → Iface
  | some p => .str p.Value
  | none => .nil

/-- A stand-in for `conf.ToUrl()`. -/
def sampleToUrl (conf : Config) : String :=
  conf.Typ ++ "://"

/-- A stand-in for `types.Resource`. -/
def sampleTypesResource (name : String) : String :=
  "resource:" ++ name

/-- Three recorded values, pairwise different. -/
def sampleData : RawDataPtr :=
  some { Typ := "s", Value := .str "Linux", Error := none }

/-- Second sample value. -/
def sampleData2 : RawDataPtr :=
  some { Typ := "s", Value := .str "Darwin", Error := none }

/-- An asset whose identifier is its Mrn, `a`. -/
def sampleAsset : Asset :=
  { Mrn := "a", Id := "", Platform := none }

/-- A connection configuration with connection id 1. -/
def sampleConfig : Config :=
  { Id := 1, Typ := "local" }

/-- The struct `json.Unmarshal` fills from the document
`{"assets":[{"asset":"a","resources":[{"Resource":"r","ID":"i"}]}]}`: the
resource entry has no `Fields`, so the map stays nil. -/
def docNilFields : recording :=
  { Assets := [{ Asset := "a", Connections := [],
                 Resources := [{ Resource := "r", ID := "i", Fields := none }],
                 connections := [], resources := [] }]
    Path := "", assets := [] }

/-- A file system with the one file `rec.json`, which decodes to `docNilFields`. -/
def filesNilFields : Files :=
  { Stat := fun path => if path = "rec.json" then none else some ⟨true, "no such file"⟩
    ReadFile := fun path => if path = "rec.json" then .ok "doc" else .error "no such file"
    Unmarshal := fun _ => .ok docNilFields }

/-- A document in which the resource `(r, i)` of asset `a` has the field
`os = sampleData`. -/
def docOneField : recording :=
  { Assets := [{ Asset := "a", Connections := [],
                 Resources := [{ Resource := "r", ID := "i", Fields := some [("os", sampleData)] }],
                 connections := [], resources := [] }]
    Path := "", assets := [] }

/-- A document in which the resource `(r, i)` of asset `a` has a field with
the empty name. -/
def docEmptyField : recording :=
  { Assets := [{ Asset := "a", Connections := [],
                 Resources := [{ Resource := "r", ID := "i", Fields := some [("", sampleData)] }],
                 connections := [], resources := [] }]
    Path := "", assets := [] }

/-- A document in which asset `a` has two resource entries with different
`(Resource, ID)` pairs and the same key: `(x NUL y, z)` and `(x, y NUL z)`. -/
def docKeyClash : recording :=
  { Assets := [{ Asset := "a", Connections := [],
                 Resources := [{ Resource := "x\x00y", ID := "z", Fields := some [("os", sampleData)] },
                               { Resource := "x", ID := "y\x00z", Fields := some [("os", sampleData2)] }],
                 connections := [], resources := [] }]
    Path := "", assets := [] }

/-- A file system without any file. -/
def filesEmpty : Files :=
  { Stat := fun _ => some ⟨true, "no such file or directory"⟩
    ReadFile := fun _ => .error "no such file or directory"
    Unmarshal := fun _ => .error "unexpected end of JSON input" }

/-- Stand-ins for the two primitive constructors of llx. -/
def samplePrimitives : PrimitiveCtors :=
  { StringPrimitive := fun v => ⟨"string", v⟩
    IntPrimitive := fun v => ⟨"int", if v < 0 then "-" ++ Nat.repr v.natAbs else Nat.repr v.natAbs⟩ }

/-- The value `toml.Unmarshal` decodes from the document

    [mql]
    providers = "os"
    [command.uname]
    stdout = "Linux"

in which `providers` is a string and not an array. -/
def tomlProvidersString : Iface :=
  .dict [("mql", .dict [("providers", .str "os")]),
         ("command", .dict [("uname", .dict [("stdout", .str "Linux")])])]

/-- The value `toml.Unmarshal` decodes from the document

    [mql]
    providers = [1]
    [command.uname]
    stdout = "Linux"

in which `providers` is an array of integers. -/
def tomlProvidersInts : Iface :=
  .dict [("mql", .dict [("providers", .slice [.int64 1])]),
         ("command", .dict [("uname", .dict [("stdout", .str "Linux")])])]

/-- The value `toml.Unmarshal` decodes from the document

    [mql]
    providers = ["os"]
    [command.uname]
    stdout = "Linux"
    exitcode = 0
-/
def tomlGood : Iface :=
  .dict [("mql", .dict [("providers", .slice [.str "os"])]),
         ("command", .dict [("uname", .dict [("stdout", .str "Linux"), ("exitcode", .int64 0)])])]

/-- A file system in which `/opt/providers` is a directory of mode 0777 and
`/usr/providers` a directory of mode 0755 that holds the provider `os` with
its `os.json`, a file `notes.txt` and a directory `aws`. -/
def sampleAppFs : AppFs :=
  { Stat := fun path =>
      if path = "/opt/providers" then .ok (2 ^ 31 + 0o777)
      else if path = "/usr/providers" then .ok (2 ^ 31 + 0o755)
      else .error "no such file or directory"
    ReadDir := fun path =>
      if path = "/usr/providers" then
        .ok [⟨"aws", 2 ^ 31 + 0o755⟩, ⟨"notes.txt", 0o644⟩, ⟨"os", 0o755⟩, ⟨"os.json", 0o644⟩]
      else .error "no such file or directory" }

/-- A stand-in for `filepath.Join`. -/
def sampleJoin (dir name : String) : String :=
  dir ++ "/" ++ name

/-- A stand-in for `RawData.Result()`: the data converts unless it carries an
error. -/
def sampleResult : RawDataPtr → LlxResult
  | some { Typ := _, Value := .str s, Error := none } => { Data := some ⟨"string", s⟩, Error := "" }
  | some { Typ := _, Value := _, Error := some e } => { Data := none, Error := e }
  | _ => { Data := none, Error := "" }

/-- A process table: `sh -c true` succeeds, `sh -c "exit 3"` exits with
status 3, and any other program cannot be started. -/
def sampleRun (cmd : String) (args : List String) : ProcessResult :=
  if cmd = "sh" ∧ args = ["-c", "true"] then { stdout := "", stderr := "", err := none }
  else if cmd = "sh" ∧ args = ["-c", "exit 3"] then
    { stdout := "", stderr := "", err := some (.exitError (some (.exited 3))) }
  else { stdout := "", stderr := "", err := some (.otherError "executable file not found") }

/-- A runner of the shell `sh -c` that has run `exit 3` before. -/
def reusedRunner : commandRunner :=
  (commandRunner.Exec sampleRun
    { Command := { Command := "", ExitStatus := 0, Stdout := "", Stderr := "" },
      cmdExecutor := none, Shell := ["sh", "-c"] } "exit 3" []).1

/-- A runtime that creates every resource. -/
def sampleLumiRuntime : LumiRuntime :=
  { createFileposition := fun _ => none
    createBlock := fun _ _ _ _ => none }

/-- The range of a block type at a line and column of a file. -/
def sampleRange (file : String) (line column : Int) : HclRange :=
  { Filename := file, Start := ⟨line, column, 0⟩, End := ⟨line, column + 8, 8⟩ }

/-- The block

    resource "google_compute_instance" "default" {
      metadata = { enable-oslogin = true }
    }

whose attribute `metadata` is an object constructor. -/
def sampleInstanceBlock : HclBlock :=
  .mk "resource" ["google_compute_instance", "default"] (sampleRange "main.tf" 5 1)
    (.syntaxBody
      [("metadata", .objectCons [(.otherExpr "ObjectConsKeyExpr", .literalValue (.bool true))])]
      [])

/-- Two parsed files: `main.tf` with a provider, a resource and a second
provider, and `vars.tf` with a variable and a provider. -/
def sampleTerraformFiles : GoMap String HclBody :=
  [("main.tf", .syntaxBody []
      [.mk "provider" ["aws"] (sampleRange "main.tf" 1 1) (.syntaxBody [] []),
       sampleInstanceBlock,
       .mk "provider" ["google"] (sampleRange "main.tf" 9 1) (.syntaxBody [] [])]),
   ("vars.tf", .syntaxBody []
      [.mk "variable" ["region"] (sampleRange "vars.tf" 1 1) (.syntaxBody [] []),
       .mk "provider" ["azurerm"] (sampleRange "vars.tf" 4 1) (.syntaxBody [] [])])]

/-- A block of the file `a/1` at line 2, column 3. -/
def sampleBlockNested : TerraformBlock :=
  lumiBlockOf (.mk "provider" [] (sampleRange "a/1" 2 3) (.syntaxBody [] []))

/-- A block of the file `a` at line 1, column 23. -/
def sampleBlockFlat : TerraformBlock :=
  lumiBlockOf (.mk "provider" [] (sampleRange "a" 1 23) (.syntaxBody [] []))

/-- An engine for the samples: a resource is a dictionary of its fields, and
the operators are `==` and `<` on integers and `==` on strings. -/
def sampleEngine : Engine :=
  { resolveField := fun v name =>
      match v with
      | .dict fields =>
        match mapGet fields name with
        | some x => .ok x
        | none => .error ("cannot find field '" ++ name ++ "'")
      | _ => .error "not a resource"
    builtin := fun op args =>
      match op, args with
      | "==", [.int64 x, .int64 y] => .ok (.bool (decide (x = y)))
      | "==", [.str x, .str y] => .ok (.bool (decide (x = y)))
      | "==", [_, _] => .ok (.bool false)
      | "<", [.int64 x, .int64 y] => .ok (.bool (decide (x < y)))
      | _, _ => .error ("unknown operator " ++ op) }

/-- The clause `mondoo.build == 1` on a resource whose build is the string
`development`. -/
def clauseBuild : List Chunk :=
  [.literal (.dict [("build", .str "development"), ("version", .str "unstable")]),
   .field 1 "build", .literal (.int64 1), .call "==" [2, 3]]

/-- The clause `sshd.config`, a data field of a resource. -/
def clauseConfig : List Chunk :=
  [.literal (.dict [("config", .str "/etc/ssh/sshd_config")]), .field 1 "config"]

/-- The clause `user(name: 'notthere').authorizedkeys.file`, whose resource
cannot be created. -/
def clauseMissingUser : List Chunk :=
  [.call "user" [], .field 1 "authorizedkeys"]

/-- A user record. -/
def sampleUser (name : String) (uid gid : Int) : Iface :=
  .dict [("name", .str name), ("uid", .int64 uid), ("gid", .int64 gid)]

/-- The users of the test data: root, chris, christopher, chris, bin. -/
def sampleUsers : List Iface :=
  [sampleUser "root" 0 0, sampleUser "chris" 1000 1001, sampleUser "christopher" 1000 1001,
   sampleUser "chris" 1002 1003, sampleUser "bin" 1 1]

/-- The nested block of `users.all(uid < 1000)`: chunk 1 is the item, then its
uid, the literal 1000 and the comparison. -/
def bodyUidBelow1000 : List Chunk :=
  [.field 1 "uid", .literal (.int64 1000), .call "<" [2, 3]]

/-- An esxcli host whose `system module get` answers with the one entry of the
module `swapobj`, the key `FileVersion` visited after `ContainingVIB`. -/
def esxiSwapobj : Esxi :=
  { executor := .ok (fun _ =>
      .ok { Values := [[("BuildType", ["release"]), ("ContainingVIB", ["esx-base"]),
                        ("FileVersion", ["6.7.0"]), ("License", ["VMware"]),
                        ("Module", ["swapobj"]), ("RequiredNamespaces", ["vmkernel@nover"])]],
            Text := "" }) }

/-- An esxcli host with the one interface `vmk0`, whose ipv4 query yields an
address and whose ipv6 query yields another. -/
def esxiVmk0 : Esxi :=
  { executor := .ok (fun args =>
      if args = ["network", "ip", "interface", "list"] then
        .ok { Values := [[("Name", ["vmk0"]), ("NetstackInstance", ["defaultTcpipStack"])]],
              Text := "" }
      else if args = ["network", "ip", "interface", "ipv4", "get"] then
        .ok { Values := [[("IPv4Address", ["192.168.1.5"])]], Text := "" }
      else if args = ["network", "ip", "interface", "ipv6", "get"] then
        .ok { Values := [[("Address", ["fe80::1"])]], Text := "" }
      else .error "unknown command") }

/-- An advanced-settings entry of the documented shape, integer with default 1
and value 0, whose empty string values are single values. -/
def settingEntry : GoMap String (List String) :=
  [("DefaultIntValue", ["1"]), ("DefaultStringValue", [""]), ("IntValue", ["0"]),
   ("Path", ["/DataMover/HardwareAcceleratedMove"]), ("StringValue", [""]),
   ("Type", ["integer"])]

/-- The same entry with its keys in another order. -/
def settingEntryReordered : GoMap String (List String) :=
  [("DefaultStringValue", [""]), ("DefaultIntValue", ["1"]), ("StringValue", [""]),
   ("IntValue", ["0"]), ("Path", ["/DataMover/HardwareAcceleratedMove"]),
   ("Type", ["integer"])]

/-- An esxcli host whose advanced settings are the one entry given and whose
kernel settings are empty. -/
def esxiSettings (entry : GoMap String (List String)) : Esxi :=
  { executor := .ok (fun args =>
      if args = ["system", "settings", "advanced", "list"] then
        .ok { Values := [entry], Text := "" }
      else .ok { Values := [], Text := "" }) }

/-- An ini text without comments and groups: a value with a later `=`, a
line with an empty key, a key bound twice, and a line without `=`. -/
def iniSample : String :=
  "url = http://h/?q=1\n = x\na=1\na = 2\nflag"

/-- The lines of the sample ini text. -/
def iniSampleLines : List (List Char) :=
  ["url = http://h/?q=1".data, " = x".data, "a=1".data, "a = 2".data, "flag".data]

/-! ## Lemmas: maps and slices -/

theorem mapGet_mapDelete_self {K V : Type} [DecidableEq K] (m : GoMap K V) (k : K) :
    mapGet (mapDelete m k) k = none := by
  induction m with
  | nil => rfl
  | cons p rest ih =>
    obtain ⟨k', v⟩ := p
    by_cases h : k' = k
    · simp [mapDelete, h, ih]
    · simp [mapDelete, mapGet, h, ih]

theorem mapGet_mapDelete_ne {K V : Type} [DecidableEq K] (m : GoMap K V) (k k' : K)
    (h : k ≠ k') : mapGet (mapDelete m k) k' = mapGet m k' := by
  induction m with
  | nil => rfl
  | cons p rest ih =>
    obtain ⟨k₀, v⟩ := p
    by_cases h0 : k₀ = k
    · subst h0
      simp [mapDelete, mapGet, h, ih]
    · by_cases h1 : k₀ = k'
      · subst h1
        simp [mapDelete, mapGet, h0]
      · simp [mapDelete, mapGet, h0, h1, ih]

theorem mapGet_mapSet_self {K V : Type} [DecidableEq K] (m : GoMap K V) (k : K) (v : V) :
    mapGet (mapSet m k v) k = some v := by
  simp [mapSet, mapGet]

theorem mapGet_mapSet_ne {K V : Type} [DecidableEq K] (m : GoMap K V) (k k' : K) (v : V)
    (h : k ≠ k') : mapGet (mapSet m k v) k' = mapGet m k' := by
  simp [mapSet, mapGet, h, mapGet_mapDelete_ne m k k' h]

theorem updateAt_length {α : Type} (f : α → α) (l : List α) (i : Nat) :
    (updateAt f l i).length = l.length := by
  induction l generalizing i with
  | nil => rfl
  | cons a rest ih =>
    cases i with
    | zero => rfl
    | succ i => simp [updateAt, ih]

theorem updateAt_get_self {α : Type} (f : α → α) (l : List α) (i : Nat) (a : α)
    (h : l[i]? = some a) : (updateAt f l i)[i]? = some (f a) := by
  induction l generalizing i with
  | nil => simp at h
  | cons b rest ih =>
    cases i with
    | zero =>
      simp at h
      simp [updateAt, h]
    | succ i =>
      simp at h
      simpa [updateAt] using ih i (by simpa using h)

/-! ## Theorems: the mock provider -/

/-- C1: `Mock.WatchAndUpdate` fails explicitly on an absent key.  If the
resource name is no type of the inventory, or the id is no instance of that
type, or the field is not recorded for that instance, the call returns a
non-nil error and the callback is never invoked. -/
theorem WatchAndUpdate_absent_key_fails (rawValue : Option Primitive → Iface) (m : Mock)
    (resource : MockResource) (field watcherUID : String)
    (h : mapGet m.Inventory resource.Name = none ∨
      (∃ rc, mapGet m.Inventory resource.Name = some rc ∧ mapGet rc resource.ID = none) ∨
      (∃ rc x, mapGet m.Inventory resource.Name = some rc ∧ mapGet rc resource.ID = some x ∧
        mapGet x.Fields field = none)) :
    (m.WatchAndUpdate rawValue resource field watcherUID).err ≠ none ∧
      (m.WatchAndUpdate rawValue resource field watcherUID).calls = [] := by
  rcases h with h | ⟨rc, h1, h2⟩ | ⟨rc, x, h1, h2, h3⟩
  · simp [Mock.WatchAndUpdate, h]
  · simp [Mock.WatchAndUpdate, h1, h2]
  · simp [Mock.WatchAndUpdate, h1, h2, h3]

/-- C1 at a concrete input: the field `exitcode` of the recorded command
`uname` is absent from the sample mock. -/
theorem WatchAndUpdate_absent_key_fails_witness :
    (sampleMock.WatchAndUpdate sampleRawValue ⟨"command", "uname"⟩ "exitcode" "w").err ≠ none ∧
      (sampleMock.WatchAndUpdate sampleRawValue ⟨"command", "uname"⟩ "exitcode" "w").calls = [] :=
  WatchAndUpdate_absent_key_fails sampleRawValue sampleMock ⟨"command", "uname"⟩ "exitcode" "w"
    (Or.inr (Or.inr ⟨_, _, rfl, rfl, rfl⟩))

/-- C5: `Mock.CreateResourceWithID` returns the handle `(name, id)` with a nil
error exactly when the inventory has type `name` with instance `id`; a handle
it returns is that handle; otherwise it returns no handle and a non-nil error;
and the result does not depend on the args. -/
theorem CreateResourceWithID_spec (m : Mock) (name id : String)
    (args args' : GoMap String (Option Primitive)) :
    (m.CreateResourceWithID name id args = (some ⟨name, id⟩, none) ↔
        ∃ rc x, mapGet m.Inventory name = some rc ∧ mapGet rc id = some x) ∧
      (∀ h, (m.CreateResourceWithID name id args).1 = some h →
        h = ⟨name, id⟩ ∧ (m.CreateResourceWithID name id args).2 = none) ∧
      ((¬ ∃ rc x, mapGet m.Inventory name = some rc ∧ mapGet rc id = some x) →
        (m.CreateResourceWithID name id args).1 = none ∧
          (m.CreateResourceWithID name id args).2 ≠ none) ∧
      m.CreateResourceWithID name id args = m.CreateResourceWithID name id args' := by
  unfold Mock.CreateResourceWithID
  cases h1 : mapGet m.Inventory name with
  | none => simp
  | some rc =>
    cases h2 : mapGet rc id with
    | none => simp [h2]
    | some x => simp [h2]

/-- C5 at a concrete input: the recorded command `uname` of the sample mock. -/
theorem CreateResourceWithID_spec_witness :
    sampleMock.CreateResourceWithID "command" "uname" [] = (some ⟨"command", "uname"⟩, none) :=
  (CreateResourceWithID_spec sampleMock "command" "uname" [] []).1.mpr ⟨_, _, rfl, rfl⟩

/-- C6: for the type `file`, `Mock.CreateResource` returns without a panic and
without a handle, and its error is one of two fixed messages, whatever the
arguments are: the message never names the path that was asked for. -/
theorem CreateResource_file_message (m : Mock) (args : GoMap String (Option Primitive)) :
    m.CreateResource "file" args = .ret (none, some "resource 'file' is not in recording") ∨
      m.CreateResource "file" args =
        .ret (none, some "cannot create resource 'file' from recording yet") := by
  unfold Mock.CreateResource
  cases mapGet m.Inventory "file" with
  | none => left; rfl
  | some rc => right; simp

/-- C7: `Mock.CreateResource` for the type `command`.  With an argument
`command` of value `c` the call returns the handle `(command, c)` and no error
exactly when the inventory has type `command` with instance `c`, and an error
without a handle when it has not; it returns an error without a handle when the
type is not in the inventory and when the argument `command` is missing. -/
theorem CreateResource_command (m : Mock) (args : GoMap String (Option Primitive)) :
    (∀ rid, mapGet args "command" = some (some rid) →
        (m.CreateResource "command" args = .ret (some ⟨"command", rid.Value⟩, none) ↔
          ∃ rc x, mapGet m.Inventory "command" = some rc ∧ mapGet rc rid.Value = some x) ∧
        ((¬ ∃ rc x, mapGet m.Inventory "command" = some rc ∧ mapGet rc rid.Value = some x) →
          ∃ e, m.CreateResource "command" args = .ret (none, some e))) ∧
      (mapGet m.Inventory "command" = none →
        ∃ e, m.CreateResource "command" args = .ret (none, some e)) ∧
      (mapGet args "command" = none →
        ∃ e, m.CreateResource "command" args = .ret (none, some e)) := by
  unfold Mock.CreateResource
  refine ⟨?_, ?_, ?_⟩
  · intro rid hrid
    cases h1 : mapGet m.Inventory "command" with
    | none => simp
    | some rc =>
      cases h2 : mapGet rc rid.Value with
      | none => simp [hrid, h2]
      | some x => simp [hrid, h2]
  · intro h1
    simp [h1]
  · intro h2
    cases h1 : mapGet m.Inventory "command" with
    | none => simp
    | some rc => simp [h2]

/-- C7 at a concrete input: the sample mock and the argument `command = uname`. -/
theorem CreateResource_command_witness :
    sampleMock.CreateResource "command" [("command", some ⟨"s", "uname"⟩)] =
      .ret (some ⟨"command", "uname"⟩, none) :=
  ((CreateResource_command sampleMock [("command", some ⟨"s", "uname"⟩)]).1
    ⟨"s", "uname"⟩ rfl).1.mpr ⟨_, _, rfl, rfl⟩

/-- C8: when type, instance and field are all in the inventory,
`Mock.WatchAndUpdate` returns nil and invokes the callback exactly once: with
`(nil, error of the recorded text)` when the recorded `Error` is not empty, and
with `(raw value of the recorded data, nil)` when it is empty. -/
theorem WatchAndUpdate_present (rawValue : Option Primitive → Iface) (m : Mock)
    (resource : MockResource) (field watcherUID : String) (rc : Resources) (x : Resource)
    (f : DataRes) (h1 : mapGet m.Inventory resource.Name = some rc)
    (h2 : mapGet rc resource.ID = some x) (h3 : mapGet x.Fields field = some f) :
    (m.WatchAndUpdate rawValue resource field watcherUID).err = none ∧
      (f.Error ≠ "" →
        (m.WatchAndUpdate rawValue resource field watcherUID).calls =
          [(Iface.nil, some f.Error)]) ∧
      (f.Error = "" →
        (m.WatchAndUpdate rawValue resource field watcherUID).calls =
          [(rawValue f.Data, none)]) := by
  unfold Mock.WatchAndUpdate
  simp only [h1, h2, h3]
  by_cases hf : f.Error = ""
  · simp [hf]
  · simp [hf]

/-- C8 at a concrete input: the field `stderr` of the sample mock is recorded
as the error `boom`. -/
theorem WatchAndUpdate_present_witness :
    (sampleMock.WatchAndUpdate sampleRawValue ⟨"command", "uname"⟩ "stderr" "w").calls =
      [(Iface.nil, some "boom")] :=
  (WatchAndUpdate_present sampleRawValue sampleMock ⟨"command", "uname"⟩ "stderr" "w" _ _
    { Data := none, Error := "boom" } rfl rfl rfl).2.1 (by decide)

/-! ## Theorems: the recording layer -/

/-- C2: `recording.GetData` and `recording.GetResource` report not found when
the connection id is bound to no asset, or the instance `(resource, id)` is not
in the asset; `GetData` with a non-empty field reports not found when the field
is not recorded for the instance (its field map is nil or lacks the field);
the null recording reports not found for every key. -/
theorem GetData_GetResource_absent (typesResource : String → String) (r : recording)
    (connectionID : Nat) (resource id field : String) :
    (mapGet r.assets connectionID = none →
        r.GetData typesResource connectionID resource id field = (none, false) ∧
          r.GetResource connectionID resource id = (none, false)) ∧
      (∀ asset, r.assetOf connectionID = some asset →
        mapGet asset.resources (resourceKey resource id) = none →
        r.GetData typesResource connectionID resource id field = (none, false) ∧
          r.GetResource connectionID resource id = (none, false)) ∧
      (∀ asset obj, r.assetOf connectionID = some asset →
        mapGet asset.resources (resourceKey resource id) = some obj → field ≠ "" →
        (obj.Fields = none ∨ ∃ fields, obj.Fields = some fields ∧ mapGet fields field = none) →
        r.GetData typesResource connectionID resource id field = (none, false)) ∧
      nullRecording.GetData connectionID resource id field = (none, false) ∧
      nullRecording.GetResource connectionID resource id = (none, false) := by
  refine ⟨?_, ?_, ?_, rfl, rfl⟩
  · intro h
    simp [recording.GetData, recording.GetResource, recording.assetOf, h]
  · intro asset h1 h2
    simp [recording.GetData, recording.GetResource, h1, h2]
  · intro asset obj h1 h2 hf h3
    rcases h3 with h3 | ⟨fields, h3, h4⟩
    · simp [recording.GetData, h1, h2, hf, h3]
    · simp [recording.GetData, h1, h2, hf, h3, h4]

/-- C2 at a concrete input: in the replayed sample document the field `arch`
of the resource `(r, i)` was never recorded. -/
theorem GetData_GetResource_absent_witness :
    (readOnlyRecording.EnsureAsset ⟨docOneField.refreshCache⟩ sampleAsset "os"
      sampleConfig).recording.GetData sampleTypesResource 1 "r" "i" "arch" = (none, false) :=
  (GetData_GetResource_absent sampleTypesResource
    (readOnlyRecording.EnsureAsset ⟨docOneField.refreshCache⟩ sampleAsset "os"
      sampleConfig).recording 1 "r" "i" "arch").2.2.1 _ _ rfl rfl (by decide)
    (Or.inr ⟨_, rfl, rfl⟩)

/-- C10: for a non-empty path at which no file exists (`os.Stat` returns an
error), `NewRecording(path, false)` returns no recording and a non-nil error;
when the error is `os.ErrNotExist` the message says that the path does not
exist. -/
theorem NewRecording_missing_file (fs : Files) (path : String) (err : OsError)
    (hpath : path ≠ "") (hstat : fs.Stat path = some err) :
    (NewRecording fs path false).1 = none ∧ (NewRecording fs path false).2 ≠ none ∧
      (err.isNotExist = true →
        NewRecording fs path false =
          (none, some ("failed to load recording: '" ++ path ++ "' does not exist"))) := by
  by_cases hne : err.isNotExist = true
  · simp [NewRecording, hpath, hstat, hne]
  · simp [NewRecording, hpath, hstat, hne]

/-- C10 at a concrete input: the path `missing.json` in an empty file system. -/
theorem NewRecording_missing_file_witness :
    NewRecording filesEmpty "missing.json" false =
      (none, some "failed to load recording: 'missing.json' does not exist") :=
  (NewRecording_missing_file filesEmpty "missing.json" ⟨true, "no such file or directory"⟩
    (by decide) rfl).2.2 rfl

/-! ### Round trip of a value through a recording -/

theorem findAsset_lt (l : List assetRecording) (id : String) (i : Nat)
    (h : findAsset l id = some i) : i < l.length := by
  induction l generalizing i with
  | nil => simp [findAsset] at h
  | cons a rest ih =>
    by_cases ha : a.Asset = id
    · simp [findAsset, ha] at h
      subst h
      simp
    · simp [findAsset, ha] at h
      obtain ⟨j, hj, rfl⟩ := h
      have := ih j hj
      simp
      omega

/-- `recording.EnsureAsset` binds the connection id of the configuration to an
asset of the recording. -/
theorem EnsureAsset_registers (ToUrl : Config → String) (r : recording) (asset : Asset)
    (provider : String) (conf : Config) :
    ∃ a, (r.EnsureAsset ToUrl asset provider conf).assetOf conf.Id = some a := by
  have hlen : ∀ (l : List assetRecording) (i : Nat) (f : assetRecording → assetRecording),
      i < l.length → ∃ a, (updateAt f l i)[i]? = some a := by
    intro l i f hi
    have : i < (updateAt f l i).length := by rw [updateAt_length]; exact hi
    exact ⟨_, List.getElem?_eq_getElem this⟩
  unfold recording.EnsureAsset recording.assetOf
  simp only [mapGet_mapSet_self]
  cases hfound : (r.findAssetConnID asset conf).1 with
  | none =>
    apply hlen
    simp
  | some found =>
    apply hlen
    exact findAsset_lt _ _ _ hfound

/-- Round trip through a recording: when the connection id is bound to an
asset, the field is not empty and the instance is new or has an allocated
field map, `AddData` returns, and then `GetData` yields the stored data and
`GetResource` a field map that binds the field to it. -/
theorem AddData_GetData_roundtrip (typesResource : String → String) (r : recording)
    (c : Nat) (a : assetRecording) (resource id field : String) (data : RawDataPtr)
    (hc : r.assetOf c = some a) (hf : field ≠ "")
    (hfields : ∀ obj, mapGet a.resources (resourceKey resource id) = some obj →
      obj.Fields ≠ none) :
    ∃ r', r.AddData c resource id field data = .ret r' ∧
      r'.GetData typesResource c resource id field = (data, true) ∧
      ∃ fields, r'.GetResource c resource id = (some fields, true) ∧
        mapGet fields field = some data := by
  unfold recording.assetOf at hc
  cases hi : mapGet r.assets c with
  | none => simp [hi] at hc
  | some i =>
    simp only [hi] at hc
    have hget : ∀ obj, ((storeResource r i (resourceKey resource id) obj).assetOf c).map
        (fun x => mapGet x.resources (resourceKey resource id)) = some (some obj) := by
      intro obj
      simp [storeResource, recording.assetOf, hi, updateAt_get_self _ _ _ _ hc,
        mapGet_mapSet_self]
    have hread : ∀ obj fields, obj.Fields = some fields → mapGet fields field = some data →
        (storeResource r i (resourceKey resource id) obj).GetData typesResource c resource id
            field = (data, true) ∧
          (storeResource r i (resourceKey resource id) obj).GetResource c resource id =
            (some fields, true) := by
      intro obj fields h1 h2
      have := hget obj
      cases hx : (storeResource r i (resourceKey resource id) obj).assetOf c with
      | none => simp [hx] at this
      | some x =>
        simp [hx] at this
        simp [recording.GetData, recording.GetResource, hx, this, hf, h1, h2]
    cases hobj : mapGet a.resources (resourceKey resource id) with
    | none =>
      refine ⟨storeResource r i (resourceKey resource id)
        { Resource := resource, ID := id, Fields := some (mapSet [] field data) }, ?_, ?_⟩
      · simp [recording.AddData, hi, hc, hobj, hf]
      · obtain ⟨h1, h2⟩ := hread
          { Resource := resource, ID := id, Fields := some (mapSet [] field data) } _ rfl
          (mapGet_mapSet_self _ _ _)
        exact ⟨h1, _, h2, mapGet_mapSet_self _ _ _⟩
    | some obj =>
      cases hfs : obj.Fields with
      | none => exact absurd hfs (hfields obj hobj)
      | some fields =>
        refine ⟨storeResource r i (resourceKey resource id)
          { obj with Fields := some (mapSet fields field data) }, ?_, ?_⟩
        · simp [recording.AddData, hi, hc, hobj, hf, hfs]
        · obtain ⟨h1, h2⟩ := hread
            { obj with Fields := some (mapSet fields field data) } _ rfl
            (mapGet_mapSet_self _ _ _)
          exact ⟨h1, _, h2, mapGet_mapSet_self _ _ _⟩

/-- The round trip at a concrete input: a new recording, one asset, one value. -/
theorem AddData_GetData_roundtrip_witness :
    ∃ r', ((recording.refreshCache { Assets := [], Path := "rec.json", assets := [] }).EnsureAsset
        sampleToUrl sampleAsset "os" sampleConfig).AddData 1 "r" "i" "os" sampleData = .ret r' ∧
      r'.GetData sampleTypesResource 1 "r" "i" "os" = (sampleData, true) ∧
      ∃ fields, r'.GetResource 1 "r" "i" = (some fields, true) ∧
        mapGet fields "os" = some sampleData :=
  AddData_GetData_roundtrip sampleTypesResource _ 1
    { Asset := "a", Connections := [], Resources := [],
      connections := [("local://", ⟨"local://", "os", "local", "", 1⟩)], resources := [] }
    "r" "i" "os" sampleData rfl (by decide) (by intro obj h; simp [mapGet] at h)

/-- C3: a recording that `NewRecording` loads for recording from a document
whose resource entry `(r, i)` has no `Fields` (the map stays nil): after
`EnsureAsset` has registered connection 1, `AddData(1, r, i, f, d)` with a
non-empty field panics on the write to the nil map, so no value is stored. -/
theorem AddData_nil_fields_panics :
    ∃ r, NewRecording filesNilFields "rec.json" true = (some (.readWrite r), none) ∧
      ((r.EnsureAsset sampleToUrl sampleAsset "os" sampleConfig).assetOf 1).isSome = true ∧
      (r.EnsureAsset sampleToUrl sampleAsset "os" sampleConfig).AddData 1 "r" "i" "os"
        sampleData = .panic "assignment to entry in nil map" :=
  ⟨_, rfl, rfl, rfl⟩

/-! ### Replay of a loaded recording -/

theorem foldl_mapSet_skip {V : Type} (key : V → String) (l : List V) (init : GoMap String V)
    (k : String) (h : ∀ x ∈ l, key x ≠ k) :
    mapGet (l.foldl (fun m x => mapSet m (key x) x) init) k = mapGet init k := by
  induction l generalizing init with
  | nil => rfl
  | cons x rest ih =>
    simp only [List.foldl_cons]
    rw [ih _ (fun y hy => h y (List.mem_cons_of_mem _ hy))]
    exact mapGet_mapSet_ne _ _ _ _ (h x (List.mem_cons_self _ _))

theorem foldl_mapSet_unique {V : Type} (key : V → String) (l : List V) (init : GoMap String V)
    (j : Nat) (e : V) (hj : l[j]? = some e)
    (h : ∀ k e', l[k]? = some e' → k ≠ j → key e' ≠ key e) :
    mapGet (l.foldl (fun m x => mapSet m (key x) x) init) (key e) = some e := by
  induction l generalizing init j with
  | nil => simp at hj
  | cons x rest ih =>
    simp only [List.foldl_cons]
    cases j with
    | zero =>
      simp at hj
      subst hj
      rw [foldl_mapSet_skip]
      · exact mapGet_mapSet_self _ _ _
      · intro y hy
        obtain ⟨k, hk⟩ := List.getElem?_of_mem hy
        exact h (k + 1) y (by simpa using hk) (by omega)
    | succ j =>
      apply ih _ j (by simpa using hj)
      intro k e' hk hne
      exact h (k + 1) e' (by simpa using hk) (by omega)

theorem refreshAssets_fst (i : Nat) (l : List assetRecording) (m : GoMap Nat Nat) :
    (refreshAssets i l m).1 = l.map (fun a => (refreshAsset 0 a []).1) := by
  induction l generalizing i m with
  | nil => rfl
  | cons a rest ih =>
    simp only [refreshAssets, List.map_cons, ih]
    rfl

theorem findAsset_map (g : assetRecording → assetRecording) (hg : ∀ a, (g a).Asset = a.Asset)
    (l : List assetRecording) (id : String) : findAsset (l.map g) id = findAsset l id := by
  induction l with
  | nil => rfl
  | cons a rest ih => simp [findAsset, hg, ih]

theorem findAsset_first (l : List assetRecording) (id : String) (i : Nat) (a : assetRecording)
    (hi : l[i]? = some a) (hid : a.Asset = id)
    (hfirst : ∀ k b, k < i → l[k]? = some b → b.Asset ≠ id) : findAsset l id = some i := by
  induction l generalizing i with
  | nil => simp at hi
  | cons b rest ih =>
    cases i with
    | zero =>
      simp at hi
      subst hi
      simp [findAsset, hid]
    | succ i =>
      have hb : b.Asset ≠ id := hfirst 0 b (by omega) (by simp)
      have := ih i (by simpa using hi)
        (fun k c hk hc => hfirst (k + 1) c (by omega) (by simpa using hc))
      simp [findAsset, hb, this]

/-- C4, as amended: replay of a loaded recording.  Let the recording be rebuilt
from a document (`refreshCache`) whose first asset with identifier `a` holds a
resource entry `(r, id)` with the field `f = d`, `f` not empty, and no other
resource entry of that asset has the key `r NUL id`.  After
`readOnlyRecording.EnsureAsset` with an asset of identifier `a` and a
configuration with `Id = c`, `GetData(c, r, id, f)` returns `(d, true)`.  And
`EnsureAsset` on a read-only recording never changes the list of assets. -/
theorem readOnly_replay (typesResource : String → String) (doc : recording) (asset : Asset)
    (provider : String) (conf : Config) (i : Nat) (a : assetRecording) (j : Nat)
    (e : resourceRecording) (fields : GoMap String RawDataPtr) (f : String) (d : RawDataPtr)
    (hi : doc.Assets[i]? = some a) (hid : a.Asset = assetIdentifier asset)
    (hfirst : ∀ k b, k < i → doc.Assets[k]? = some b → b.Asset ≠ assetIdentifier asset)
    (hj : a.Resources[j]? = some e) (hfs : e.Fields = some fields)
    (hd : mapGet fields f = some d) (hf : f ≠ "")
    (hkey : ∀ k e', a.Resources[k]? = some e' → k ≠ j →
      resourceKey e'.Resource e'.ID ≠ resourceKey e.Resource e.ID) :
    (readOnlyRecording.EnsureAsset ⟨doc.refreshCache⟩ asset provider conf).recording.GetData
        typesResource conf.Id e.Resource e.ID f = (d, true) ∧
      ∀ (n : readOnlyRecording) (asset' : Asset) (provider' : String) (conf' : Config),
        (n.EnsureAsset asset' provider' conf').recording.Assets = n.recording.Assets := by
  constructor
  · have hassets : doc.refreshCache.Assets = doc.Assets.map (fun a => (refreshAsset 0 a []).1) :=
      refreshAssets_fst 0 doc.Assets []
    have hfind : findAsset (doc.Assets.map (fun a => (refreshAsset 0 a []).1))
        (assetIdentifier asset) = some i := by
      rw [findAsset_map (fun a => (refreshAsset 0 a []).1) (fun _ => rfl)]
      exact findAsset_first _ _ i a hi hid hfirst
    have hres : mapGet (refreshAsset 0 a []).1.resources (resourceKey e.Resource e.ID) = some e :=
      foldl_mapSet_unique (fun x : resourceRecording => resourceKey x.Resource x.ID)
        a.Resources [] j e hj hkey
    have hof : (readOnlyRecording.EnsureAsset ⟨doc.refreshCache⟩ asset provider
        conf).recording.assetOf conf.Id = some (refreshAsset 0 a []).1 := by
      simp [readOnlyRecording.EnsureAsset, recording.findAssetConnID, hassets, hfind,
        recording.assetOf, mapGet_mapSet_self, hi]
    simp [recording.GetData, hof, hres, hf, hfs, hd]
  · intro n asset' provider' conf'
    unfold readOnlyRecording.EnsureAsset
    cases (n.recording.findAssetConnID asset' conf').1 <;> rfl

/-- C4 at a concrete input: the sample document with the field `os` of the
resource `(r, i)` of asset `a`, replayed on connection 1. -/
theorem readOnly_replay_witness :
    (readOnlyRecording.EnsureAsset ⟨docOneField.refreshCache⟩ sampleAsset "os"
      sampleConfig).recording.GetData sampleTypesResource 1 "r" "i" "os" = (sampleData, true) :=
  (readOnly_replay sampleTypesResource docOneField sampleAsset "os" sampleConfig 0
    { Asset := "a", Connections := [],
      Resources := [{ Resource := "r", ID := "i", Fields := some [("os", sampleData)] }],
      connections := [], resources := [] }
    0 { Resource := "r", ID := "i", Fields := some [("os", sampleData)] } [("os", sampleData)]
    "os" sampleData rfl rfl (by intro k b hk; omega) rfl rfl rfl (by decide)
    (by
      intro k e' hk hne
      cases k with
      | zero => exact absurd rfl hne
      | succ k => simp at hk)).1

/-- C4 fails as stated, at two documents replayed on connection 1 for the
asset `a`.  In the first the resource `(r, i)` holds a field with the empty
name and value `sampleData`: `GetData(1, r, i, "")` returns a reference to the
resource, not the recorded value.  In the second the entries `(x NUL y, z)` and
`(x, y NUL z)` are different instances with one key: `GetData` for the first
instance and its field `os = sampleData` returns the value of the second. -/
theorem readOnly_replay_counterexample :
    ((readOnlyRecording.EnsureAsset ⟨docEmptyField.refreshCache⟩ sampleAsset "os"
        sampleConfig).recording.GetData sampleTypesResource 1 "r" "i" "" =
        (some { Typ := sampleTypesResource "r", Value := .str "i", Error := none }, true) ∧
      (some { Typ := sampleTypesResource "r", Value := .str "i", Error := none } : RawDataPtr)
        ≠ sampleData) ∧
    ((readOnlyRecording.EnsureAsset ⟨docKeyClash.refreshCache⟩ sampleAsset "os"
        sampleConfig).recording.GetData sampleTypesResource 1 "x\x00y" "z" "os" =
        (sampleData2, true) ∧
      sampleData2 ≠ sampleData ∧
      (("x\x00y", "z") : String × String) ≠ ("x", "y\x00z")) := by
  refine ⟨⟨rfl, ?_⟩, rfl, ?_, by decide⟩
  · simp [sampleData]
  · simp [sampleData, sampleData2]

/-! ## Theorems: loading a mock from TOML -/

/-- C9: `NewFromToml` on a document whose `mql` table has `providers = "os"`
(a string, not an array) and whose only other table is well formed: the
unchecked assertion in `loadMqlInfo` panics, so no inventory is returned.  The
same happens for `providers = [1]`, at the assertion on the element. -/
theorem NewFromToml_providers_string_panics :
    NewFromToml (fun _ => .ok tomlProvidersString) samplePrimitives "" =
        .panic "interface conversion: providers is not a slice" ∧
      NewFromToml (fun _ => .ok tomlProvidersInts) samplePrimitives "" =
        .panic "interface conversion: element is not string" :=
  ⟨rfl, rfl⟩

/-! ### What `NewFromToml` loads when `loadMqlInfo` returns -/

theorem foldl_mapSet_miss {A V : Type} (val : A → V) (l : List (String × A))
    (init : GoMap String V) (k : String) (h : k ∉ l.map Prod.fst) :
    mapGet (l.foldl (fun m p => mapSet m p.1 (val p.2)) init) k = mapGet init k := by
  induction l generalizing init with
  | nil => rfl
  | cons x rest ih =>
    simp only [List.map_cons, List.mem_cons, not_or] at h
    simp only [List.foldl_cons]
    rw [ih _ h.2]
    exact mapGet_mapSet_ne _ _ _ _ (fun hx => h.1 hx.symm)

theorem foldl_mapSet_hit {A V : Type} (val : A → V) (l : List (String × A))
    (init : GoMap String V) (k : String) (a : A) (hnodup : (l.map Prod.fst).Nodup)
    (h : (k, a) ∈ l) :
    mapGet (l.foldl (fun m p => mapSet m p.1 (val p.2)) init) k = some (val a) := by
  induction l generalizing init with
  | nil => simp at h
  | cons x rest ih =>
    simp only [List.map_cons, List.nodup_cons] at hnodup
    simp only [List.foldl_cons]
    rcases List.mem_cons.mp h with hx | hx
    · subst hx
      rw [foldl_mapSet_miss val rest _ _ hnodup.1]
      exact mapGet_mapSet_self _ _ _
    · exact ih _ hnodup.2 hx

/-- Reading a map built by one pass over a table with distinct keys. -/
theorem mapGet_foldl_mapSet_iff {A V : Type} (val : A → V) (l : List (String × A)) (k : String)
    (b : V) (hnodup : (l.map Prod.fst).Nodup) :
    mapGet (l.foldl (fun m p => mapSet m p.1 (val p.2)) []) k = some b ↔
      ∃ a, (k, a) ∈ l ∧ b = val a := by
  constructor
  · intro h
    by_cases hk : k ∈ l.map Prod.fst
    · obtain ⟨p, hp, rfl⟩ := List.mem_map.mp hk
      rw [foldl_mapSet_hit val l [] p.1 p.2 hnodup hp] at h
      exact ⟨p.2, hp, (Option.some.inj h).symm⟩
    · rw [foldl_mapSet_miss val l [] k hk] at h
      simp [mapGet] at h
  · rintro ⟨a, ha, rfl⟩
    exact foldl_mapSet_hit val l [] k a hnodup ha

theorem mapDelete_eq_filter {V : Type} (m : GoMap String V) (k : String) :
    mapDelete m k = m.filter (fun p => decide (p.1 ≠ k)) := by
  induction m with
  | nil => rfl
  | cons p rest ih =>
    obtain ⟨k', v⟩ := p
    by_cases h : k' = k
    · simp [mapDelete, h, ih]
    · simp [mapDelete, h, ih]

theorem loadRawDataRes_accepts (llx : PrimitiveCtors) (raw : Iface)
    (h : isStringOrInt raw = true) : (loadRawDataRes llx raw).2 = none := by
  cases raw <;> simp_all [isStringOrInt, loadRawDataRes]

theorem loadRawFields_accepts (llx : PrimitiveCtors) (resource : Resource)
    (rawFields : List (String × Iface)) (h : ∀ p ∈ rawFields, isStringOrInt p.2 = true) :
    loadRawFields llx resource rawFields =
      ({ Fields := rawFields.foldl (fun m p => mapSet m p.1 (loadRawDataRes llx p.2).1)
          resource.Fields }, none) := by
  induction rawFields generalizing resource with
  | nil => rfl
  | cons p rest ih =>
    obtain ⟨field, raw⟩ := p
    have hraw := loadRawDataRes_accepts llx raw (h (field, raw) (List.mem_cons_self _ _))
    simp only [loadRawFields, hraw, List.foldl_cons]
    exact ih _ (fun q hq => h q (List.mem_cons_of_mem _ hq))

theorem loadInstances_accepts (llx : PrimitiveCtors) (name : String) (resources : Resources)
    (rawList : List (String × Iface)) (h : ∀ p ∈ rawList, isFieldTable p.2 = true) :
    loadInstances llx name resources rawList =
      (some (rawList.foldl (fun m p => mapSet m p.1 (fieldsOfTable llx p.2)) resources),
        none) := by
  induction rawList generalizing resources with
  | nil => rfl
  | cons p rest ih =>
    obtain ⟨id, vv⟩ := p
    have hvv := h (id, vv) (List.mem_cons_self _ _)
    cases vv with
    | dict rawFields =>
      simp only [isFieldTable, Bool.and_eq_true, List.all_eq_true] at hvv
      simp only [loadInstances, loadRawFields_accepts llx _ rawFields hvv.2, List.foldl_cons]
      exact ih _ (fun q hq => h q (List.mem_cons_of_mem _ hq))
    | _ => simp [isFieldTable] at hvv

theorem loadResources_accepts (llx : PrimitiveCtors) (res : Mock)
    (rawResources : List (String × Iface))
    (h : ∀ p ∈ rawResources, isInstanceTable p.2 = true) :
    loadResources llx res rawResources =
      (some { Inventory := rawResources.foldl
                (fun m p => mapSet m p.1 (instancesOfTable llx p.2)) res.Inventory,
              Providers := res.Providers }, none) := by
  induction rawResources generalizing res with
  | nil => rfl
  | cons p rest ih =>
    obtain ⟨name, v⟩ := p
    have hv := h (name, v) (List.mem_cons_self _ _)
    cases v with
    | dict rawList =>
      simp only [isInstanceTable, Bool.and_eq_true, List.all_eq_true] at hv
      simp only [loadResources, loadInstances_accepts llx name [] rawList hv.2, List.foldl_cons]
      exact ih _ (fun q hq => h q (List.mem_cons_of_mem _ hq))
    | _ => simp [isInstanceTable] at hv

theorem mapGet_eq_none {V : Type} (m : GoMap String V) (k : String) (h : mapGet m k = none) :
    ∀ p ∈ m, p.1 ≠ k := by
  induction m with
  | nil => simp
  | cons q rest ih =>
    obtain ⟨k', v⟩ := q
    by_cases hk : k' = k
    · simp [mapGet, hk] at h
    · simp only [mapGet, hk, if_false] at h
      intro p hp
      rcases List.mem_cons.mp hp with rfl | hp
      · exact hk
      · exact ih h p hp

theorem loadMqlInfo_inventory (raw : Iface) (m m' : Mock) (e : GoError)
    (h : loadMqlInfo raw m = .ret (m', e)) : m'.Inventory = m.Inventory := by
  unfold loadMqlInfo at h
  split at h <;> try split at h
  all_goals try split at h
  all_goals simp at h
  all_goals try (obtain ⟨rfl, _⟩ := h; rfl)

/-- What `NewFromToml` does once `loadMqlInfo` has returned: it runs the loop
over the tables other than `mql`, from a mock with an empty inventory. -/
theorem NewFromToml_reaches_loop (tomlUnmarshal : String → Except String Iface)
    (llx : PrimitiveCtors) (raw : String) (top : List (String × Iface))
    (hparse : tomlUnmarshal raw = .ok (.dict top)) (hkeys : (top.map Prod.fst).Nodup)
    (hmql : ∀ info, mapGet top "mql" = some info →
      ∃ m e, loadMqlInfo info { Inventory := [], Providers := [] } = .ret (m, e)) :
    ∃ res rest, NewFromToml tomlUnmarshal llx raw = .ret (loadResources llx res rest) ∧
      res.Inventory = [] ∧ (rest.map Prod.fst).Nodup ∧
      ∀ p, p ∈ rest ↔ p ∈ top ∧ p.1 ≠ "mql" := by
  cases hget : mapGet top "mql" with
  | none =>
    refine ⟨{ Inventory := [], Providers := [] }, top, ?_, rfl, hkeys, ?_⟩
    · simp [NewFromToml, hparse, hget]
    · intro p
      exact ⟨fun hp => ⟨hp, mapGet_eq_none top "mql" hget p hp⟩, fun hp => hp.1⟩
  | some info =>
    obtain ⟨m, e, hm⟩ := hmql info hget
    refine ⟨m, mapDelete top "mql", ?_, ?_, ?_, ?_⟩
    · simp [NewFromToml, hparse, hget, hm]
    · exact loadMqlInfo_inventory _ _ _ _ hm
    · rw [mapDelete_eq_filter]
      exact hkeys.sublist (List.Sublist.map _ (List.filter_sublist _))
    · intro p
      rw [mapDelete_eq_filter]
      simp [List.mem_filter]

/-- C9, the part that holds: for a parsed document with distinct keys whose
tables other than `mql` map resource type to instance id to field to a string
or integer, and whose `mql` table (if any) lets `loadMqlInfo` return,
`NewFromToml` returns a mock and no error; `mql` is no resource type of its
inventory; and a field is recorded for `(type, id, field)` exactly when the
document binds the triple, holding the string or int primitive of the value
with an empty `Error`. -/
theorem NewFromToml_loads_document (tomlUnmarshal : String → Except String Iface)
    (llx : PrimitiveCtors) (raw : String) (top : List (String × Iface))
    (hparse : tomlUnmarshal raw = .ok (.dict top)) (hkeys : (top.map Prod.fst).Nodup)
    (hshape : ∀ p ∈ top, p.1 ≠ "mql" → isInstanceTable p.2 = true)
    (hmql : ∀ info, mapGet top "mql" = some info →
      ∃ m e, loadMqlInfo info { Inventory := [], Providers := [] } = .ret (m, e)) :
    ∃ m, NewFromToml tomlUnmarshal llx raw = .ret (some m, none) ∧
      mapGet m.Inventory "mql" = none ∧
      ∀ name id field dr,
        (∃ rc x, mapGet m.Inventory name = some rc ∧ mapGet rc id = some x ∧
          mapGet x.Fields field = some dr) ↔
        (name ≠ "mql" ∧ ∃ ids flds, (name, Iface.dict ids) ∈ top ∧ (id, Iface.dict flds) ∈ ids ∧
          ((∃ v, (field, Iface.str v) ∈ flds ∧
              dr = { Data := some (llx.StringPrimitive v), Error := "" }) ∨
            (∃ v, (field, Iface.int64 v) ∈ flds ∧
              dr = { Data := some (llx.IntPrimitive v), Error := "" }))) := by
  obtain ⟨res, rest, hrun, hinv, hnodup, hmem⟩ :=
    NewFromToml_reaches_loop tomlUnmarshal llx raw top hparse hkeys hmql
  have hrest : ∀ p ∈ rest, isInstanceTable p.2 = true :=
    fun p hp => hshape p ((hmem p).mp hp).1 ((hmem p).mp hp).2
  rw [loadResources_accepts llx res rest hrest, hinv] at hrun
  refine ⟨_, hrun, ?_, ?_⟩
  · rw [foldl_mapSet_miss]
    · rfl
    · intro h
      obtain ⟨p, hp, hp1⟩ := List.mem_map.mp h
      exact ((hmem p).mp hp).2 hp1
  · intro name id field dr
    simp only [mapGet_foldl_mapSet_iff (instancesOfTable llx) rest name _ hnodup]
    constructor
    · rintro ⟨rc, x, ⟨v, hv, rfl⟩, h2, h3⟩
      have hv' := hrest _ hv
      obtain ⟨hvtop, hname⟩ := (hmem _).mp hv
      cases v with
      | dict ids =>
        simp only [isInstanceTable, Bool.and_eq_true, List.all_eq_true,
          decide_eq_true_eq] at hv'
        simp only [instancesOfTable] at h2
        rw [mapGet_foldl_mapSet_iff (fieldsOfTable llx) ids id _ hv'.1] at h2
        obtain ⟨vv, hvv, rfl⟩ := h2
        have hvv' := hv'.2 _ hvv
        cases vv with
        | dict flds =>
          simp only [isFieldTable, Bool.and_eq_true, List.all_eq_true,
            decide_eq_true_eq] at hvv'
          simp only [fieldsOfTable] at h3
          rw [mapGet_foldl_mapSet_iff (fun r => (loadRawDataRes llx r).1) flds field _
            hvv'.1] at h3
          obtain ⟨r, hr, rfl⟩ := h3
          refine ⟨hname, ids, flds, hvtop, hvv, ?_⟩
          have hr' := hvv'.2 _ hr
          cases r with
          | str v => exact Or.inl ⟨v, hr, rfl⟩
          | int64 v => exact Or.inr ⟨v, hr, rfl⟩
          | _ => simp [isStringOrInt] at hr'
        | _ => simp [isFieldTable] at hvv'
      | _ => simp [isInstanceTable] at hv'
    · rintro ⟨hname, ids, flds, hids, hflds, hfield⟩
      have hv : (name, Iface.dict ids) ∈ rest := (hmem _).mpr ⟨hids, hname⟩
      have hv' := hrest _ hv
      simp only [isInstanceTable, Bool.and_eq_true, List.all_eq_true,
        decide_eq_true_eq] at hv'
      have hvv' := hv'.2 _ hflds
      simp only [isFieldTable, Bool.and_eq_true, List.all_eq_true,
        decide_eq_true_eq] at hvv'
      refine ⟨_, fieldsOfTable llx (Iface.dict flds), ⟨_, hv, rfl⟩, ?_, ?_⟩
      · simp only [instancesOfTable]
        exact (mapGet_foldl_mapSet_iff (fieldsOfTable llx) ids id _ hv'.1).mpr ⟨_, hflds, rfl⟩
      · simp only [fieldsOfTable]
        rcases hfield with ⟨v, hv, rfl⟩ | ⟨v, hv, rfl⟩
        · exact (mapGet_foldl_mapSet_iff (fun r => (loadRawDataRes llx r).1) flds field _
            hvv'.1).mpr ⟨_, hv, rfl⟩
        · exact (mapGet_foldl_mapSet_iff (fun r => (loadRawDataRes llx r).1) flds field _
            hvv'.1).mpr ⟨_, hv, rfl⟩

/-- The well-formed sample document loads: its field `stdout` of the command
`uname` is recorded as the string primitive of `Linux`. -/
theorem NewFromToml_loads_document_witness :
    ∃ m, NewFromToml (fun _ => .ok tomlGood) samplePrimitives "" = .ret (some m, none) ∧
      ∃ rc x, mapGet m.Inventory "command" = some rc ∧ mapGet rc "uname" = some x ∧
        mapGet x.Fields "stdout" = some { Data := some ⟨"string", "Linux"⟩, Error := "" } := by
  obtain ⟨m, hm, _, h⟩ := NewFromToml_loads_document (fun _ => .ok tomlGood) samplePrimitives ""
    [("mql", .dict [("providers", .slice [.str "os"])]),
     ("command", .dict [("uname", .dict [("stdout", .str "Linux"), ("exitcode", .int64 0)])])]
    rfl (by decide)
    (by
      intro p hp hne
      simp only [List.mem_cons, List.mem_singleton, List.mem_nil_iff, or_false] at hp
      rcases hp with rfl | rfl
      · exact absurd rfl hne
      · rfl)
    (by
      intro info hinfo
      simp only [mapGet, if_true] at hinfo
      cases hinfo
      exact ⟨_, _, rfl⟩)
  exact ⟨m, hm, (h "command" "uname" "stdout" _).mpr
    ⟨by decide, _, _, List.mem_cons_of_mem _ (List.mem_cons_self _ _), List.mem_cons_self _ _,
      Or.inl ⟨"Linux", List.mem_cons_self _ _, rfl⟩⟩⟩

/-! ## Theorems: the null recording -/

/-- C11: with no path and no wish to record, `NewRecording` returns the null
recording and no error.  On the null recording `EnsureAsset` and `AddData`
leave the null recording, `Save` returns nil, and `GetData` and `GetResource`
report not found for every key. -/
theorem NewRecording_null (fs : Files) (ToUrl : Config → String)
    (typesResource : String → String) :
    NewRecording fs "" false = (some .null, none) ∧
      (∀ asset provider conf,
        Recording.EnsureAsset ToUrl .null asset provider conf = .null) ∧
      (∀ c resource id field data,
        Recording.AddData .null c resource id field data = .ret .null) ∧
      nullRecording.Save = none ∧
      (∀ c resource id field,
        Recording.GetData typesResource .null c resource id field = (none, false)) ∧
      (∀ c resource id, Recording.GetResource .null c resource id = (none, false)) :=
  ⟨by simp [NewRecording], fun _ _ _ => rfl, fun _ _ _ _ _ => rfl, rfl, fun _ _ _ _ => rfl,
    fun _ _ _ => rfl⟩

/-! ## Theorems: discovery of providers -/

/-- The mask `0o022` selects the group-write bit (bit 4) and the other-write
bit (bit 1) of a mode. -/
theorem mask_group_other_write (mode : Nat) :
    mode &&& 0o022 ≠ 0 ↔ (mode.testBit 4 = true ∨ mode.testBit 1 = true) := by
  have h1 : mode &&& 0o022 = (mode % 32) &&& 0o022 := by
    have : mode % 32 = mode &&& (2 ^ 5 - 1) := (Nat.and_pow_two_sub_one_eq_mod mode 5).symm
    rw [this, Nat.and_assoc]
    rfl
  have h2 : mode.testBit 1 = (mode % 32).testBit 1 := by
    have := Nat.testBit_mod_two_pow mode 5 1
    simpa using this.symm
  have h3 : mode.testBit 4 = (mode % 32).testBit 4 := by
    have := Nat.testBit_mod_two_pow mode 5 4
    simpa using this.symm
  rw [h1, h2, h3]
  have hlt : mode % 32 < 32 := Nat.mod_lt _ (by decide)
  revert hlt
  generalize mode % 32 = y
  intro hlt
  interval_cases y <;> decide

/-- C16: providers are never discovered in an overly permissive directory.
If the mode of the directory has the group-write or the other-write bit set
(`mode & 0o022 != 0`), or the directory cannot be inspected, `findProviders`
returns an error and leaves the provider map as it was; if neither bit is set
the permission check passes. -/
theorem findProviders_permission_check (fs : AppFs) (Join : String → String → String)
    (path : String) (res : GoMap String Provider) :
    (∀ mode, fs.Stat path = .ok mode → (mode.testBit 4 = true ∨ mode.testBit 1 = true) →
        mode &&& 0o022 ≠ 0 ∧ (findProviders fs Join path res).1 ≠ none ∧
          (findProviders fs Join path res).2 = res) ∧
      (∀ err, fs.Stat path = .error err →
        (findProviders fs Join path res).1 ≠ none ∧ (findProviders fs Join path res).2 = res) ∧
      (∀ mode, fs.Stat path = .ok mode → mode.testBit 4 = false → mode.testBit 1 = false →
        mode &&& 0o022 = 0 ∧ isOverlyPermissive fs path = (false, none)) := by
  refine ⟨?_, ?_, ?_⟩
  · intro mode hstat hbits
    have hmask := (mask_group_other_write mode).mpr hbits
    simp [findProviders, isOverlyPermissive, hstat, hmask]
  · intro err hstat
    simp [findProviders, isOverlyPermissive, hstat]
  · intro mode hstat h4 h1
    have hmask : mode &&& 0o022 = 0 := by
      by_contra h
      rcases (mask_group_other_write mode).mp h with h' | h'
      · simp [h4] at h'
      · simp [h1] at h'
    simp [isOverlyPermissive, hstat, hmask]

/-- C16 at a concrete input: the directory `/opt/providers` of mode 0777 is
refused and the map stays empty. -/
theorem findProviders_permission_check_witness :
    (findProviders sampleAppFs sampleJoin "/opt/providers" []).1 ≠ none ∧
      (findProviders sampleAppFs sampleJoin "/opt/providers" []).2 = [] :=
  ((findProviders_permission_check sampleAppFs sampleJoin "/opt/providers" []).1
    (2 ^ 31 + 0o777) rfl (by decide)).2

/-- In a directory that passes the check, a regular file without a dot that
has a `.json` file next to it is found: the sample directory yields the
provider `os` and nothing else. -/
theorem findProviders_sample :
    findProviders sampleAppFs sampleJoin "/usr/providers" [] =
      (none, [("os", { Path := "/usr/providers/os" })]) := by
  decide

/-! ## Theorems: conversion of arguments -/

theorem foldl_multierrorAppend_some (errs msgs : List String) :
    msgs.foldl multierrorAppend (some errs) = some (errs ++ msgs) := by
  induction msgs generalizing errs with
  | nil => simp
  | cons m rest ih => simp [multierrorAppend, ih]

theorem foldl_multierrorAppend_none (msgs : List String) :
    msgs.foldl multierrorAppend none = if msgs = [] then none else some msgs := by
  cases msgs with
  | nil => rfl
  | cons m rest => simp [multierrorAppend, foldl_multierrorAppend_some]

/-- The loop of `RawDataArgsToPrimitiveArgs` as two passes: the arguments
without an error are bound in `all`, the messages of the others are appended
to `err`. -/
theorem convertArgs_eq (Result : RawDataPtr → LlxResult)
    (state : GoMap String (Option Primitive) × MultiError) (args : List (String × RawDataPtr)) :
    convertArgs Result state args =
      ((args.filter (fun a => decide ((Result a.2).Error = ""))).foldl
          (fun m a => mapSet m a.1 (Result a.2).Data) state.1,
        ((args.filter (fun a => decide ((Result a.2).Error ≠ ""))).map
          (fun a => "failed to convert '" ++ a.1 ++ "': " ++ (Result a.2).Error)).foldl
          multierrorAppend state.2) := by
  induction args generalizing state with
  | nil => rfl
  | cons a rest ih =>
    obtain ⟨k, v⟩ := a
    by_cases h : (Result v).Error = ""
    · simp [convertArgs, h, ih]
    · simp [convertArgs, h, ih]

/-- C18: `RawDataArgsToPrimitiveArgs` aggregates the conversion errors and
drops no good value.  For arguments with distinct keys, the returned map binds
exactly the arguments whose conversion carries no error, each to its
primitive; the returned error is non-nil exactly when some conversion carries
an error, and then it holds one entry for each failing argument, naming its
key, in the order the arguments are visited. -/
theorem RawDataArgsToPrimitiveArgs_aggregates (Result : RawDataPtr → LlxResult)
    (args : GoMap String RawDataPtr) (hkeys : (args.map Prod.fst).Nodup) :
    (∀ k p, mapGet (RawDataArgsToPrimitiveArgs Result args).1 k = some p ↔
        ∃ v, (k, v) ∈ args ∧ (Result v).Error = "" ∧ p = (Result v).Data) ∧
      ((RawDataArgsToPrimitiveArgs Result args).2 ≠ none ↔
        ∃ k v, (k, v) ∈ args ∧ (Result v).Error ≠ "") ∧
      (∀ errs, (RawDataArgsToPrimitiveArgs Result args).2 = some errs →
        errs = (args.filter (fun a => decide ((Result a.2).Error ≠ ""))).map
          (fun a => "failed to convert '" ++ a.1 ++ "': " ++ (Result a.2).Error)) := by
  unfold RawDataArgsToPrimitiveArgs
  rw [convertArgs_eq]
  refine ⟨?_, ?_, ?_⟩
  · intro k p
    have hnodup : ((args.filter (fun a => decide ((Result a.2).Error = ""))).map
        Prod.fst).Nodup := hkeys.sublist (List.Sublist.map _ (List.filter_sublist _))
    have := mapGet_foldl_mapSet_iff (fun v => (Result v).Data)
      (args.filter (fun a => decide ((Result a.2).Error = ""))) k p hnodup
    simp only [] at this ⊢
    rw [this]
    simp [List.mem_filter, and_assoc]
  · rw [foldl_multierrorAppend_none]
    constructor
    · intro h
      by_cases hnil : (args.filter (fun a => decide ((Result a.2).Error ≠ ""))).map
          (fun a => "failed to convert '" ++ a.1 ++ "': " ++ (Result a.2).Error) = []
      · rw [if_pos hnil] at h
        exact absurd rfl h
      · have hfil : args.filter (fun a => decide ((Result a.2).Error ≠ "")) ≠ [] :=
          fun hf => hnil (by rw [hf]; rfl)
        obtain ⟨a, ha⟩ := List.exists_mem_of_ne_nil _ hfil
        rw [List.mem_filter] at ha
        exact ⟨a.1, a.2, ha.1, of_decide_eq_true ha.2⟩
    · rintro ⟨k, v, hmem, hbad⟩
      have hin : (k, v) ∈ args.filter (fun a => decide ((Result a.2).Error ≠ "")) := by
        rw [List.mem_filter]
        exact ⟨hmem, decide_eq_true hbad⟩
      have hne : (args.filter (fun a => decide ((Result a.2).Error ≠ ""))).map
          (fun a => "failed to convert '" ++ a.1 ++ "': " ++ (Result a.2).Error) ≠ [] := by
        intro hmap
        have := List.map_eq_nil_iff.mp hmap
        rw [this] at hin
        exact absurd hin (List.not_mem_nil _)
      rw [if_neg hne]
      exact Option.some_ne_none _
  · intro errs h
    simp only [foldl_multierrorAppend_none] at h
    split at h
    · simp at h
    · exact (Option.some.inj h).symm

/-- C18 at a concrete input: of two arguments the one that carries an error
is reported by its key and the other one is converted. -/
theorem RawDataArgsToPrimitiveArgs_aggregates_witness :
    mapGet (RawDataArgsToPrimitiveArgs sampleResult
        [("path", sampleData), ("mode", some ⟨"s", .nil, some "no access"⟩)]).1 "path" =
        some (some ⟨"string", "Linux"⟩) ∧
      (RawDataArgsToPrimitiveArgs sampleResult
        [("path", sampleData), ("mode", some ⟨"s", .nil, some "no access"⟩)]).2 =
        some ["failed to convert 'mode': no access"] :=
  ⟨((RawDataArgsToPrimitiveArgs_aggregates sampleResult
      [("path", sampleData), ("mode", some ⟨"s", .nil, some "no access"⟩)] (by decide)).1
      "path" _).mpr ⟨sampleData, List.mem_cons_self _ _, rfl, rfl⟩, rfl⟩

/-! ## Theorems: running a command -/

/-- C19: `commandRunner.Exec` reports a failed program by its exit code.  When
the process exits with status `s`, `Exec` returns the command with
`ExitStatus = s` and a nil error; when it succeeds, `Exec` returns a nil error
and leaves `ExitStatus` as it was, which is 0 for the runner that `RunCommand`
creates; the error is non-nil exactly when running the process fails with an
error that is no exit error.  The program run is `Shell[0]` with the arguments
`Shell[1:]`, then the user command as one argument, then `args`; with an empty
shell it is the user command with `args`. -/
theorem Exec_reports_exit_code (run : String → List String → ProcessResult)
    (c : commandRunner) (usercmd : String) (args : List String) :
    (∀ s, (run (execProgram c.Shell usercmd args).1 (execProgram c.Shell usercmd args).2).err =
          some (.exitError (some (.exited s))) →
        (c.Exec run usercmd args).1.Command.ExitStatus = s ∧ (c.Exec run usercmd args).2 = none) ∧
      ((run (execProgram c.Shell usercmd args).1 (execProgram c.Shell usercmd args).2).err = none →
        (c.Exec run usercmd args).2 = none ∧
          (c.Exec run usercmd args).1.Command.ExitStatus = c.Command.ExitStatus) ∧
      (∀ shell sudoBuild command,
        (run (execProgram shell (match sudoBuild with
              | some build => build command
              | none => command) []).1
            (execProgram shell (match sudoBuild with
              | some build => build command
              | none => command) []).2).err = none →
        (RunCommand run shell sudoBuild command).2 = none ∧
          (RunCommand run shell sudoBuild command).1.Command.ExitStatus = 0) ∧
      ((c.Exec run usercmd args).2 ≠ none ↔
        ∃ text, (run (execProgram c.Shell usercmd args).1
          (execProgram c.Shell usercmd args).2).err = some (.otherError text)) ∧
      (c.Exec run usercmd args).1.cmdExecutor = some (execProgram c.Shell usercmd args) ∧
      (∀ shellCommand shellArgs, c.Shell = shellCommand :: shellArgs →
        execProgram c.Shell usercmd args = (shellCommand, shellArgs ++ [usercmd] ++ args)) ∧
      (c.Shell = [] → execProgram c.Shell usercmd args = (usercmd, args)) := by
  refine ⟨?_, ?_, ?_, ?_, ?_, ?_, ?_⟩
  · intro s h
    simp [commandRunner.Exec, h, WaitStatus.ExitStatus]
  · intro h
    simp [commandRunner.Exec, h]
  · intro shell sudoBuild command h
    cases sudoBuild <;> simp_all [RunCommand, commandRunner.Exec]
  · cases h : (run (execProgram c.Shell usercmd args).1
        (execProgram c.Shell usercmd args).2).err with
    | none => simp [commandRunner.Exec, h]
    | some e =>
      cases e with
      | exitError sys => cases sys <;> simp [commandRunner.Exec, h]
      | otherError text => simp [commandRunner.Exec, h]
  · cases h : (run (execProgram c.Shell usercmd args).1
        (execProgram c.Shell usercmd args).2).err with
    | none => simp [commandRunner.Exec, h]
    | some e =>
      cases e with
      | exitError sys => cases sys <;> simp [commandRunner.Exec, h]
      | otherError text => simp [commandRunner.Exec, h]
  · intro shellCommand shellArgs h
    simp [execProgram, h]
  · intro h
    simp [execProgram, h]

/-- C19 at a concrete input: `sh -c "exit 3"` run through `RunCommand` yields
exit status 3 and a nil error. -/
theorem Exec_reports_exit_code_witness :
    ((RunCommand sampleRun ["sh", "-c"] none "exit 3").1.Command.ExitStatus = 3 ∧
      (RunCommand sampleRun ["sh", "-c"] none "exit 3").2 = none) ∧
    (RunCommand sampleRun ["sh", "-c"] none "true").1.Command.ExitStatus = 0 :=
  ⟨(Exec_reports_exit_code sampleRun
      { Command := { Command := "", ExitStatus := 0, Stdout := "", Stderr := "" },
        cmdExecutor := none, Shell := ["sh", "-c"] } "exit 3" []).1 3 rfl,
    by decide⟩

/-- C19, the sentence on success as first written: on a runner that has run
`exit 3` before, `Exec` of `true` runs a process that exits successfully and
returns a nil error, and the command returned has `ExitStatus = 3`, not 0. -/
theorem Exec_reports_exit_code_counterexample :
    (sampleRun (execProgram reusedRunner.Shell "true" []).1
        (execProgram reusedRunner.Shell "true" []).2).err = none ∧
      (reusedRunner.Exec sampleRun "true" []).2 = none ∧
      (reusedRunner.Exec sampleRun "true" []).1.Command.ExitStatus = 3 ∧
      (reusedRunner.Exec sampleRun "true" []).1.Command.ExitStatus ≠ 0 := by
  decide

/-! ## Theorems: the id of a terraform block -/

theorem digitChar_facts :
    ∀ d, d < 10 → Nat.digitChar d ≠ '/' ∧ Nat.digitChar d ≠ '-' ∧
      (Nat.digitChar d).toNat - 48 = d := by
  decide

theorem decimalDigits_chars (fuel n : Nat) :
    ∀ c ∈ decimalDigits fuel n, c ≠ '/' ∧ c ≠ '-' := by
  induction fuel generalizing n with
  | zero => simp [decimalDigits]
  | succ fuel ih =>
    intro c hc
    unfold decimalDigits at hc
    split at hc
    · rename_i hlt
      simp only [List.mem_singleton] at hc
      subst hc
      exact ⟨(digitChar_facts n hlt).1, (digitChar_facts n hlt).2.1⟩
    · rcases List.mem_append.mp hc with hc | hc
      · exact ih _ c hc
      · simp only [List.mem_singleton] at hc
        subst hc
        have hlt : n % 10 < 10 := Nat.mod_lt _ (by decide)
        exact ⟨(digitChar_facts _ hlt).1, (digitChar_facts _ hlt).2.1⟩

/-- Reading the digits back gives the number: `decimalDigits` loses nothing. -/
theorem decimalDigits_value (fuel n : Nat) (h : n < fuel) :
    (decimalDigits fuel n).foldl (fun acc c => 10 * acc + (c.toNat - 48)) 0 = n := by
  induction fuel generalizing n with
  | zero => omega
  | succ fuel ih =>
    unfold decimalDigits
    split
    · rename_i hlt
      simp [(digitChar_facts n hlt).2.2]
    · rename_i hge
      have hdiv : n / 10 < fuel := by omega
      have hmod : n % 10 < 10 := Nat.mod_lt _ (by decide)
      rw [List.foldl_append, ih _ hdiv]
      simp [(digitChar_facts _ hmod).2.2]
      omega

theorem decimalDigits_injective (n m : Nat)
    (h : decimalDigits (n + 1) n = decimalDigits (m + 1) m) : n = m := by
  have hn := decimalDigits_value (n + 1) n (by omega)
  have hm := decimalDigits_value (m + 1) m (by omega)
  rw [h] at hn
  omega

theorem formatIntChars_no_slash (x : Int) : '/' ∉ formatIntChars x := by
  intro h
  unfold formatIntChars at h
  split at h
  · rcases List.mem_cons.mp h with h | h
    · exact absurd h (by decide)
    · exact (decimalDigits_chars _ _ _ h).1 rfl
  · exact (decimalDigits_chars _ _ _ h).1 rfl

theorem formatIntChars_injective (x y : Int) (h : formatIntChars x = formatIntChars y) :
    x = y := by
  unfold formatIntChars at h
  by_cases hx : x < 0 <;> by_cases hy : y < 0
  · simp only [hx, hy, if_true, List.cons.injEq, true_and] at h
    have := decimalDigits_injective _ _ h
    omega
  · simp only [hx, hy, if_true, if_false] at h
    have hmem : '-' ∈ decimalDigits (y.natAbs + 1) y.natAbs := by
      rw [← h]
      exact List.mem_cons_self _ _
    exact absurd rfl (decimalDigits_chars _ _ _ hmem).2
  · simp only [hx, hy, if_true, if_false] at h
    have hmem : '-' ∈ decimalDigits (x.natAbs + 1) x.natAbs := by
      rw [h]
      exact List.mem_cons_self _ _
    exact absurd rfl (decimalDigits_chars _ _ _ hmem).2
  · simp only [hx, hy, if_false] at h
    have := decimalDigits_injective _ _ h
    omega

/-- A list is split in one way at its last `/`. -/
theorem split_last_slash (a a' b b' : List Char) (hb : '/' ∉ b) (hb' : '/' ∉ b')
    (h : a ++ '/' :: b = a' ++ '/' :: b') : a = a' ∧ b = b' := by
  induction a generalizing a' with
  | nil =>
    cases a' with
    | nil => simpa using h
    | cons c t =>
      simp only [List.nil_append, List.cons_append, List.cons.injEq] at h
      exact absurd (by rw [h.2]; simp) hb
  | cons x s ih =>
    cases a' with
    | nil =>
      simp only [List.nil_append, List.cons_append, List.cons.injEq] at h
      exact absurd (by rw [← h.2]; simp) hb'
    | cons c t =>
      simp only [List.cons_append, List.cons.injEq] at h
      obtain ⟨rfl, hrest⟩ := h
      obtain ⟨rfl, rfl⟩ := ih t hrest
      exact ⟨rfl, rfl⟩

/-- The id determines file, line and column. -/
theorem blockId_eq (file file' : String) (line line' column column' : Int)
    (h : blockId file line column = blockId file' line' column') :
    file = file' ∧ line = line' ∧ column = column' := by
  have hdata := congrArg String.data h
  simp only [blockId, FormatInt, String.data_append] at hdata
  simp only [List.append_assoc, List.singleton_append] at hdata
  have h1 := List.append_cancel_left hdata
  have h2 : (file.data ++ '/' :: formatIntChars line) ++ '/' :: formatIntChars column =
      (file'.data ++ '/' :: formatIntChars line') ++ '/' :: formatIntChars column' := by
    simpa [List.append_assoc] using h1
  obtain ⟨h3, h4⟩ := split_last_slash _ _ _ _ (formatIntChars_no_slash _)
    (formatIntChars_no_slash _) h2
  obtain ⟨h5, h6⟩ := split_last_slash _ _ _ _ (formatIntChars_no_slash _)
    (formatIntChars_no_slash _) h3
  exact ⟨String.ext h5, formatIntChars_injective _ _ h6, formatIntChars_injective _ _ h4⟩

/-- C20: the id of a terraform block is injective in its file name and
position.  Two blocks whose `(file, line, column)` differ never get the same
id, whatever characters the file names hold. -/
theorem lumiTerraformBlock_id_injective (g g' : TerraformBlock)
    (h : (g.Start.Path, g.Start.Line, g.Start.Column) ≠
      (g'.Start.Path, g'.Start.Line, g'.Start.Column)) :
    (lumiTerraformBlock.id g).1 ≠ (lumiTerraformBlock.id g').1 ∧
      (lumiTerraformBlock.id g).2 = none ∧
      (lumiTerraformBlock.id g).1 =
        "terraform.block/" ++ g.Start.Path ++ "/" ++ FormatInt g.Start.Line ++ "/" ++
          FormatInt g.Start.Column := by
  refine ⟨?_, rfl, rfl⟩
  intro hid
  obtain ⟨h1, h2, h3⟩ := blockId_eq _ _ _ _ _ _ hid
  exact h (by rw [h1, h2, h3])

/-- C20 at a concrete input: the file `a/1` at line 2, column 3 and the file
`a` at line 1, column 23 have the ids `terraform.block/a/1/2/3` and
`terraform.block/a/1/23`. -/
theorem lumiTerraformBlock_id_injective_witness :
    (lumiTerraformBlock.id sampleBlockNested).1 ≠ (lumiTerraformBlock.id sampleBlockFlat).1 ∧
      (lumiTerraformBlock.id sampleBlockNested).1 = "terraform.block/a/1/2/3" ∧
      (lumiTerraformBlock.id sampleBlockFlat).1 = "terraform.block/a/1/23" :=
  ⟨(lumiTerraformBlock_id_injective sampleBlockNested sampleBlockFlat (by decide)).1,
    by decide, by decide⟩

/-! ## Theorems: terraform blocks by type -/

theorem newLumiHclBlock_ok (runtime : LumiRuntime) (block : HclBlock) (r : TerraformBlock)
    (h : newLumiHclBlock runtime block = .ok r) : r = lumiBlockOf block := by
  cases hfp : runtime.createFileposition (positionOf block.TypeRange) with
  | some e =>
    simp only [positionOf] at hfp
    simp [newLumiHclBlock, newFilePosRange, hfp] at h
  | none =>
    cases hb : runtime.createBlock block.Typ block.Labels (positionOf block.TypeRange)
        (positionOf block.TypeRange) with
    | some e =>
      simp only [positionOf] at hfp hb
      simp [newLumiHclBlock, newFilePosRange, hfp, hb] at h
    | none =>
      simp only [positionOf] at hfp hb
      simp [newLumiHclBlock, newFilePosRange, hfp, hb] at h
      rw [← h]
      rfl

theorem newLumiHclBlocks_ok (runtime : LumiRuntime) (blocks : List HclBlock)
    (h : ∀ b ∈ blocks, ∃ r, newLumiHclBlock runtime b = .ok r) :
    newLumiHclBlocks runtime blocks = .ok (blocks.map lumiBlockOf) := by
  induction blocks with
  | nil => rfl
  | cons b rest ih =>
    obtain ⟨r, hr⟩ := h b (List.mem_cons_self _ _)
    have hrb := newLumiHclBlock_ok runtime b r hr
    subst hrb
    simp [newLumiHclBlocks, hr, ih (fun c hc => h c (List.mem_cons_of_mem _ hc))]

theorem filterFiles_ok (runtime : LumiRuntime) (filterType : String)
    (acc : List TerraformBlock) (files : List (String × HclBody))
    (h : ∀ p ∈ files, p.2 ≠ .nilBody ∧
      ∀ b ∈ topBlocks p.2, ∃ r, newLumiHclBlock runtime b = .ok r) :
    filterFiles runtime filterType acc files =
      (acc ++ files.flatMap (fun p =>
        ((topBlocks p.2).filter (fun b => decide (b.Typ = filterType))).map lumiBlockOf),
        none) := by
  induction files generalizing acc with
  | nil => simp [filterFiles]
  | cons p rest ih =>
    obtain ⟨name, body⟩ := p
    obtain ⟨hbody, hblocks⟩ := h (name, body) (List.mem_cons_self _ _)
    have hlist : listHclBlocks runtime body = .ok ((topBlocks body).map lumiBlockOf) := by
      cases body with
      | syntaxBody attributes blocks => exact newLumiHclBlocks_ok runtime blocks hblocks
      | otherBody attributes content => exact newLumiHclBlocks_ok runtime content hblocks
      | nilBody => exact absurd rfl hbody
    have hfilter : ((topBlocks body).map lumiBlockOf).filter
        (fun b => decide (b.Typ = filterType)) =
        ((topBlocks body).filter (fun b => decide (b.Typ = filterType))).map lumiBlockOf := by
      rw [List.filter_map]
      rfl
    simp only [filterFiles, hlist, hfilter, List.flatMap_cons]
    rw [ih _ (fun q hq => h q (List.mem_cons_of_mem _ hq)), List.append_assoc]

/-- C14: `filterBlockByType` returns exactly the top-level blocks of the
parsed files whose type is the filter type.  When every file has a body and
the runtime creates the resource of every top-level block, the result is, file
by file in the order the files are visited, the blocks of that type in source
order, each once, with a nil error; every returned block has the filter type.
`GetProviders`, `GetDatasources`, `GetResources`, `GetVariables` and
`GetOutputs` are this function at `provider`, `data`, `resource`, `variable`
and `output`. -/
theorem filterBlockByType_exact (runtime : LumiRuntime) (files : GoMap String HclBody)
    (filterType : String)
    (h : ∀ p ∈ files, p.2 ≠ .nilBody ∧
      ∀ b ∈ topBlocks p.2, ∃ r, newLumiHclBlock runtime b = .ok r) :
    filterBlockByType runtime (some files) filterType =
        (files.flatMap (fun p =>
          ((topBlocks p.2).filter (fun b => decide (b.Typ = filterType))).map lumiBlockOf),
          none) ∧
      (∀ b ∈ (filterBlockByType runtime (some files) filterType).1, b.Typ = filterType) ∧
      GetProviders runtime (some files) = filterBlockByType runtime (some files) "provider" ∧
      GetDatasources runtime (some files) = filterBlockByType runtime (some files) "data" ∧
      GetResources runtime (some files) = filterBlockByType runtime (some files) "resource" ∧
      GetVariables runtime (some files) = filterBlockByType runtime (some files) "variable" ∧
      GetOutputs runtime (some files) = filterBlockByType runtime (some files) "output" := by
  have heq : filterBlockByType runtime (some files) filterType =
      (files.flatMap (fun p =>
        ((topBlocks p.2).filter (fun b => decide (b.Typ = filterType))).map lumiBlockOf),
        none) := by
    simp [filterBlockByType, filterFiles_ok runtime filterType [] files h]
  refine ⟨heq, ?_, rfl, rfl, rfl, rfl, rfl⟩
  intro b hb
  rw [heq] at hb
  simp only [List.mem_flatMap, List.mem_map, List.mem_filter] at hb
  obtain ⟨p, _, c, ⟨_, hc⟩, rfl⟩ := hb
  exact of_decide_eq_true hc

/-- C14 at a concrete input: the providers of the two sample files are the
blocks `aws` and `google` of `main.tf` and `azurerm` of `vars.tf`. -/
theorem filterBlockByType_exact_witness :
    (GetProviders sampleLumiRuntime (some sampleTerraformFiles)).1.map (fun b => b.Labels) =
      [["aws"], ["google"], ["azurerm"]] := by
  have h := (filterBlockByType_exact sampleLumiRuntime sampleTerraformFiles "provider"
    (by
      intro p hp
      simp only [sampleTerraformFiles, List.mem_cons, List.mem_singleton, List.mem_nil_iff,
        or_false] at hp
      rcases hp with rfl | rfl
      · exact ⟨by simp, fun b _ => ⟨_, rfl⟩⟩
      · exact ⟨by simp, fun b _ => ⟨_, rfl⟩⟩)).1
  rw [GetProviders, h]
  rfl

/-! ## Theorems: the arguments of a terraform block -/

/-- C15: an attribute whose expression is an object constructor has no case
in `getCtyValue` and takes the default branch, so its value is nil: for the
block with `metadata = { enable-oslogin = true }`, `GetArguments` binds
`metadata` to nil and not to a dictionary. -/
theorem GetArguments_object_literal_nil :
    (∀ items, getCtyValue (.objectCons items) = .ret .nil) ∧
      GetArguments (lumiBlockOf sampleInstanceBlock) = .ret (some [("metadata", .nil)], none) :=
  ⟨fun _ => by simp [getCtyValue], rfl⟩

/-! ## Theorems: fan-out over regions -/

theorem runBlock_append (engine : Engine) (memo : List Raw) (a b : List Chunk) :
    runBlock engine memo (a ++ b) = runBlock engine (runBlock engine memo a) b := by
  induction a generalizing memo with
  | nil => rfl
  | cons c rest ih => simp [runBlock, ih]

theorem runBlock_length (engine : Engine) (memo : List Raw) (a : List Chunk) :
    (runBlock engine memo a).length = memo.length + a.length := by
  induction a generalizing memo with
  | nil => simp [runBlock]
  | cons c rest ih =>
    simp [runBlock, ih]
    omega

theorem lookupRef_shift (m n : List Raw) (ref : Nat) (h : ref ≠ 0) :
    lookupRef (m ++ n) (ref + m.length) = lookupRef n ref := by
  cases ref with
  | zero => exact absurd rfl h
  | succ k =>
    have hk : k + 1 + m.length = (k + m.length) + 1 := by omega
    rw [hk]
    simp only [lookupRef]
    rw [List.getElem?_append_right (by omega)]
    simp

theorem lookupRef_prefix (m n : List Raw) (ref : Nat) (h : ref ≤ m.length) :
    lookupRef (m ++ n) ref = lookupRef m ref := by
  cases ref with
  | zero => rfl
  | succ k =>
    simp only [lookupRef]
    rw [List.getElem?_append_left (by omega)]

theorem gatherArgs_shift (m n : List Raw) (args : List Nat) (h : ∀ r ∈ args, r ≠ 0) :
    gatherArgs (m ++ n) (args.map (· + m.length)) = gatherArgs n args := by
  induction args with
  | nil => rfl
  | cons r rest ih =>
    simp only [List.map_cons, gatherArgs, lookupRef_shift m n r (h r (List.mem_cons_self _ _)),
      ih (fun q hq => h q (List.mem_cons_of_mem _ hq))]

theorem evalChunk_shift (engine : Engine) (m n : List Raw) (c : Chunk)
    (h : ∀ r ∈ c.refs, r ≠ 0) :
    evalChunk engine (m ++ n) (c.shift m.length) = evalChunk engine n c := by
  cases c with
  | literal v => rfl
  | call op args =>
    simp only [Chunk.shift, evalChunk, gatherArgs_shift m n args h]
  | field target name =>
    simp only [Chunk.shift, evalChunk,
      lookupRef_shift m n target (h target (by simp [Chunk.refs]))]

/-- A clause placed after other chunks computes what it computes alone. -/
theorem runBlock_shift (engine : Engine) (m n : List Raw) (b : List Chunk)
    (h : ∀ c ∈ b, ∀ r ∈ c.refs, r ≠ 0) :
    runBlock engine (m ++ n) (b.map (Chunk.shift m.length)) = m ++ runBlock engine n b := by
  induction b generalizing n with
  | nil => rfl
  | cons c rest ih =>
    simp only [List.map_cons, runBlock, evalChunk_shift engine m n c (h c (List.mem_cons_self _ _)),
      List.append_assoc]
    exact ih _ (fun q hq => h q (List.mem_cons_of_mem _ hq))

/-- C12: partial failure does not suppress siblings.  For a query of two
top-level clauses, the second compiled after the first with its References
moved, the results hold one entry for each clause, each entry is the Raw
Result that its clause yields when it is evaluated alone, and so is its
assessment: the failure of one clause does not change what is reported for the
other. -/
theorem partial_failure_keeps_siblings (engine : Engine) (a b : List Chunk)
    (hb : b ≠ []) (hrefs : ∀ c ∈ b, ∀ r ∈ c.refs, r ≠ 0) :
    (execute engine (a ++ b.map (Chunk.shift a.length)) [a.length, a.length + b.length]).length
        = 2 ∧
      execute engine (a ++ b.map (Chunk.shift a.length)) [a.length, a.length + b.length] =
        [(a.length, lookupRef (runBlock engine [] a) a.length),
         (a.length + b.length, lookupRef (runBlock engine [] b) b.length)] ∧
      (assess (execute engine (a ++ b.map (Chunk.shift a.length))
          [a.length, a.length + b.length])).map Prod.snd =
        (assess (execute engine a [a.length])).map Prod.snd ++
          (assess (execute engine b [b.length])).map Prod.snd := by
  have hrun : runBlock engine [] (a ++ b.map (Chunk.shift a.length)) =
      runBlock engine [] a ++ runBlock engine [] b := by
    rw [runBlock_append]
    have hlen : (runBlock engine [] a).length = a.length := by simp [runBlock_length]
    have := runBlock_shift engine (runBlock engine [] a) [] b hrefs
    rw [hlen, List.append_nil] at this
    exact this
  have hla : (runBlock engine [] a).length = a.length := by simp [runBlock_length]
  have hblen : b.length ≠ 0 := fun h => hb (List.length_eq_zero.mp h)
  have h1 : lookupRef (runBlock engine [] a ++ runBlock engine [] b) a.length =
      lookupRef (runBlock engine [] a) a.length :=
    lookupRef_prefix _ _ _ (by omega)
  have h2 : lookupRef (runBlock engine [] a ++ runBlock engine [] b) (a.length + b.length) =
      lookupRef (runBlock engine [] b) b.length := by
    have := lookupRef_shift (runBlock engine [] a) (runBlock engine [] b) b.length hblen
    rw [hla, Nat.add_comm] at this
    exact this
  have hex : execute engine (a ++ b.map (Chunk.shift a.length))
      [a.length, a.length + b.length] =
      [(a.length, lookupRef (runBlock engine [] a) a.length),
       (a.length + b.length, lookupRef (runBlock engine [] b) b.length)] := by
    simp only [execute, List.map_cons, List.map_nil, hrun, h1, h2]
  refine ⟨by rw [hex]; rfl, hex, ?_⟩
  rw [hex]
  simp [assess, execute]

/-- C12 at a concrete input: in `mondoo.build == 1; sshd.config` the first
clause fails and the second is ok, as it is alone; in `mondoo.build == 1;
user(name: 'notthere')...` both fail, the second with its own error. -/
theorem partial_failure_keeps_siblings_witness :
    assess (execute sampleEngine (clauseBuild ++ clauseConfig.map (Chunk.shift clauseBuild.length))
        [clauseBuild.length, clauseBuild.length + clauseConfig.length]) =
        [(4, .failed), (6, .ok)] ∧
      assess (execute sampleEngine clauseConfig [clauseConfig.length]) = [(2, .ok)] ∧
      (execute sampleEngine
        (clauseBuild ++ clauseMissingUser.map (Chunk.shift clauseBuild.length))
        [clauseBuild.length, clauseBuild.length + clauseMissingUser.length]).map Prod.snd =
        [.ok (.bool false), .error "unknown operator user"] := by
  have h := (partial_failure_keeps_siblings sampleEngine clauseBuild clauseConfig
    (List.cons_ne_nil _ _) (by decide)).2.1
  refine ⟨?_, rfl, rfl⟩
  rw [h]
  rfl

/-! ### Quantifiers -/

theorem allLoop_eq (engine : Engine) (body : List Chunk) (offending collection : List Iface) :
    allLoop engine body offending collection =
      offending ++ collection.filter (fun item => !isTrue (runNested engine body item)) := by
  induction collection generalizing offending with
  | nil => simp [allLoop]
  | cons item rest ih =>
    by_cases h : isTrue (runNested engine body item) = true
    · simp [allLoop, h, ih]
    · simp [allLoop, h, ih]

/-- C13: quantifier failure detail.  For every collection and predicate, the
offending items of `collection.all(pred)` are exactly the items for which the
predicate is not true, in collection order; the assessment is failed exactly
when there is such an item; an item for which the predicate is true is not
listed; and the list is the whole collection only when the predicate is true
for no item. -/
theorem all_offending_items (engine : Engine) (collection : List Iface) (body : List Chunk) :
    (assessAll engine collection body).offending =
        collection.filter (fun item => !isTrue (runNested engine body item)) ∧
      ((assessAll engine collection body).status = .failed ↔
        ∃ item ∈ collection, isTrue (runNested engine body item) = false) ∧
      (∀ item, isTrue (runNested engine body item) = true →
        item ∉ (assessAll engine collection body).offending) ∧
      (assessAll engine collection body).offending.Sublist collection ∧
      ((assessAll engine collection body).offending = collection ↔
        ∀ item ∈ collection, isTrue (runNested engine body item) = false) := by
  have hoff : (assessAll engine collection body).offending =
      collection.filter (fun item => !isTrue (runNested engine body item)) := by
    simp [assessAll, allLoop_eq]
  refine ⟨hoff, ?_, ?_, ?_, ?_⟩
  · have hst : (assessAll engine collection body).status =
        if (assessAll engine collection body).offending.isEmpty then .ok else .failed := rfl
    rw [hst, hoff]
    cases hf : collection.filter (fun item => !isTrue (runNested engine body item)) with
    | nil =>
      simp only [List.isEmpty_nil, if_true]
      constructor
      · intro h
        cases h
      · rintro ⟨item, hmem, hfalse⟩
        have : item ∈ collection.filter (fun item => !isTrue (runNested engine body item)) := by
          rw [List.mem_filter]
          exact ⟨hmem, by simp [hfalse]⟩
        rw [hf] at this
        exact absurd this (List.not_mem_nil _)
    | cons x rest =>
      simp only [List.isEmpty_cons]
      constructor
      · intro _
        have : x ∈ collection.filter (fun item => !isTrue (runNested engine body item)) := by
          rw [hf]
          exact List.mem_cons_self _ _
        rw [List.mem_filter] at this
        exact ⟨x, this.1, by simpa using this.2⟩
      · intro _
        rfl
  · intro item htrue hmem
    rw [hoff, List.mem_filter] at hmem
    simp [htrue] at hmem
  · rw [hoff]
    exact List.filter_sublist _
  · rw [hoff, List.filter_eq_self]
    simp

/-- C13 at a concrete input: `users.all(uid < 1000)` on the five users of the
test data fails and lists the users with uid 1000, 1000 and 1002, in the order
of the collection. -/
theorem all_offending_items_witness :
    (assessAll sampleEngine sampleUsers bodyUidBelow1000).status = .failed ∧
      (assessAll sampleEngine sampleUsers bodyUidBelow1000).offending =
        [sampleUser "chris" 1000 1001, sampleUser "christopher" 1000 1001,
         sampleUser "chris" 1002 1003] := by
  have h := (all_offending_items sampleEngine sampleUsers bodyUidBelow1000).1
  exact ⟨rfl, by rw [h]; rfl⟩

/-! ## Theorems: the esxcli readers -/

theorem kernelModuleKey_never_sets (module : EsxiKernelModule) (kv : String × List String) :
    (kernelModuleKey module kv).FileVersion = module.FileVersion ∧
      (kernelModuleKey module kv).RequiredNamespaces = module.RequiredNamespaces := by
  unfold kernelModuleKey
  split
  · split <;> exact ⟨rfl, rfl⟩
  · exact ⟨rfl, rfl⟩

/-- Whatever the response holds, the module that `KernelModuleDetails` returns
has an empty `FileVersion` and empty `RequiredNamespaces`: no case of the
switch writes them. -/
theorem KernelModuleDetails_never_sets (esxi : Esxi) (modulename : String)
    (module : EsxiKernelModule) (h : (esxi.KernelModuleDetails modulename).1 = some module) :
    module.FileVersion = "" ∧ module.RequiredNamespaces = "" := by
  have hfold : ∀ (val : GoMap String (List String)) (init : EsxiKernelModule),
      (val.foldl kernelModuleKey init).FileVersion = init.FileVersion ∧
        (val.foldl kernelModuleKey init).RequiredNamespaces = init.RequiredNamespaces := by
    intro val
    induction val with
    | nil => intro init; exact ⟨rfl, rfl⟩
    | cons kv rest ih =>
      intro init
      have h1 := ih (kernelModuleKey init kv)
      have h2 := kernelModuleKey_never_sets init kv
      exact ⟨h1.1.trans h2.1, h1.2.trans h2.2⟩
  unfold Esxi.KernelModuleDetails at h
  split at h
  · simp at h
  · split at h
    · simp at h
    · split at h
      · simp at h
      · rename_i val _
        simp only [Option.some.injEq] at h
        subst h
        exact hfold val EsxiKernelModule.zero
      · simp at h

/-- C21: `KernelModuleDetails` on a response with exactly one entry, each key
with a single value.  The value of `FileVersion` is written to `ContainingVIB`,
where it replaces the value of the key `ContainingVIB` that was visited
before, and `FileVersion` and `RequiredNamespaces` stay empty; the keys with a
case of their own are copied. -/
theorem KernelModuleDetails_file_version_misplaced :
    ∃ module, esxiSwapobj.KernelModuleDetails "swapobj" = (some module, none) ∧
      module.ContainingVIB = "6.7.0" ∧ module.FileVersion = "" ∧
      module.RequiredNamespaces = "" ∧ module.Module = "swapobj" ∧
      module.License = "VMware" ∧ module.BuildType = "release" :=
  ⟨_, rfl, by decide, by decide, by decide, by decide, by decide, by decide⟩

/-- Every nic that `Vmknics` returns has a nil `Ipv6`: the result of the ipv6
query is assigned to `Ipv4`. -/
theorem vmknicsLoop_ipv6_nil (esxi : Esxi) (vals : List (GoMap String (List String)))
    (vmknics : List VmKernelNic) (err : GoError)
    (h : vmknicsLoop esxi vals = .ret (some vmknics, err)) :
    ∀ nic ∈ vmknics, nic.Ipv6 = none ∧ nic.Ipv4 = (esxi.VmknixIp "" "" "ipv6").1 := by
  induction vals generalizing vmknics err with
  | nil =>
    simp only [vmknicsLoop, Outcome.ret.injEq, Prod.mk.injEq, Option.some.injEq] at h
    intro nic hnic
    rw [← h.1] at hnic
    exact absurd hnic (List.not_mem_nil _)
  | cons val rest ih =>
    unfold vmknicsLoop at h
    simp only [] at h
    split at h
    · simp at h
    · split at h
      · simp at h
      · split at h
        · simp at h
        · split at h
          · simp at h
          · rename_i _ name _ _ netstack _ _ ipv4Params _ _ ipv6Params h6
            split at h
            · simp at h
            · rename_i _ tail htail
              simp only [Outcome.ret.injEq, Prod.mk.injEq, Option.some.injEq] at h
              intro nic hnic
              rw [← h.1] at hnic
              rcases List.mem_cons.mp hnic with rfl | hmem
              · refine ⟨rfl, ?_⟩
                have h6' : (esxi.VmknixIp "" "" "ipv6").1 = ipv6Params :=
                  congrArg Prod.fst h6
                exact h6'.symm
              · exact ih tail none htail nic hmem
            · rename_i _ other _ hother
              simp only [Outcome.ret.injEq] at h
              subst h
              exact ih vmknics err hother

/-- C22: `Vmknics` on a host with the interface `vmk0`.  The nic returned has
the properties of the ipv6 query in `Ipv4` and a nil `Ipv6`; the properties of
the ipv4 query are lost; `Properties` holds the single-valued keys of the
entry. -/
theorem Vmknics_ipv6_overwrites_ipv4 :
    esxiVmk0.Vmknics =
        .ret (some [{ Properties := [("NetstackInstance", "defaultTcpipStack"), ("Name", "vmk0")],
                      Ipv4 := some [("Address", "fe80::1")], Ipv6 := none }], none) ∧
      esxiVmk0.VmknixIp "vmk0" "defaultTcpipStack" "ipv4" =
        (some [("IPv4Address", "192.168.1.5")], none) ∧
      esxiVmk0.VmknixIp "vmk0" "defaultTcpipStack" "ipv6" =
        (some [("Address", "fe80::1")], none) := by
  decide

theorem mapGet_mem {V : Type} (m : GoMap String V) (k : String) (x : V)
    (h : mapGet m k = some x) : (k, x) ∈ m := by
  induction m with
  | nil => simp [mapGet] at h
  | cons p rest ih =>
    obtain ⟨k', v⟩ := p
    by_cases hk : k' = k
    · simp [mapGet, hk] at h
      subst h
      subst hk
      exact List.mem_cons_self _ _
    · simp [mapGet, hk] at h
      exact List.mem_cons_of_mem _ (ih h)

theorem mapGet_of_mem {V : Type} (m : GoMap String V) (k : String) (x : V)
    (hnd : (m.map Prod.fst).Nodup) (h : (k, x) ∈ m) : mapGet m k = some x := by
  induction m with
  | nil => exact absurd h (List.not_mem_nil _)
  | cons p rest ih =>
    obtain ⟨k', v⟩ := p
    rw [List.map_cons, List.nodup_cons] at hnd
    rcases List.mem_cons.mp h with e | hmem
    · cases e
      simp [mapGet]
    · have hk : k' ≠ k := by
        intro e
        apply hnd.1
        rw [e]
        exact List.mem_map.mpr ⟨(k, x), hmem, rfl⟩
      simp only [mapGet, hk, if_false]
      exact ih hnd.2 hmem

/-- A field that one key of the entry writes, and that no other key of the
entry changes, holds what that key writes after the loop over the keys, in
every visiting order. -/
theorem foldl_single_writer {S β : Type} (f : S → String × List String → S) (proj : S → β)
    (key : String) (x : List String) (b : β) (val : GoMap String (List String))
    (hnd : (val.map Prod.fst).Nodup) (hmem : (key, x) ∈ val)
    (hset : ∀ s, proj (f s (key, x)) = b)
    (hkeep : ∀ kv ∈ val, kv.1 ≠ key → ∀ s, proj (f s kv) = proj s) (init : S) :
    proj (val.foldl f init) = b := by
  induction val using List.reverseRecOn with
  | nil => exact absurd hmem (List.not_mem_nil _)
  | append_singleton front kv ih =>
    rw [List.foldl_append, List.foldl_cons, List.foldl_nil]
    rw [List.map_append, List.nodup_append] at hnd
    by_cases hk : kv.1 = key
    · have hx : kv = (key, x) := by
        rcases List.mem_append.mp hmem with hfront | hlast
        · exfalso
          apply hnd.2.2 (List.mem_map.mpr ⟨(key, x), hfront, rfl⟩)
          simp [hk]
        · exact (List.mem_singleton.mp hlast).symm
      rw [hx]
      exact hset _
    · rw [hkeep kv (List.mem_append_right _ (List.mem_singleton_self _)) hk]
      apply ih hnd.1
      · rcases List.mem_append.mp hmem with hfront | hlast
        · exact hfront
        · exfalso
          apply hk
          have := List.mem_singleton.mp hlast
          rw [← this]
      · intro kv' hkv'
        exact hkeep kv' (List.mem_append_left _ hkv')

/-- The first loop of `AdvancedSettings` on an entry that binds `Path`,
`DefaultIntValue` and `IntValue` to single values and has no single value for
`DefaultStringValue` and `StringValue`: the setting has the default and the
value of the integer keys and the dotted path as its key, in every visiting
order, and it is overridden exactly when the two differ. -/
theorem advancedSetting_without_string_values (val : GoMap String (List String))
    (p d v : String) (hnd : (val.map Prod.fst).Nodup)
    (hp : mapGet val "Path" = some [p])
    (hd : mapGet val "DefaultIntValue" = some [d])
    (hv : mapGet val "IntValue" = some [v])
    (hds : ∀ x, mapGet val "DefaultStringValue" ≠ some [x])
    (hsv : ∀ x, mapGet val "StringValue" ≠ some [x]) :
    (val.foldl advancedSettingKey .zero).Default = d ∧
      (val.foldl advancedSettingKey .zero).Value = v ∧
      (val.foldl advancedSettingKey .zero).Key = ReplaceAllChar (TrimPrefix p "/") '/' '.' ∧
      ((val.foldl advancedSettingKey .zero).Overridden = true ↔ d ≠ v) := by
  have hD : (val.foldl advancedSettingKey .zero).Default = d := by
    apply foldl_single_writer advancedSettingKey (fun s => s.Default) "DefaultIntValue" [d] d val
      hnd (mapGet_mem _ _ _ hd)
    · intro s
      rfl
    · intro kv hkv hne s
      obtain ⟨k, xs⟩ := kv
      have hdsv : ∀ x, (k, xs) ≠ ("DefaultStringValue", [x]) := by
        intro x e
        exact hds x (mapGet_of_mem _ _ _ hnd (e ▸ hkv))
      unfold advancedSettingKey
      split
      · rename_i value hval
        simp only at hval hne
        subst hval
        split <;> first | rfl | (rename_i hkey; simp only at hkey; subst hkey; first | exact absurd rfl hne | exact absurd rfl (hdsv value))
      · rfl
  have hV : (val.foldl advancedSettingKey .zero).Value = v := by
    apply foldl_single_writer advancedSettingKey (fun s => s.Value) "IntValue" [v] v val
      hnd (mapGet_mem _ _ _ hv)
    · intro s
      rfl
    · intro kv hkv hne s
      obtain ⟨k, xs⟩ := kv
      have hdsv : ∀ x, (k, xs) ≠ ("StringValue", [x]) := by
        intro x e
        exact hsv x (mapGet_of_mem _ _ _ hnd (e ▸ hkv))
      unfold advancedSettingKey
      split
      · rename_i value hval
        simp only at hval hne
        subst hval
        split <;> first | rfl | (rename_i hkey; simp only at hkey; subst hkey; first | exact absurd rfl hne | exact absurd rfl (hdsv value))
      · rfl
  have hK : (val.foldl advancedSettingKey .zero).Key = ReplaceAllChar (TrimPrefix p "/") '/' '.' := by
    apply foldl_single_writer advancedSettingKey (fun s => s.Key) "Path" [p] _ val
      hnd (mapGet_mem _ _ _ hp)
    · intro s
      rfl
    · intro kv hkv hne s
      obtain ⟨k, xs⟩ := kv
      unfold advancedSettingKey
      split
      · rename_i value hval
        simp only at hval hne
        subst hval
        split <;> first | rfl | (rename_i hkey; simp only at hkey; subst hkey; exact absurd rfl hne)
      · rfl
  refine ⟨hD, hV, hK, ?_⟩
  rw [EsxiAdvancedSetting.Overridden, hD, hV]
  simp

theorem advancedSetting_without_string_values_sample :
    ([("IntValue", ["0"]), ("Type", ["integer"]), ("DefaultIntValue", ["1"]),
        ("Path", ["/Net/TcpipHeapSize"])].foldl advancedSettingKey .zero).Default = "1" ∧
      ([("IntValue", ["0"]), ("Type", ["integer"]), ("DefaultIntValue", ["1"]),
        ("Path", ["/Net/TcpipHeapSize"])].foldl advancedSettingKey .zero).Key
          = "Net.TcpipHeapSize" := by
  have h := advancedSetting_without_string_values
    [("IntValue", ["0"]), ("Type", ["integer"]), ("DefaultIntValue", ["1"]),
      ("Path", ["/Net/TcpipHeapSize"])] "/Net/TcpipHeapSize" "1" "0"
    (by decide) (by decide) (by decide) (by decide)
    (fun x => by simp [mapGet]) (fun x => by simp [mapGet])
  exact ⟨h.1, h.2.2.1.trans (by decide)⟩

/-- C23: `AdvancedSettings` on an entry of the documented shape with default 1
and value 0, whose `DefaultStringValue` and `StringValue` are single empty
values.  When the string keys are visited after the integer keys the setting
has an empty `Default` and `Value` and does not count as overridden; when they
are visited before, it has `Default = 1`, `Value = 0` and counts as
overridden.  The key is the path without its leading slash, dots for
slashes. -/
theorem AdvancedSettings_depends_on_order :
    (esxiSettings settingEntry).AdvancedSettings =
        ([{ Key := "DataMover.HardwareAcceleratedMove",
            Path := "/DataMover/HardwareAcceleratedMove", Description := "",
            Default := "", Value := "" }], none) ∧
      (esxiSettings settingEntryReordered).AdvancedSettings =
        ([{ Key := "DataMover.HardwareAcceleratedMove",
            Path := "/DataMover/HardwareAcceleratedMove", Description := "",
            Default := "1", Value := "0" }], none) ∧
      (∀ s ∈ ((esxiSettings settingEntry).AdvancedSettings).1, s.Overridden = false) ∧
      (∀ s ∈ ((esxiSettings settingEntryReordered).AdvancedSettings).1, s.Overridden = true) := by
  decide

/-! ## Lemmas: ParseIni -/

theorem indexOfChar_none (c : Char) (s : List Char) (h : c ∉ s) : indexOfChar c s = none := by
  induction s with
  | nil => rfl
  | cons x rest ih =>
    have hx : x ≠ c := fun e => h (e ▸ List.mem_cons_self _ _)
    have hr : c ∉ rest := fun m => h (List.mem_cons_of_mem _ m)
    simp [indexOfChar, hx, ih hr]

theorem indexOfChar_some (c : Char) (s : List Char) (i : Nat) (h : indexOfChar c s = some i) :
    s.take i = s.takeWhile (fun x => !decide (x = c)) ∧
      s.drop (i + 1) = (s.dropWhile (fun x => !decide (x = c))).drop 1 := by
  induction s generalizing i with
  | nil => simp [indexOfChar] at h
  | cons x rest ih =>
    by_cases hx : x = c
    · simp [indexOfChar, hx] at h
      subst h
      simp [hx]
    · simp only [indexOfChar, hx, if_false, Option.map_eq_some'] at h
      obtain ⟨j, hj, rfl⟩ := h
      have := ih j hj
      simp [hx, this.1, this.2]

theorem indexOfChar_none_takeWhile (c : Char) (s : List Char) (h : indexOfChar c s = none) :
    s.takeWhile (fun x => !decide (x = c)) = s ∧ s.dropWhile (fun x => !decide (x = c)) = [] := by
  induction s with
  | nil => simp
  | cons x rest ih =>
    by_cases hx : x = c
    · simp [indexOfChar, hx] at h
    · simp only [indexOfChar, hx, if_false, Option.map_eq_none'] at h
      have := ih h
      simp [hx, this.1, this.2]

theorem splitN2_eq (s : List Char) :
    ∃ more, splitN2 '=' s = s.takeWhile (fun c => !decide (c = '=')) :: more ∧
      (match more with
        | [v0] => trimCut v0
        | _ => []) = iniValue s := by
  cases h : indexOfChar '=' s with
  | none =>
    have := indexOfChar_none_takeWhile '=' s h
    refine ⟨[], ?_, ?_⟩
    · simp [splitN2, h, this.1]
    · simp [iniValue, this.2, trimCut]
  | some i =>
    have := indexOfChar_some '=' s i h
    refine ⟨[s.drop (i + 1)], ?_, ?_⟩
    · simp [splitN2, h, this.1]
    · simp [iniValue, this.2]

theorem splitOnChar_ne_nil (sep : Char) (s : List Char) : splitOnChar sep s ≠ [] := by
  induction s with
  | nil => simp [splitOnChar]
  | cons c rest ih =>
    unfold splitOnChar
    split
    · simp
    · split <;> simp

theorem splitOnChar_mem (sep : Char) (s : List Char) :
    ∀ line ∈ splitOnChar sep s, ∀ c ∈ line, c ∈ s := by
  induction s with
  | nil =>
    intro line hl c hc
    simp [splitOnChar] at hl
    subst hl
    exact hc
  | cons x rest ih =>
    intro line hl c hc
    unfold splitOnChar at hl
    split at hl
    · rcases List.mem_cons.mp hl with rfl | hl
      · exact absurd hc (List.not_mem_nil _)
      · exact List.mem_cons_of_mem _ (ih line hl c hc)
    · split at hl
      · rename_i first others heq
        rcases List.mem_cons.mp hl with rfl | hl
        · rcases List.mem_cons.mp hc with rfl | hc
          · exact List.mem_cons_self _ _
          · exact List.mem_cons_of_mem _ (ih first (heq ▸ List.mem_cons_self _ _) c hc)
        · exact List.mem_cons_of_mem _ (ih line (heq ▸ List.mem_cons_of_mem _ hl) c hc)
      · rename_i heq
        exact absurd heq (splitOnChar_ne_nil sep rest)

/-- The body of the loop on a line of the root section without `#` and
without a leading `[`: it writes the binding of the line, if any. -/
theorem iniLine_root (st : IniState) (root : GoMap String String) (line : List Char)
    (hcur : st.curGroup = "") (hroot : mapGet st.Fields "" = some root)
    (hhash : '#' ∉ line) (hgroup : line.head? ≠ some '[') :
    ∃ st', iniLine st line = .ret st' ∧ st'.curGroup = "" ∧
      mapGet st'.Fields "" = some
        (match iniBinding line with
          | some p => mapSet root p.1 p.2
          | none => root) := by
  have hidx := indexOfChar_none '#' line hhash
  cases line with
  | nil =>
    refine ⟨st, ?_, hcur, ?_⟩
    · simp [iniLine, indexOfChar]
    · simp [iniBinding, iniKey, trimCut, hroot]
  | cons c rest =>
    have hc : c ≠ '[' := by
      intro e
      apply hgroup
      simp [e]
    obtain ⟨more, hsplit, hval⟩ := splitN2_eq (c :: rest)
    by_cases hk : trimCut ((c :: rest).takeWhile (fun c => !decide (c = '='))) = []
    · refine ⟨st, ?_, hcur, ?_⟩
      · simp only [iniLine, hidx, hc, if_false, hsplit, hk, if_true]
      · simp [iniBinding, iniKey, hk, hroot]
    · refine ⟨⟨st.curGroup, mapSet st.Fields st.curGroup
          (mapSet root (String.mk (iniKey (c :: rest))) (String.mk (iniValue (c :: rest))))⟩,
        ?_, hcur, ?_⟩
      · simp only [iniLine, hidx, hc, if_false, hsplit, hk, hval, hcur, hroot, iniKey]
      · simp only [hcur, mapGet_mapSet_self, iniBinding, iniKey, hk, if_false]

theorem iniLines_root (lines : List (List Char)) (st : IniState) (root : GoMap String String)
    (hcur : st.curGroup = "") (hroot : mapGet st.Fields "" = some root)
    (hhash : ∀ line ∈ lines, '#' ∉ line) (hgroup : ∀ line ∈ lines, line.head? ≠ some '[') :
    ∃ st', iniLines st lines = .ret st' ∧ st'.curGroup = "" ∧
      mapGet st'.Fields "" = some
        (lines.foldl (fun r l =>
          match iniBinding l with
          | some p => mapSet r p.1 p.2
          | none => r) root) := by
  induction lines generalizing st root with
  | nil => exact ⟨st, rfl, hcur, hroot⟩
  | cons line rest ih =>
    obtain ⟨st1, h1, hcur1, hroot1⟩ := iniLine_root st root line hcur hroot
      (hhash line (List.mem_cons_self _ _)) (hgroup line (List.mem_cons_self _ _))
    obtain ⟨st2, h2, hcur2, hroot2⟩ := ih st1 _ hcur1 hroot1
      (fun l hl => hhash l (List.mem_cons_of_mem _ hl))
      (fun l hl => hgroup l (List.mem_cons_of_mem _ hl))
    exact ⟨st2, by simp only [iniLines, h1, h2], hcur2, by simpa using hroot2⟩

theorem foldl_iniBinding_last (lines : List (List Char)) (root : GoMap String String)
    (k : String) (hk : k.data ≠ []) :
    mapGet (lines.foldl (fun r l =>
        match iniBinding l with
        | some p => mapSet r p.1 p.2
        | none => r) root) k =
      match (lines.filter (fun l => decide (iniKey l = k.data))).getLast? with
      | some l => some (String.mk (iniValue l))
      | none => mapGet root k := by
  induction lines using List.reverseRecOn with
  | nil => simp
  | append_singleton init l ih =>
    rw [List.foldl_append, List.filter_append]
    simp only [List.foldl_cons, List.foldl_nil]
    by_cases hl : iniKey l = k.data
    · have hne : iniKey l ≠ [] := hl ▸ hk
      have hkey : String.mk (iniKey l) = k := by rw [hl]
      have hb : iniBinding l = some (k, String.mk (iniValue l)) := by
        unfold iniBinding
        rw [if_neg hne, hkey]
      have hf : List.filter (fun l => decide (iniKey l = k.data)) [l] = [l] := by
        simp [hl]
      rw [hb, hf, List.getLast?_concat]
      exact mapGet_mapSet_self _ _ _
    · have hf : List.filter (fun l => decide (iniKey l = k.data)) [l] = [] := by
        simp [hl]
      rw [hf, List.append_nil, ← ih]
      by_cases hne : iniKey l = []
      · have hb : iniBinding l = none := by
          unfold iniBinding
          rw [if_pos hne]
        rw [hb]
      · have hkey : String.mk (iniKey l) ≠ k := by
          intro e
          apply hl
          rw [← e]
        have hb : iniBinding l = some (String.mk (iniKey l), String.mk (iniValue l)) := by
          unfold iniBinding
          rw [if_neg hne]
        rw [hb]
        exact mapGet_mapSet_ne _ _ _ _ hkey

theorem foldl_iniBinding_empty (lines : List (List Char)) (root : GoMap String String) :
    mapGet (lines.foldl (fun r l =>
        match iniBinding l with
        | some p => mapSet r p.1 p.2
        | none => r) root) "" = mapGet root "" := by
  induction lines generalizing root with
  | nil => rfl
  | cons l rest ih =>
    rw [List.foldl_cons, ih]
    by_cases hne : iniKey l = []
    · have hb : iniBinding l = none := by
        unfold iniBinding
        rw [if_pos hne]
      rw [hb]
    · have hkey : String.mk (iniKey l) ≠ "" := by
        intro e
        apply hne
        exact congrArg String.data e
      have hb : iniBinding l = some (String.mk (iniKey l), String.mk (iniValue l)) := by
        unfold iniBinding
        rw [if_neg hne]
      rw [hb]
      exact mapGet_mapSet_ne _ _ _ _ hkey

theorem isCut_iff (c : Char) : isCut c = true ↔ IsBlank c := by
  simp [isCut, IsBlank, or_assoc]

theorem dropWhile_of_head {α : Type} (p : α → Bool) (l : List α)
    (h : ∀ c, l.head? = some c → p c = false) : l.dropWhile p = l := by
  cases l with
  | nil => rfl
  | cons a rest => simp [List.dropWhile, h a rfl]

theorem head_dropWhile {α : Type} (p : α → Bool) (l : List α) :
    ∀ c, (l.dropWhile p).head? = some c → p c = false := by
  induction l with
  | nil => simp
  | cons a rest ih =>
    intro c hc
    by_cases ha : p a = true
    · rw [List.dropWhile_cons_of_pos ha] at hc
      exact ih c hc
    · rw [List.dropWhile_cons_of_neg ha] at hc
      simp only [List.head?_cons, Option.some.injEq] at hc
      subst hc
      simpa using ha

/-- The model of `strings.Trim` yields the trimmed text of the
specification. -/
theorem trimCut_isTrimmed (s : List Char) : IsTrimmed (trimCut s) s := by
  refine ⟨s.takeWhile isCut,
    (((s.dropWhile isCut).reverse).takeWhile isCut).reverse, ?_, ?_, ?_, ?_, ?_⟩
  · have h1 : s = s.takeWhile isCut ++ s.dropWhile isCut := (List.takeWhile_append_dropWhile _ _).symm
    have h2 : (s.dropWhile isCut).reverse =
        ((s.dropWhile isCut).reverse).takeWhile isCut ++
          ((s.dropWhile isCut).reverse).dropWhile isCut :=
      (List.takeWhile_append_dropWhile _ _).symm
    have h3 : s.dropWhile isCut =
        (((s.dropWhile isCut).reverse).dropWhile isCut).reverse ++
          (((s.dropWhile isCut).reverse).takeWhile isCut).reverse := by
      rw [← List.reverse_append, ← h2, List.reverse_reverse]
    unfold trimCut
    rw [List.append_assoc, ← h3, ← h1]
  · intro c hc
    exact (isCut_iff c).mp (List.mem_takeWhile_imp hc)
  · intro c hc
    exact (isCut_iff c).mp (List.mem_takeWhile_imp (List.mem_reverse.mp hc))
  · intro c hc hblank
    have hcut := (isCut_iff c).mpr hblank
    have h3 : s.dropWhile isCut =
        trimCut s ++ (((s.dropWhile isCut).reverse).takeWhile isCut).reverse := by
      unfold trimCut
      rw [← List.reverse_append, List.takeWhile_append_dropWhile, List.reverse_reverse]
    have hhead : (s.dropWhile isCut).head? = some c := by
      rw [h3]
      cases ht : trimCut s with
      | nil => rw [ht] at hc; cases hc
      | cons a rest =>
        rw [ht] at hc
        simpa using hc
    have := head_dropWhile isCut s c hhead
    rw [hcut] at this
    cases this
  · intro c hc hblank
    have hcut := (isCut_iff c).mpr hblank
    unfold trimCut at hc
    rw [List.getLast?_reverse] at hc
    have := head_dropWhile isCut _ c hc
    rw [hcut] at this
    cases this

/-- The trimmed text of the specification is the one that the model of
`strings.Trim` yields. -/
theorem isTrimmed_unique (t s : List Char) (h : IsTrimmed t s) : trimCut s = t := by
  obtain ⟨pre, suf, hs, hpre, hsuf, hhead, hlast⟩ := h
  subst hs
  unfold trimCut
  rw [List.append_assoc,
    List.dropWhile_append_of_pos (fun c hc => (isCut_iff c).mpr (hpre c hc))]
  cases t with
  | nil =>
    have hall : ∀ c ∈ ([] ++ suf), isCut c = true := fun c hc =>
      (isCut_iff c).mpr (hsuf c (by simpa using hc))
    have : List.dropWhile isCut ([] ++ suf) = [] := by
      rw [List.dropWhile_eq_nil_iff]
      exact hall
    rw [this]
    rfl
  | cons a rest =>
    have h1 : List.dropWhile isCut ((a :: rest) ++ suf) = (a :: rest) ++ suf := by
      apply dropWhile_of_head
      intro c hc
      have hca : c = a := by simpa using hc.symm
      have := hhead c (by rw [hca]; rfl)
      cases hcut : isCut c with
      | false => rfl
      | true => exact absurd ((isCut_iff c).mp hcut) this
    rw [h1, List.reverse_append,
      List.dropWhile_append_of_pos (fun c hc =>
        (isCut_iff c).mpr (hsuf c (List.mem_reverse.mp hc)))]
    have h2 : List.dropWhile isCut (a :: rest).reverse = (a :: rest).reverse := by
      apply dropWhile_of_head
      intro c hc
      rw [List.head?_reverse] at hc
      have := hlast c hc
      cases hcut : isCut c with
      | false => rfl
      | true => exact absurd ((isCut_iff c).mp hcut) this
    rw [h2, List.reverse_reverse]

theorem takeWhile_before (before rest : List Char) (h : '=' ∉ before)
    (hrest : rest = [] ∨ ∃ after, rest = '=' :: after) :
    (before ++ rest).takeWhile (fun c => !decide (c = '=')) = before ∧
      (before ++ rest).dropWhile (fun c => !decide (c = '=')) = rest := by
  have hall : ∀ c ∈ before, (!decide (c = '=')) = true := by
    intro c hc
    have : c ≠ '=' := fun e => h (e ▸ hc)
    simp [this]
  rw [List.takeWhile_append_of_pos hall, List.dropWhile_append_of_pos hall]
  rcases hrest with rfl | ⟨after, rfl⟩
  · simp
  · simp

theorem line_split (line : List Char) :
    '=' ∉ line.takeWhile (fun c => !decide (c = '=')) ∧
      (line.dropWhile (fun c => !decide (c = '=')) = [] ∨
        ∃ after, line.dropWhile (fun c => !decide (c = '=')) = '=' :: after) := by
  constructor
  · intro hmem
    have := List.mem_takeWhile_imp hmem
    simp at this
  · cases hd : line.dropWhile (fun c => !decide (c = '=')) with
    | nil => exact Or.inl rfl
    | cons a rest =>
      right
      have := head_dropWhile (fun c => !decide (c = '=')) line a (by rw [hd]; rfl)
      have ha : a = '=' := by simpa using this
      exact ⟨rest, by rw [ha]⟩

/-- The key of the specification is the key that the loop body computes. -/
theorem lineHasKey_iff (line : List Char) (k : String) :
    LineHasKey line k ↔ iniKey line = k.data := by
  constructor
  · rintro ⟨before, hne, hline, htrim⟩
    have htw : line.takeWhile (fun c => !decide (c = '=')) = before := by
      rcases hline with rfl | ⟨after, rfl⟩
      · simpa using (takeWhile_before line [] hne (Or.inl rfl)).1
      · exact (takeWhile_before before ('=' :: after) hne (Or.inr ⟨after, rfl⟩)).1
    unfold iniKey
    rw [htw]
    exact isTrimmed_unique _ _ htrim
  · intro h
    obtain ⟨hne, hdrop⟩ := line_split line
    refine ⟨line.takeWhile (fun c => !decide (c = '=')), hne, ?_, ?_⟩
    · have hsplit := (List.takeWhile_append_dropWhile (fun c => !decide (c = '=')) line).symm
      rcases hdrop with hnil | ⟨after, hafter⟩
      · left
        rw [hnil, List.append_nil] at hsplit
        exact hsplit
      · right
        rw [hafter] at hsplit
        exact ⟨after, hsplit⟩
    · rw [← h]
      exact trimCut_isTrimmed _

/-- The value of the specification is the value that the loop body
computes. -/
theorem lineHasValue_iff (line : List Char) (v : String) :
    LineHasValue line v ↔ v = String.mk (iniValue line) := by
  constructor
  · rintro (⟨before, after, hne, rfl, htrim⟩ | ⟨hne, rfl⟩)
    · have hdw := (takeWhile_before before ('=' :: after) hne (Or.inr ⟨after, rfl⟩)).2
      unfold iniValue
      rw [hdw, List.drop_one, List.tail_cons, isTrimmed_unique _ _ htrim]
    · have hdw := (takeWhile_before line [] hne (Or.inl rfl)).2
      rw [List.append_nil] at hdw
      unfold iniValue
      rw [hdw]
      rfl
  · intro h
    obtain ⟨hne, hdrop⟩ := line_split line
    have hsplit := (List.takeWhile_append_dropWhile (fun c => !decide (c = '=')) line).symm
    rcases hdrop with hnil | ⟨after, hafter⟩
    · right
      rw [hnil, List.append_nil] at hsplit
      refine ⟨hsplit ▸ hne, ?_⟩
      rw [h]
      unfold iniValue
      rw [hnil]
      rfl
    · left
      rw [hafter] at hsplit
      refine ⟨_, after, hne, hsplit, ?_⟩
      rw [h]
      unfold iniValue
      rw [hafter, List.drop_one, List.tail_cons]
      exact trimCut_isTrimmed _

theorem splitOnChar_no_sep (sep : Char) (l : List Char) (h : sep ∉ l) :
    splitOnChar sep l = [l] := by
  induction l with
  | nil => rfl
  | cons c rest ih =>
    have hc : c ≠ sep := fun e => h (e ▸ List.mem_cons_self _ _)
    have hr : sep ∉ rest := fun m => h (List.mem_cons_of_mem _ m)
    simp [splitOnChar, hc, ih hr]

theorem splitOnChar_append (sep : Char) (l rest : List Char) (h : sep ∉ l) :
    splitOnChar sep (l ++ sep :: rest) = l :: splitOnChar sep rest := by
  induction l with
  | nil => simp [splitOnChar]
  | cons c tail ih =>
    have hc : c ≠ sep := fun e => h (e ▸ List.mem_cons_self _ _)
    have hr : sep ∉ tail := fun m => h (List.mem_cons_of_mem _ m)
    simp [splitOnChar, hc, ih hr]

theorem intercalate_cons_cons (sep : List Char) (a b : List Char) (rest : List (List Char)) :
    List.intercalate sep (a :: b :: rest) = a ++ sep ++ List.intercalate sep (b :: rest) := by
  simp [List.intercalate, List.intersperse]

/-- The lines of the specification are the lines that the model of
`strings.Split` yields. -/
theorem isLinesOf_unique (lines : List (List Char)) (text : List Char)
    (h : IsLinesOf lines text) : splitOnChar '\n' text = lines := by
  obtain ⟨hne, htext, hnl⟩ := h
  subst htext
  induction lines with
  | nil => exact absurd rfl hne
  | cons a rest ih =>
    cases rest with
    | nil =>
      simp only [List.intercalate, List.intersperse, List.flatten, List.append_nil]
      exact splitOnChar_no_sep _ _ (hnl a (List.mem_cons_self _ _))
    | cons b rest =>
      rw [intercalate_cons_cons, List.append_assoc, List.singleton_append,
        splitOnChar_append _ _ _ (hnl a (List.mem_cons_self _ _)),
        ih (List.cons_ne_nil _ _) (fun l hl => hnl l (List.mem_cons_of_mem _ hl))]

/-- Every text has lines in the sense of the specification. -/
theorem splitOnChar_isLinesOf (text : List Char) : IsLinesOf (splitOnChar '\n' text) text := by
  refine ⟨splitOnChar_ne_nil _ _, ?_, ?_⟩
  · induction text with
    | nil => rfl
    | cons c rest ih =>
      unfold splitOnChar
      split
      · rename_i hc
        subst hc
        cases hrest : splitOnChar '\n' rest with
        | nil => exact absurd hrest (splitOnChar_ne_nil _ _)
        | cons b more =>
          rw [intercalate_cons_cons, ← hrest, ← ih]
          rfl
      · split
        · rename_i first others heq
          rw [heq] at ih
          cases others with
          | nil =>
            simp only [List.intercalate, List.intersperse, List.flatten, List.append_nil] at ih ⊢
            rw [ih]
          | cons b more =>
            rw [intercalate_cons_cons] at ih ⊢
            rw [ih]
            simp
        · rename_i heq
          exact absurd heq (splitOnChar_ne_nil _ _)
  · induction text with
    | nil =>
      intro line hl
      simp [splitOnChar] at hl
      subst hl
      exact List.not_mem_nil _
    | cons c rest ih =>
      intro line hl
      unfold splitOnChar at hl
      split at hl
      · rcases List.mem_cons.mp hl with rfl | hl
        · exact List.not_mem_nil _
        · exact ih line hl
      · rename_i hc
        split at hl
        · rename_i first others heq
          rcases List.mem_cons.mp hl with rfl | hl
          · intro hmem
            rcases List.mem_cons.mp hmem with e | hmem
            · exact hc e.symm
            · exact ih first (heq ▸ List.mem_cons_self _ _) hmem
          · exact ih line (heq ▸ List.mem_cons_of_mem _ hl)
        · rename_i heq
          exact absurd heq (splitOnChar_ne_nil _ _)

/-- The last element of a list that satisfies a test, as a cut of the list. -/
theorem filter_getLast_iff {α : Type} (p : α → Bool) (l : List α) (a : α) :
    (l.filter p).getLast? = some a ↔
      ∃ front back, l = front ++ a :: back ∧ p a = true ∧ ∀ b ∈ back, p b = false := by
  induction l with
  | nil => simp
  | cons x rest ih =>
    constructor
    · intro h
      cases hrest : (rest.filter p).getLast? with
      | some a' =>
        have hne : rest.filter p ≠ [] := by
          intro e
          rw [e] at hrest
          cases hrest
        have hlast : ((x :: rest).filter p).getLast? = (rest.filter p).getLast? := by
          by_cases hx : p x = true
          · rw [List.filter_cons_of_pos hx]
            obtain ⟨y, ys, hys⟩ := List.exists_cons_of_ne_nil hne
            rw [hys, List.getLast?_cons_cons]
          · rw [List.filter_cons_of_neg hx]
        rw [hlast] at h
        obtain ⟨front, back, hl, hp, hback⟩ := ih.mp h
        exact ⟨x :: front, back, by rw [hl]; rfl, hp, hback⟩
      | none =>
        have hnil : rest.filter p = [] := by
          cases hf : rest.filter p with
          | nil => rfl
          | cons y ys =>
            rw [hf] at hrest
            have := List.getLast?_isSome.mpr (List.cons_ne_nil y ys)
            rw [hrest] at this
            cases this
        by_cases hx : p x = true
        · rw [List.filter_cons_of_pos hx, hnil] at h
          simp only [List.getLast?_singleton, Option.some.injEq] at h
          subst h
          refine ⟨[], rest, rfl, hx, ?_⟩
          intro b hb
          have := List.filter_eq_nil_iff.mp hnil b hb
          simpa using this
        · rw [List.filter_cons_of_neg hx, hnil] at h
          cases h
    · rintro ⟨front, back, hl, hp, hback⟩
      cases front with
      | nil =>
        simp only [List.nil_append, List.cons.injEq] at hl
        obtain ⟨rfl, rfl⟩ := hl
        have hnil : rest.filter p = [] := by
          rw [List.filter_eq_nil_iff]
          intro b hb
          simp [hback b hb]
        rw [List.filter_cons_of_pos hp, hnil]
        rfl
      | cons y front =>
        simp only [List.cons_append, List.cons.injEq] at hl
        obtain ⟨rfl, hrest⟩ := hl
        have hlast := ih.mpr ⟨front, back, hrest, hp, hback⟩
        have hne : rest.filter p ≠ [] := by
          intro e
          rw [e] at hlast
          cases hlast
        by_cases hx : p x = true
        · rw [List.filter_cons_of_pos hx]
          obtain ⟨z, zs, hzs⟩ := List.exists_cons_of_ne_nil hne
          rw [hzs, List.getLast?_cons_cons, ← hzs]
          exact hlast
        · rw [List.filter_cons_of_neg hx]
          exact hlast

/-- C24: the root section of `ParseIni`.  For every text without `#` and
without a line beginning with `[`, the parse returns, the result has a root
section, and the root section maps `k` to `v` exactly when `k` is not empty,
some line has `k` as the text before its first `=` trimmed of spaces, tabs and
carriage returns, and `v` is the text after the first `=` of the last such
line, trimmed the same way, the empty string when that line has no `=`. -/
theorem ParseIni_root_section (raw : String) (lines : List (List Char))
    (hlines : IsLinesOf lines raw.data) (hhash : '#' ∉ raw.data)
    (hgroup : ∀ line ∈ lines, line.head? ≠ some '[') :
    ∃ ini root, ParseIni raw = .ret ini ∧ mapGet ini.Fields "" = some root ∧
      ∀ k v, mapGet root k = some v ↔
        (k ≠ "" ∧ ∃ front line back, lines = front ++ line :: back ∧
          LineHasKey line k ∧ (∀ later ∈ back, ¬ LineHasKey later k) ∧
          LineHasValue line v) := by
  have hsplit : splitOnChar '\n' raw.data = lines := isLinesOf_unique lines raw.data hlines
  obtain ⟨st, hst, _, hroot⟩ := iniLines_root lines
    { curGroup := "", Fields := mapSet [] "" [] } [] rfl (by simp [mapSet, mapGet, mapDelete])
    (fun line hl hc => hhash (splitOnChar_mem '\n' raw.data line (hsplit ▸ hl) '#' hc)) hgroup
  refine ⟨{ Fields := st.Fields }, _, by simp only [ParseIni, hsplit, hst], hroot, ?_⟩
  intro k v
  by_cases hk : k.data = []
  · have hk' : k = "" := by
      cases k
      simp_all
    subst hk'
    constructor
    · intro h
      rw [foldl_iniBinding_empty] at h
      simp [mapGet] at h
    · intro h
      exact absurd rfl h.1
  · have hk' : k ≠ "" := by
      intro e
      apply hk
      rw [e]
    have hcut : ∀ line,
        (lines.filter (fun l => decide (iniKey l = k.data))).getLast? = some line ↔
          ∃ front back, lines = front ++ line :: back ∧ LineHasKey line k ∧
            ∀ later ∈ back, ¬ LineHasKey later k := by
      intro line
      rw [filter_getLast_iff]
      constructor
      · rintro ⟨front, back, hl, hp, hback⟩
        refine ⟨front, back, hl, (lineHasKey_iff _ _).mpr (by simpa using hp), ?_⟩
        intro later hlater hkey
        have := hback later hlater
        simp [(lineHasKey_iff _ _).mp hkey] at this
      · rintro ⟨front, back, hl, hp, hback⟩
        refine ⟨front, back, hl, by simpa using (lineHasKey_iff _ _).mp hp, ?_⟩
        intro later hlater
        have := hback later hlater
        rw [lineHasKey_iff] at this
        simpa using this
    rw [foldl_iniBinding_last _ _ k hk]
    constructor
    · intro h
      refine ⟨hk', ?_⟩
      cases hlast : (lines.filter (fun l => decide (iniKey l = k.data))).getLast? with
      | none => simp [hlast, mapGet] at h
      | some line =>
        rw [hlast] at h
        simp only [Option.some.injEq] at h
        obtain ⟨front, back, hl, hp, hback⟩ := (hcut line).mp hlast
        exact ⟨front, line, back, hl, hp, hback, (lineHasValue_iff _ _).mpr h.symm⟩
    · rintro ⟨_, front, line, back, hl, hp, hback, hv⟩
      rw [(hcut line).mpr ⟨front, back, hl, hp, hback⟩, (lineHasValue_iff _ _).mp hv]

/-- C24 at a concrete input: a text whose lines hold a value with a later `=`,
an empty key, a key bound twice and a line without `=`.  The later `=` stays
in the value of `url`, the last line of `a` wins, `flag` has the empty value,
and the line with the empty key binds nothing. -/
theorem ParseIni_root_section_witness :
    ∃ ini root, ParseIni iniSample = .ret ini ∧ mapGet ini.Fields "" = some root ∧
      mapGet root "url" = some "http://h/?q=1" ∧ mapGet root "a" = some "2" ∧
      mapGet root "flag" = some "" ∧ mapGet root "" = none ∧ mapGet root "x" = none := by
  obtain ⟨ini, root, hparse, hroot, hiff⟩ := ParseIni_root_section iniSample iniSampleLines
    ⟨by decide, by decide, by decide⟩ (by decide) (by decide)
  refine ⟨ini, root, hparse, hroot, ?_, ?_, ?_, ?_, ?_⟩
  · exact (hiff "url" "http://h/?q=1").mpr ⟨by decide, [], "url = http://h/?q=1".data,
      [" = x".data, "a=1".data, "a = 2".data, "flag".data], rfl,
      (lineHasKey_iff _ _).mpr (by decide),
      fun later hl hkey =>
        (by decide : ∀ later ∈ [" = x".data, "a=1".data, "a = 2".data, "flag".data],
          iniKey later ≠ "url".data) later hl ((lineHasKey_iff _ _).mp hkey),
      (lineHasValue_iff _ _).mpr (by decide)⟩
  · exact (hiff "a" "2").mpr ⟨by decide, ["url = http://h/?q=1".data, " = x".data, "a=1".data],
      "a = 2".data, ["flag".data], rfl,
      (lineHasKey_iff _ _).mpr (by decide),
      fun later hl hkey =>
        (by decide : ∀ later ∈ ["flag".data], iniKey later ≠ "a".data) later hl
          ((lineHasKey_iff _ _).mp hkey),
      (lineHasValue_iff _ _).mpr (by decide)⟩
  · exact (hiff "flag" "").mpr ⟨by decide,
      ["url = http://h/?q=1".data, " = x".data, "a=1".data, "a = 2".data],
      "flag".data, [], rfl,
      (lineHasKey_iff _ _).mpr (by decide),
      fun later hl _ => absurd hl (List.not_mem_nil _),
      (lineHasValue_iff _ _).mpr (by decide)⟩
  · cases hget : mapGet root "" with
    | none => rfl
    | some v => exact absurd rfl ((hiff "" v).mp hget).1
  · cases hget : mapGet root "x" with
    | none => rfl
    | some v =>
      obtain ⟨_, front, line, back, hl, hkey, _, _⟩ := (hiff "x" v).mp hget
      have hmem : line ∈ iniSampleLines := by
        rw [hl]
        exact List.mem_append_right _ (List.mem_cons_self _ _)
      exact absurd ((lineHasKey_iff _ _).mp hkey)
        ((by decide : ∀ line ∈ iniSampleLines, iniKey line ≠ "x".data) line hmem)

/-- The parse of the sample text, evaluated. -/
theorem ParseIni_sample :
    ParseIni iniSample =
      .ret { Fields := [("", [("flag", ""), ("a", "2"), ("url", "http://h/?q=1")])] } := by
  decide

end Cnquery
